import Mathlib

/-!
# cheqd-node: DID document registry, signer requirements of create and update

A shallow embedding of `x/cheqd/keeper/msg_server_did.go` (CreateDid, UpdateDid,
UpdateDidVerifySignature, AppendSignerIfNeed) over the document types of
`x/cheqd/types/did.pb.go`.

Go slices are Lean lists.  A nil slice and an empty slice are both the empty list,
because the embedded code only ranges over, measures and appends to its slices; the one
exception is `VerificationMethod.PublicKeyJwk`, which is compared by `reflect.DeepEqual`
and therefore keeps the difference between a nil slice (`none`) and a slice that is not
nil (`some _`).  Pointers to structs are the structs themselves (no nil element).

Functions and types of the repository that are declared outside the embedded files are
either fields of `Env` (a parameter of every operation) or definitions whose comment
starts with "Modelled from the spec".
-/

namespace Cheqd

set_option linter.dupNamespace false

/-! ## Document model (types/did.pb.go) -/

/-- Modelled from the spec: the declaration of `KeyValuePair` is outside the embedded
files.  It is the element of the "structured public-key representation" of a verification
method; the name says it pairs a key with a value. -/
structure KeyValuePair where
  Key : String
  Value : String
deriving DecidableEq, Repr

/-- The struct `VerificationMethod` of did.pb.go.  `Typ` is the Go field `Type`. -/
structure VerificationMethod where
  Id : String
  Typ : String
  Controller : String
  PublicKeyJwk : Option (List KeyValuePair)
  PublicKeyMultibase : String
deriving DecidableEq, Repr

/-- The struct `Service` of did.pb.go.  `Typ` is the Go field `Type`. -/
structure Service where
  Id : String
  Typ : String
  ServiceEndpoint : String
deriving DecidableEq, Repr

/-- The struct `Did` of did.pb.go. -/
structure Did where
  Context : List String
  Id : String
  Controller : List String
  VerificationMethod : List VerificationMethod
  Authentication : List String
  AssertionMethod : List String
  CapabilityInvocation : List String
  CapabilityDelegation : List String
  KeyAgreement : List String
  Service : List Service
  AlsoKnownAs : List String
deriving DecidableEq, Repr

/-- Modelled from the spec: the declaration of `MsgUpdateDid` is outside the embedded
files.  Its fields are the ones UpdateDid reads (msg_server_did.go lines 96-112): the
document fields and the asserted `VersionId`. -/
structure MsgUpdateDid where
  Context : List String
  Id : String
  Controller : List String
  VerificationMethod : List VerificationMethod
  Authentication : List String
  AssertionMethod : List String
  CapabilityInvocation : List String
  CapabilityDelegation : List String
  KeyAgreement : List String
  Service : List Service
  AlsoKnownAs : List String
  VersionId : String
deriving DecidableEq, Repr

/-- Modelled from the spec: the declaration of `MsgCreateDid` is outside the embedded
files.  Its fields are the ones CreateDid reads (msg_server_did.go lines 38-50). -/
structure MsgCreateDid where
  Context : List String
  Id : String
  Controller : List String
  VerificationMethod : List VerificationMethod
  Authentication : List String
  AssertionMethod : List String
  CapabilityInvocation : List String
  CapabilityDelegation : List String
  KeyAgreement : List String
  Service : List Service
  AlsoKnownAs : List String
deriving DecidableEq, Repr

/-- The struct literal `types.Metadata` written by CreateDid and UpdateDid. -/
structure Metadata where
  Created : String
  Updated : String
  Deactivated : Bool
  VersionId : String
deriving DecidableEq, Repr

/-- Modelled from the spec: the declaration of `Signer` is outside the embedded files.
It is the spec's Signer Requirement: a principal and the keys it may sign with.  The
fields are the three that AppendSignerIfNeed assigns; the literal
`types.Signer{Signer: c}` leaves the two slices empty (no key restriction). -/
structure Signer where
  Signer : String
  Authentication : List String
  VerificationMethod : List VerificationMethod
deriving DecidableEq, Repr

/-- The principals of a signer list, in order. -/
def principals (signers : List Signer) : List String :=
  signers.map (fun s => s.Signer)

/-- The literal `types.Signer{Signer: controller}`: no verification method and no
authentication attached. -/
def bareSigner (controller : String) : Signer :=
  { Signer := controller, Authentication := [], VerificationMethod := [] }

/-! ## reflect.DeepEqual on verification methods -/

/-- The call `reflect.DeepEqual` on two `KeyValuePair` values: field by field. -/
def DeepEqualKeyValuePair (a b : KeyValuePair) : Bool :=
  a.Key == b.Key && a.Value == b.Value

/-- The call `reflect.DeepEqual` on two slices of key-value pairs: both nil, or both not
nil with the same length and deeply equal elements.  A nil slice and an empty slice that
is not nil are not deeply equal. -/
def DeepEqualJwk : Option (List KeyValuePair) → Option (List KeyValuePair) → Bool
  | none, none => true
  | some xs, some ys =>
    xs.length == ys.length && (List.zipWith DeepEqualKeyValuePair xs ys).all id
  | _, _ => false

/-- The call `reflect.DeepEqual(oldVM, newVM)` of UpdateDidVerifySignature (line 164) on
two verification methods: every field is compared. -/
def DeepEqual (a b : VerificationMethod) : Bool :=
  a.Id == b.Id && a.Typ == b.Typ && a.Controller == b.Controller &&
    DeepEqualJwk a.PublicKeyJwk b.PublicKeyJwk &&
    a.PublicKeyMultibase == b.PublicKeyMultibase

/-! ## Helpers declared outside the embedded files -/

/-- Modelled from the spec: `strings.Complement` is declared outside the embedded files.
Section 4.3 step 3: "every controller present in old.controller but absent from
new.controller", in the order of the first list. -/
def Complement (vs ts : List String) : List String :=
  vs.filter (fun v => !ts.contains v)

/-- Modelled from the spec: `FindVerificationMethod` is declared outside the embedded
files.  Section 4.2: "lookup of a Verification Method by id within a document (set
semantics, first/only match)"; `none` is the nil result. -/
def FindVerificationMethod (vms : List VerificationMethod) (id : String) :
    Option VerificationMethod :=
  vms.find? (fun vm => vm.Id == id)

/-- The default controller of lines 135-145: an empty controller list stands for the
document's own id. -/
def expandController (controller : List String) (id : String) : List String :=
  if controller.length = 0 then [id] else controller

/-! ## AppendSignerIfNeed and the signer list of an update -/

/-- The function `AppendSignerIfNeed` (lines 181-198). -/
def AppendSignerIfNeed (signers : List Signer) (controller : String) (msg : MsgUpdateDid) :
    List Signer :=
  if signers.any (fun signer => signer.Signer == controller) then signers
  else
    let signer : Signer := bareSigner controller
    let signer : Signer :=
      if controller = msg.Id then
        { signer with VerificationMethod := msg.VerificationMethod,
                      Authentication := msg.Authentication }
      else signer
    signers ++ [signer]

/-- The removed-controller loop (lines 148-152): every removed controller is appended as a
bare signer. -/
def appendRemovedControllers (signers : List Signer) (removedControllers : List String) :
    List Signer :=
  if removedControllers.length > 0 then
    removedControllers.foldl (fun acc controller => acc ++ [bareSigner controller]) signers
  else signers

/-- One iteration of the verification-method loop (lines 154-172) for `oldVM`. -/
def verificationMethodStep (newDIDDoc : MsgUpdateDid) (signers : List Signer)
    (oldVM : VerificationMethod) : List Signer :=
  match FindVerificationMethod newDIDDoc.VerificationMethod oldVM.Id with
  | none => AppendSignerIfNeed signers oldVM.Controller newDIDDoc
  | some newVM =>
    let signers :=
      if !DeepEqual oldVM newVM then AppendSignerIfNeed signers newVM.Controller newDIDDoc
      else signers
    if newVM.Controller != oldVM.Controller then
      AppendSignerIfNeed signers oldVM.Controller newDIDDoc
    else signers

/-- The signer list that UpdateDidVerifySignature (lines 132-172) builds from the seed
`newDIDDoc.GetSigners()` and hands to VerifySignature. -/
def requiredSigners (seed : List Signer) (oldDIDDoc : Did) (newDIDDoc : MsgUpdateDid) :
    List Signer :=
  let oldController := expandController oldDIDDoc.Controller oldDIDDoc.Id
  let newController := expandController newDIDDoc.Controller newDIDDoc.Id
  let signers := appendRemovedControllers seed (Complement oldController newController)
  oldDIDDoc.VerificationMethod.foldl (verificationMethodStep newDIDDoc) signers

/-! ## Errors, messages, context and store -/

/-- The registered errors that CreateDid and UpdateDid wrap or pass on
(`sdkerrors.ErrUnknownRequest`, `sdkerrors.ErrKeyNotFound`,
`types.ErrUnexpectedDidVersion`) and the ones the spec lists for the collaborators. -/
inductive ErrorKind where
  | UnknownRequest
  | KeyNotFound
  | UnexpectedDidVersion
  | DidDocExists
  | DidDocNotFound
  | InvalidSignature
  | SignatureNotFound
  | VerificationMethodNotFound
  | BadRequest
deriving DecidableEq, Repr

/-- Modelled from the spec: the text of a registered error; the registrations are
declared outside the embedded files.  The texts "DID Doc exists", "DID Doc not found",
"invalid signature detected", "signature is required but not found" and "verification
method not found" are the ones handler_test.go asserts after the wrapped description; the
remaining errors stand under their names. -/
def ErrorKind.text : ErrorKind → String
  | .UnknownRequest => "unknown request"
  | .KeyNotFound => "key not found"
  | .UnexpectedDidVersion => "unexpected DID version"
  | .DidDocExists => "DID Doc exists"
  | .DidDocNotFound => "DID Doc not found"
  | .InvalidSignature => "invalid signature detected"
  | .SignatureNotFound => "signature is required but not found"
  | .VerificationMethodNotFound => "verification method not found"
  | .BadRequest => "bad request"

/-- The value of `sdkerrors.Wrap(kind, description)`: a registered error with the text it
was wrapped with. -/
structure Error where
  kind : ErrorKind
  description : String
deriving DecidableEq, Repr

/-- The string of a wrapped error, `err.Error()`: the description, a colon and the text of
the registered error, as in the test expectation "<id>: DID Doc exists". -/
def Error.message (err : Error) : String :=
  err.description ++ ": " ++ err.kind.text

/-- Modelled from the spec: the payload of `MsgWriteRequest.Data` after
`GetCachedValue()`, a dynamically typed value that the two type assertions of lines 20 and
73 test; section 9 describes it as a closed tagged union over the request kinds. -/
inductive MsgData where
  | CreateDid (didMsg : MsgCreateDid)
  | UpdateDid (didMsg : MsgUpdateDid)
  | Other (typeUrl : String)
deriving DecidableEq, Repr

/-- Modelled from the spec: the declaration of `MsgWriteRequest` is outside the embedded
files.  It carries the message and the signature bundle of section 6, "mapping
verification-method id to raw signature bytes". -/
structure MsgWriteRequest where
  Data : MsgData
  Signatures : List (String × String)
deriving DecidableEq, Repr

/-- The response of CreateDid (lines 64-66). -/
structure MsgCreateDidResponse where
  Id : String
deriving DecidableEq, Repr

/-- The response of UpdateDid (lines 127-129). -/
structure MsgUpdateDidResponse where
  Id : String
deriving DecidableEq, Repr

/-- The parts of `sdk.Context` that the two handlers read: `ChainID()`, the string of
`BlockTime()` and `TxBytes()`. -/
structure Context where
  ChainID : String
  BlockTime : String
  TxBytes : List UInt8
deriving DecidableEq, Repr

/-- Modelled from the spec: the stored value of one document, read by UpdateDid through
`oldDIDDoc.GetDid()` and `oldDIDDoc.Metadata`.  It keeps the four things that
`SetDid(ctx, did, &metadata, timestamp, txHash)` is given. -/
structure StateValue where
  Did : Did
  Metadata : Metadata
  Timestamp : String
  TxHash : String
deriving DecidableEq, Repr

/-- Modelled from the spec: the versioned store of section 4.5, documents and metadata
keyed by identifier.  An association list with at most one live entry per key (the first
one). -/
abbrev Store := List (String × StateValue)

/-- Modelled from the spec: `has(id) -> bool` of section 4.5, the call `k.HasDid` of
line 83. -/
def Store.HasDid (store : Store) (id : String) : Bool :=
  (List.lookup id store).isSome

/-- Modelled from the spec: `get(id) -> Document|NotFound` of section 4.5, the call
`k.GetDid` of line 87. -/
def Store.GetDid (store : Store) (id : String) : Except Error StateValue :=
  match List.lookup id store with
  | some value => .ok value
  | none => .error { kind := .DidDocNotFound, description := id }

/-- Modelled from the spec: the existence check `k.HasDidDoc` of line 34: "creation fails
if already present", with the error text asserted by TestCreateDID
("<id>: DID Doc exists"). -/
def Store.HasDidDoc (store : Store) (id : String) : Option Error :=
  if store.HasDid id then some { kind := .DidDocExists, description := id } else none

/-- Modelled from the spec: `put(id, Document, Metadata)` of section 4.5, the call
`k.SetDid` of line 125. -/
def Store.SetDid (store : Store) (did : Did) (metadata : Metadata) (timestamp txHash : String) :
    Store :=
  (did.Id, { Did := did, Metadata := metadata, Timestamp := timestamp, TxHash := txHash }) ::
    store.filter (fun entry => entry.1 != did.Id)

/-- Modelled from the spec: `put(id, Document, Metadata)` of section 4.5, the call
`k.AppendDid` of line 62 (the five-argument one; the `AppendDid` of keeper/did.go is the
legacy registry). -/
def Store.AppendDid (store : Store) (did : Did) (metadata : Metadata)
    (timestamp txHash : String) : Store :=
  store.SetDid did metadata timestamp txHash

/-- The collaborators of the two handlers that are declared outside the embedded files,
taken as parameters: constants of package types, `ValidateBasic` and `GetSigners` of the
two messages, the keeper's `VerifySignature` (it reads the context and the store and
returns an error or nil), and the library functions `tmhash.Sum` and
`base64.StdEncoding.EncodeToString`. -/
structure Env where
  DidPrefix : String
  ModuleName : String
  ValidateBasicCreate : MsgCreateDid → String → Option Error
  ValidateBasicUpdate : MsgUpdateDid → String → Option Error
  GetSignersCreate : MsgCreateDid → List Signer
  GetSignersUpdate : MsgUpdateDid → List Signer
  VerifySignature : Context → Store → MsgWriteRequest → List Signer → Option Error
  TmhashSum : List UInt8 → List UInt8
  Base64Encode : List UInt8 → String

/-- The function `GetTxHash` of utils/encoding.go, the expression of lines 53 and 116. -/
def GetTxHash (env : Env) (txBytes : List UInt8) : String :=
  env.Base64Encode (env.TmhashSum txBytes)

/-! ## The handlers -/

/-- The method `UpdateDidVerifySignature` (lines 132-179): the signer list is built and
handed to VerifySignature, whose error is returned. -/
def UpdateDidVerifySignature (env : Env) (ctx : Context) (store : Store) (msg : MsgWriteRequest)
    (oldDIDDoc : Did) (newDIDDoc : MsgUpdateDid) : Option Error :=
  env.VerifySignature ctx store msg
    (requiredSigners (env.GetSignersUpdate newDIDDoc) oldDIDDoc newDIDDoc)

/-- The error of lines 22 and 75. -/
def unrecognizedMessage (env : Env) : Error :=
  { kind := .UnknownRequest,
    description := "unrecognized " ++ env.ModuleName ++ " message type: *types.MsgWriteRequest" }

/-- The error of line 84. -/
def keyNotFound (id : String) : Error :=
  { kind := .KeyNotFound, description := "key " ++ id ++ " doesn't exist" }

/-- The error of lines 97-98. -/
def unexpectedDidVersion (id storedVersion gotVersion : String) : Error :=
  { kind := .UnexpectedDidVersion,
    description := "Ecpected " ++ id ++ " with version " ++ storedVersion ++
      ". Got version " ++ gotVersion }

/-- The method `CreateDid` (lines 16-67).  The result is the returned pair (response or
error) and the store after the call. -/
def CreateDid (env : Env) (ctx : Context) (store : Store) (msg : MsgWriteRequest) :
    Except Error MsgCreateDidResponse × Store :=
  let pfx := env.DidPrefix ++ ctx.ChainID ++ ":"
  match msg.Data with
  | .CreateDid didMsg =>
    match env.ValidateBasicCreate didMsg pfx with
    | some err => (.error err, store)
    | none =>
    match env.VerifySignature ctx store msg (env.GetSignersCreate didMsg) with
    | some err => (.error err, store)
    | none =>
    match store.HasDidDoc didMsg.Id with
    | some err => (.error err, store)
    | none =>
      let did : Did :=
        { Id := didMsg.Id
          Controller := didMsg.Controller
          VerificationMethod := didMsg.VerificationMethod
          Authentication := didMsg.Authentication
          AssertionMethod := didMsg.AssertionMethod
          CapabilityInvocation := didMsg.CapabilityInvocation
          CapabilityDelegation := didMsg.CapabilityDelegation
          KeyAgreement := didMsg.KeyAgreement
          AlsoKnownAs := didMsg.AlsoKnownAs
          Service := didMsg.Service
          Context := didMsg.Context }
      let timestamp := ctx.BlockTime
      let txHash := env.Base64Encode (env.TmhashSum ctx.TxBytes)
      let metadata : Metadata :=
        { Created := timestamp
          Deactivated := false
          Updated := timestamp
          VersionId := txHash }
      (.ok { Id := didMsg.Id }, store.AppendDid did metadata timestamp txHash)
  | _ => (.error (unrecognizedMessage env), store)

/-- The method `UpdateDid` (lines 69-130).  The result is the returned pair (response or
error) and the store after the call. -/
def UpdateDid (env : Env) (ctx : Context) (store : Store) (msg : MsgWriteRequest) :
    Except Error MsgUpdateDidResponse × Store :=
  let pfx := env.DidPrefix ++ ctx.ChainID ++ ":"
  match msg.Data with
  | .UpdateDid didMsg =>
    match env.ValidateBasicUpdate didMsg pfx with
    | some err => (.error err, store)
    | none =>
    if !store.HasDid didMsg.Id then (.error (keyNotFound didMsg.Id), store)
    else
    match store.GetDid didMsg.Id with
    | .error err => (.error err, store)
    | .ok oldDIDDoc =>
    match UpdateDidVerifySignature env ctx store msg oldDIDDoc.Did didMsg with
    | some err => (.error err, store)
    | none =>
    if oldDIDDoc.Metadata.VersionId != didMsg.VersionId then
      (.error (unexpectedDidVersion didMsg.Id oldDIDDoc.Metadata.VersionId didMsg.VersionId),
        store)
    else
      let did : Did :=
        { Id := didMsg.Id
          Controller := didMsg.Controller
          VerificationMethod := didMsg.VerificationMethod
          Authentication := didMsg.Authentication
          AssertionMethod := didMsg.AssertionMethod
          CapabilityInvocation := didMsg.CapabilityInvocation
          CapabilityDelegation := didMsg.CapabilityDelegation
          KeyAgreement := didMsg.KeyAgreement
          AlsoKnownAs := didMsg.AlsoKnownAs
          Service := didMsg.Service
          Context := didMsg.Context }
      let timestamp := ctx.BlockTime
      let txHash := env.Base64Encode (env.TmhashSum ctx.TxBytes)
      let metadata : Metadata :=
        { Created := oldDIDDoc.Metadata.Created
          Deactivated := oldDIDDoc.Metadata.Deactivated
          Updated := timestamp
          VersionId := txHash }
      (.ok { Id := didMsg.Id }, store.SetDid did metadata timestamp txHash)
  | _ => (.error (unrecognizedMessage env), store)

/-! ## Collaborators modelled from the spec, for evaluation on concrete requests -/

/-- The signer requirement of a document for itself: the principal is the document's id
and the allowed keys are the document's own verification methods and authentication. -/
def selfSigner (id : String) (authentication : List String)
    (verificationMethod : List VerificationMethod) : Signer :=
  { Signer := id, Authentication := authentication, VerificationMethod := verificationMethod }

/-- Modelled from the spec: `GetSigners` of the create message is declared outside the
embedded files.  Section 4.3, Create: one required signer "for every controller entry
(after default expansion)"; the entry for the document's own id is the self-signer, "whose
allowed verification methods are the new document's own authentication set".
TestCreateDID ("Valid: With controller works") accepts a request signed by its two
controllers alone, so declared controllers add no further self entry. -/
def MsgCreateDid.GetSigners (msg : MsgCreateDid) : List Signer :=
  (expandController msg.Controller msg.Id).map (fun controller =>
    if controller = msg.Id then selfSigner msg.Id msg.Authentication msg.VerificationMethod
    else bareSigner controller)

/-- Modelled from the spec: `GetSigners` of the update message is declared outside the
embedded files.  Section 4.3, Update, step 1: the seed has the "same semantics as
create". -/
def MsgUpdateDid.GetSigners (msg : MsgUpdateDid) : List Signer :=
  (expandController msg.Controller msg.Id).map (fun controller =>
    if controller = msg.Id then selfSigner msg.Id msg.Authentication msg.VerificationMethod
    else bareSigner controller)

/-- The id of the document that a request creates or updates. -/
def MsgWriteRequest.documentId (msg : MsgWriteRequest) : String :=
  match msg.Data with
  | .CreateDid didMsg => didMsg.Id
  | .UpdateDid didMsg => didMsg.Id
  | .Other _ => ""

/-- Modelled from the spec: section 4.4 step 1, the key set of a required signer: "if
s.principal equals the document being mutated, use the restricted verification-method set
...; otherwise fetch s.principal's stored document and use its authentication references";
a missing stored document is the failure "DID Doc not found". -/
def resolveKeySet (store : Store) (documentId : String) (signer : Signer) :
    Except Error (List String × List VerificationMethod) :=
  if signer.Signer = documentId then .ok (signer.Authentication, signer.VerificationMethod)
  else
    match store.GetDid signer.Signer with
    | .ok value => .ok (value.Did.Authentication, value.Did.VerificationMethod)
    | .error _ => .error { kind := .DidDocNotFound, description := signer.Signer }

/-- Modelled from the spec: the document part of a verification-method id, the text before
its first '#' ("did:cheqd:test:alice#key-1" gives "did:cheqd:test:alice").  The helper
that splits a method id is declared outside the embedded files; section 4.4 keys the
signature bundle "by verification-method id", and TestCreateDID relates an entry to the
signer whose principal is this part: an entry of another document leaves the signer
without signature ("DID signed by wrong controller"), an entry with the signer's own
document part and an undeclared method is "verification method not found". -/
def methodDid (methodId : String) : String :=
  String.mk (methodId.toList.takeWhile (fun c => c != '#'))

/-- Modelled from the spec: the key look-up of the verifier is declared outside the
embedded files.  Section 4.4 step 2, the verification method that a bundle key names
within a resolved key set: the id is one of the authentication references and a
verification method of the set has it; `none` when the id is "absent from the resolved
set". -/
def keySetMethod (authentication : List String) (verificationMethod : List VerificationMethod)
    (id : String) : Option VerificationMethod :=
  if authentication.contains id then FindVerificationMethod verificationMethod id else none

/-- Modelled from the spec: the verifier is declared outside the embedded files.  The
entries of the signature bundle of section 4.4 step 2 that belong to a principal: those
keyed by a method id whose document part is the principal, in bundle order. -/
def signerEntries (msg : MsgWriteRequest) (principal : String) : List (String × String) :=
  msg.Signatures.filter (fun entry => methodDid entry.1 == principal)

/-- Modelled from the spec: section 4.4 steps 2 and 3 for one signer; the verifier is
declared outside the embedded files.  After the key set is resolved (step 1, with the
failure "DID Doc not found"), the bundle entries of the signer are looked at.  Without any
entry the failure is "signer: <principal>: signature is required but not found".  An
entry whose method id is absent from the resolved key set is the failure
"<method id>: verification method not found".  Otherwise the signer is satisfied when
`check` accepts the signature of one of its entries (`check` stands for decoding the key
and verifying the raw signature over the signing payload), and the failure is
"method id: <id> : invalid signature detected" when it accepts none.  The four messages
are the ones TestCreateDID expects (handler_test.go, lines 218-331). -/
def verifySigner (check : VerificationMethod → String → Bool) (store : Store)
    (msg : MsgWriteRequest) (signer : Signer) : Option Error :=
  match resolveKeySet store msg.documentId signer with
  | .error err => some err
  | .ok (authentication, verificationMethod) =>
    match signerEntries msg signer.Signer with
    | [] => some { kind := .SignatureNotFound, description := "signer: " ++ signer.Signer }
    | first :: rest =>
      match (first :: rest).find? (fun entry =>
          (keySetMethod authentication verificationMethod entry.1).isNone) with
      | some entry => some { kind := .VerificationMethodNotFound, description := entry.1 }
      | none =>
        if (first :: rest).any (fun entry =>
            match keySetMethod authentication verificationMethod entry.1 with
            | some vm => check vm entry.2
            | none => false) then none
        else
          some { kind := .InvalidSignature, description := "method id: " ++ first.1 ++ " " }

/-- Modelled from the spec: `VerifySignature` is declared outside the embedded files.
Section 4.4: the signers are checked in list order and "first failure short-circuits". -/
def VerifySignature (check : VerificationMethod → String → Bool) (store : Store)
    (msg : MsgWriteRequest) : List Signer → Option Error
  | [] => none
  | signer :: rest =>
    match verifySigner check store msg signer with
    | some err => some err
    | none => VerifySignature check store msg rest

/-- An environment for evaluation: the collaborators modelled from the spec, a basic
validation that accepts every message, a signature check that accepts the signature text
"signed:" followed by the method's public key, and identity functions for the hash and its
encoding. -/
def specEnv : Env :=
  { DidPrefix := "did:cheqd:"
    ModuleName := "cheqd"
    ValidateBasicCreate := fun _ _ => none
    ValidateBasicUpdate := fun _ _ => none
    GetSignersCreate := MsgCreateDid.GetSigners
    GetSignersUpdate := MsgUpdateDid.GetSigners
    VerifySignature := fun _ store msg signers =>
      VerifySignature (fun vm signature => signature == "signed:" ++ vm.PublicKeyMultibase)
        store msg signers
    TmhashSum := fun bytes => bytes
    Base64Encode := fun bytes => String.mk (bytes.map (fun b => Char.ofNat b.toNat)) }

/-! ## The steps of the signer computation, and runs of the handlers -/

/-- The entry that AppendSignerIfNeed appends for `controller` (lines 188-197): the
document's own id carries the message's verification methods and authentication, any
other controller carries neither. -/
def signerEntry (controller : String) (msg : MsgUpdateDid) : Signer :=
  if controller = msg.Id then selfSigner msg.Id msg.Authentication msg.VerificationMethod
  else bareSigner controller

/-- The controllers that the iteration for `oldVM` (lines 154-172) passes to
AppendSignerIfNeed, in the order of the calls. -/
def demandedControllers (newDIDDoc : MsgUpdateDid) (oldVM : VerificationMethod) :
    List String :=
  match FindVerificationMethod newDIDDoc.VerificationMethod oldVM.Id with
  | none => [oldVM.Controller]
  | some newVM =>
    (if !DeepEqual oldVM newVM then [newVM.Controller] else []) ++
      (if newVM.Controller != oldVM.Controller then [oldVM.Controller] else [])

/-- The struct literal `types.Did` that CreateDid builds from the message (lines 38-50). -/
def MsgCreateDid.toDid (didMsg : MsgCreateDid) : Did :=
  { Id := didMsg.Id
    Controller := didMsg.Controller
    VerificationMethod := didMsg.VerificationMethod
    Authentication := didMsg.Authentication
    AssertionMethod := didMsg.AssertionMethod
    CapabilityInvocation := didMsg.CapabilityInvocation
    CapabilityDelegation := didMsg.CapabilityDelegation
    KeyAgreement := didMsg.KeyAgreement
    AlsoKnownAs := didMsg.AlsoKnownAs
    Service := didMsg.Service
    Context := didMsg.Context }

/-- The struct literal `types.Did` that UpdateDid builds from the message
(lines 101-113). -/
def MsgUpdateDid.toDid (didMsg : MsgUpdateDid) : Did :=
  { Id := didMsg.Id
    Controller := didMsg.Controller
    VerificationMethod := didMsg.VerificationMethod
    Authentication := didMsg.Authentication
    AssertionMethod := didMsg.AssertionMethod
    CapabilityInvocation := didMsg.CapabilityInvocation
    CapabilityDelegation := didMsg.CapabilityDelegation
    KeyAgreement := didMsg.KeyAgreement
    AlsoKnownAs := didMsg.AlsoKnownAs
    Service := didMsg.Service
    Context := didMsg.Context }

/-- One call of a handler: CreateDid or UpdateDid with its context and request. -/
inductive Call where
  | create (ctx : Context) (msg : MsgWriteRequest)
  | update (ctx : Context) (msg : MsgWriteRequest)
deriving DecidableEq, Repr

/-- The context of a call. -/
def Call.ctx : Call → Context
  | .create ctx _ => ctx
  | .update ctx _ => ctx

/-- The request of a call. -/
def Call.msg : Call → MsgWriteRequest
  | .create _ msg => msg
  | .update _ msg => msg

/-- The store after a call. -/
def Call.apply (env : Env) (store : Store) : Call → Store
  | .create ctx msg => (CreateDid env ctx store msg).2
  | .update ctx msg => (UpdateDid env ctx store msg).2

/-- Whether a call returns a response (no error). -/
def Call.succeeds (env : Env) (store : Store) : Call → Bool
  | .create ctx msg =>
    match (CreateDid env ctx store msg).1 with
    | .ok _ => true
    | .error _ => false
  | .update ctx msg =>
    match (UpdateDid env ctx store msg).1 with
    | .ok _ => true
    | .error _ => false

/-- The store after a sequence of calls, each executed on the store the previous one
left. -/
def runCalls (env : Env) (store : Store) (calls : List Call) : Store :=
  calls.foldl (Call.apply env) store

/-- The versionId values that the document `id` takes over a sequence of calls: after every
successful call on that document, the versionId found in the store. -/
def versionHistory (env : Env) : Store → List Call → String → List String
  | _, [], _ => []
  | store, call :: rest, id =>
    let after := call.apply env store
    if call.succeeds env store && call.msg.documentId == id then
      (match after.GetDid id with
        | .ok value => [value.Metadata.VersionId]
        | .error _ => []) ++ versionHistory env after rest id
    else versionHistory env after rest id

/-! ## The legacy registry (keeper/did.go) -/

namespace Legacy

/-- A byte slice: bytes are naturals below 256. -/
abbrev Bytes := List Nat

/-- Modelled from the spec: the record that keeper/did.go builds and stores (lines 49-54):
creator, numeric id, verkey and alias.  Its declaration is outside the embedded files; the
spec calls it the legacy auto-incrementing record type. -/
structure Did where
  Creator : String
  Id : Nat
  Verkey : String
  Alias : String
deriving DecidableEq, Repr

/-- The function `GetDidIDBytes` (lines 115-119): `binary.BigEndian.PutUint64` into a
fresh slice of 8 bytes, most significant byte first. -/
def GetDidIDBytes (id : Nat) : Bytes :=
  [id / 2 ^ 56 % 256, id / 2 ^ 48 % 256, id / 2 ^ 40 % 256, id / 2 ^ 32 % 256,
   id / 2 ^ 24 % 256, id / 2 ^ 16 % 256, id / 2 ^ 8 % 256, id % 256]

/-- The function `GetDidIDFromBytes` (lines 122-124): `binary.BigEndian.Uint64` reads the
first 8 bytes; on fewer bytes the index check panics (`none`). -/
def GetDidIDFromBytes : Bytes → Option Nat
  | b0 :: b1 :: b2 :: b3 :: b4 :: b5 :: b6 :: b7 :: _ =>
    some (b7 % 256 + b6 % 256 * 2 ^ 8 + b5 % 256 * 2 ^ 16 + b4 % 256 * 2 ^ 24 +
      b3 % 256 * 2 ^ 32 + b2 % 256 * 2 ^ 40 + b1 % 256 * 2 ^ 48 + b0 % 256 * 2 ^ 56)
  | _ => none

/-- The digits written by `strconv.FormatUint(n, 10)`, most significant first, in front of
`acc`; `fuel` bounds the number of digits. -/
def formatDigits : Nat → Nat → Bytes → Bytes
  | 0, _, acc => acc
  | fuel + 1, n, acc =>
    if n / 10 = 0 then (48 + n % 10) :: acc
    else formatDigits fuel (n / 10) ((48 + n % 10) :: acc)

/-- The call `strconv.FormatUint(count, 10)` of line 36 as bytes: the decimal digits of a
64-bit number, at most 20 of them. -/
def FormatUint (n : Nat) : Bytes :=
  formatDigits 20 n []

/-- The call `strconv.ParseUint(string(bz), 10, 64)` of line 23: the text must be a
sequence of one or more decimal digits (no sign, no underscore) whose value fits 64 bits;
`none` is the returned error. -/
def ParseUint (bz : Bytes) : Option Nat :=
  if bz = [] then none
  else if bz.all (fun b => decide (48 ≤ b) && decide (b ≤ 57)) then
    let value := bz.foldl (fun acc b => acc * 10 + (b - 48)) 0
    if value < 2 ^ 64 then some value else none
  else none

/-- The key-value store of the SDK, as far as the legacy keeper uses it: the newest entry
of a key is the stored one. -/
abbrev KVStore := List (Bytes × Bytes)

/-- The method `Get` of the store: nil (`none`) when the key has no entry. -/
def KVStore.Get (store : KVStore) (key : Bytes) : Option Bytes :=
  List.lookup key store

/-- The method `Set` of the store. -/
def KVStore.Set (store : KVStore) (key value : Bytes) : KVStore :=
  (key, value) :: store

/-- The parts of the legacy keeper that are declared outside the embedded files, taken as
parameters: the bytes `types.KeyPrefix(types.DidKey)` and
`types.KeyPrefix(types.DidCountKey)`, and the codec call `MustMarshalBinaryBare`. -/
structure Keeper where
  DidKey : Bytes
  DidCountKey : Bytes
  Marshal : Did → Bytes

/-- The key of the count: the prefix store of `DidCountKey` is read and written at the key
`DidCountKey` (lines 13-15 and 34-37). -/
def Keeper.countKey (k : Keeper) : Bytes :=
  k.DidCountKey ++ k.DidCountKey

/-- The key of a record: the prefix store of `DidKey` at `GetDidIDBytes(id)` (lines 56-58). -/
def Keeper.didKey (k : Keeper) (id : Nat) : Bytes :=
  k.DidKey ++ GetDidIDBytes id

/-- The method `GetDidCount` (lines 12-30); `none` is the panic "cannot decode count". -/
def GetDidCount (k : Keeper) (store : KVStore) : Option Nat :=
  match store.Get k.countKey with
  | none => some 0
  | some bz => ParseUint bz

/-- The method `SetDidCount` (lines 33-38). -/
def SetDidCount (k : Keeper) (store : KVStore) (count : Nat) : KVStore :=
  store.Set k.countKey (FormatUint count)

/-- The method `AppendDid` of keeper/did.go (lines 41-64): the returned id and the store
after the call; `none` when GetDidCount panics.  The sum `count+1` is a 64-bit sum. -/
def AppendDid (k : Keeper) (store : KVStore) (creator verkey aliasName : String) :
    Option (Nat × KVStore) :=
  match GetDidCount k store with
  | none => none
  | some count =>
    let did : Did := { Creator := creator, Id := count, Verkey := verkey, Alias := aliasName }
    let store := store.Set (k.didKey did.Id) (k.Marshal did)
    let store := SetDidCount k store ((count + 1) % 2 ^ 64)
    some (count, store)

/-- A keeper for evaluation: two distinct key prefixes and a codec that writes the id
followed by the lengths of the three texts. -/
def someKeeper : Keeper :=
  { DidKey := [68, 105, 100, 45, 118]
    DidCountKey := [68, 105, 100, 45, 99]
    Marshal := fun did =>
      GetDidIDBytes did.Id ++ [did.Creator.length, did.Verkey.length, did.Alias.length] }

end Legacy

/-! ## Regular expressions of package regexp, as far as utils/did_url.go uses them -/

namespace Regexp

/-- The syntax tree of a pattern: literal, character class, concatenation, alternation,
the greedy operators `*`, `+` and `?`, a numbered capturing group, `^` and `$`. -/
inductive Re where
  | lit (c : Char)
  | cls (allowed : Char → Bool)
  | cat (a b : Re)
  | alt (a b : Re)
  | star (a : Re)
  | plus (a : Re)
  | opt (a : Re)
  | group (index : Nat) (a : Re)
  | bot
  | eot

/-- A position of a backtracking search: the number of characters before it, the text
from it on, and the groups captured so far, newest first. -/
structure Thread where
  pos : Nat
  rest : List Char
  caps : List (Nat × List Char)
deriving DecidableEq, Repr

/-- The greedy repetition of `step`: every iteration that consumes text is tried before
stopping; `fuel` is the length of the text. -/
def repeatGreedy (step : Thread → List Thread) : Nat → Thread → List Thread
  | 0, t => [t]
  | fuel + 1, t =>
    ((step t).filter (fun u => decide (u.rest.length < t.rest.length))).flatMap
      (repeatGreedy step fuel) ++ [t]

/-- The positions at which the pattern can end when it starts at `t`, in the order in which
a backtracking search finds them: the left alternative before the right one, one more
iteration before stopping, a group before its omission.  The first element is the match
that `regexp` reports for this start (leftmost-first matching). -/
def Re.run : Re → Thread → List Thread
  | .lit c, t =>
    match t.rest with
    | x :: rest => if x = c then [{ t with pos := t.pos + 1, rest := rest }] else []
    | [] => []
  | .cls allowed, t =>
    match t.rest with
    | x :: rest => if allowed x then [{ t with pos := t.pos + 1, rest := rest }] else []
    | [] => []
  | .cat a b, t => (a.run t).flatMap b.run
  | .alt a b, t => a.run t ++ b.run t
  | .star a, t => repeatGreedy a.run t.rest.length t
  | .plus a, t => (a.run t).flatMap (fun u => repeatGreedy a.run u.rest.length u)
  | .opt a, t => a.run t ++ [t]
  | .group index a, t =>
    (a.run t).map (fun u =>
      { u with caps := (index, t.rest.take (t.rest.length - u.rest.length)) :: u.caps })
  | .bot, t => if t.pos = 0 then [t] else []
  | .eot, t => if t.rest = [] then [t] else []

/-- The leftmost match: the start positions are tried from left to right, and at the
first one where the pattern matches the first match found is returned. -/
def search (re : Re) : Nat → List Char → Option Thread
  | pos, [] => (re.run { pos := pos, rest := [], caps := [] }).head?
  | pos, c :: rest =>
    match (re.run { pos := pos, rest := c :: rest, caps := [] }).head? with
    | some t => some t
    | none => search re (pos + 1) rest

/-- A compiled pattern: the source text given to `regexp.Compile`, its syntax tree (the
whole pattern is group 0) and the number of its capturing groups. -/
structure Regexp where
  source : String
  tree : Re
  groups : Nat

/-- The method `MatchString`: whether the pattern matches somewhere in the text. -/
def Regexp.MatchString (re : Regexp) (s : String) : Bool :=
  (search (.group 0 re.tree) 0 s.toList).isSome

/-- The method `FindStringSubmatch`: the text of the leftmost match and of its groups 1 to
`groups` (the empty string for a group that took no part), or nil (`none`) without match. -/
def Regexp.FindStringSubmatch (re : Regexp) (s : String) : Option (List String) :=
  (search (.group 0 re.tree) 0 s.toList).map (fun t =>
    (List.range (re.groups + 1)).map (fun i => String.mk ((List.lookup i t.caps).getD [])))

/-- A negated class: every character except the listed ones. -/
def noneOf (excluded : List Char) (c : Char) : Bool :=
  !excluded.contains c

end Regexp

/-! ## utils/did_url.go -/

namespace Utils

open Regexp

/-- A range of a character class, such as `a-z`. -/
def inRange (lo hi c : Char) : Bool :=
  decide (lo ≤ c) && decide (c ≤ hi)

/-- The class `[/a-zA-Z0-9\-\.\_\~\!\$\&\'\(\)\*\+\,\;\=\:\@]` of DIDPathAbemptyRegexp; the
character with code 39 is the apostrophe. -/
def pathChar (c : Char) : Bool :=
  c == '/' || inRange 'a' 'z' c || inRange 'A' 'Z' c || inRange '0' '9' c ||
    ['-', '.', '_', '~', '!', '$', '&', Char.ofNat 39, '(', ')', '*', '+', ',', ';', '=',
      ':', '@'].contains c

/-- The class of DIDQueryRegexp and DIDFragmentRegexp: the class of the path with `\/` and
`\?` added. -/
def queryChar (c : Char) : Bool :=
  pathChar c || c == '/' || c == '?'

/-- The class `[0-9A-Fa-f]`. -/
def hexDigit (c : Char) : Bool :=
  inRange '0' '9' c || inRange 'A' 'F' c || inRange 'a' 'f' c

/-- The tree of `^(C*|(%[0-9A-Fa-f]{2})*)*$` for a class `C`. -/
def segmentTree (allowed : Char → Bool) : Re :=
  .cat .bot
    (.cat
      (.star (.group 1
        (.alt (.star (.cls allowed))
          (.star (.group 2 (.cat (.lit '%') (.cat (.cls hexDigit) (.cls hexDigit))))))))
      .eot)

/-- The pattern `SplitDIDURL` (line 17). -/
def SplitDIDURL : Regexp :=
  { source := "([^/?#]*)?([^?#]*)(\\?([^#]*))?(#([^#]+$))?$"
    tree :=
      .cat (.opt (.group 1 (.star (.cls (noneOf ['/', '?', '#'])))))
        (.cat (.group 2 (.star (.cls (noneOf ['?', '#']))))
          (.cat (.opt (.group 3 (.cat (.lit '?') (.group 4 (.star (.cls (noneOf ['#'])))))))
            (.cat
              (.opt (.group 5
                (.cat (.lit '#') (.group 6 (.cat (.plus (.cls (noneOf ['#']))) .eot)))))
              .eot)))
    groups := 6 }

/-- The pattern `DIDPathAbemptyRegexp` (line 18). -/
def DIDPathAbemptyRegexp : Regexp :=
  { source :=
      "^([/a-zA-Z0-9\\-\\.\\_\\~\\!\\$\\&\\'\\(\\)\\*\\+\\,\\;\\=\\:\\@]*|(%[0-9A-Fa-f]\x7b2\x7d)*)*$"
    tree := segmentTree pathChar
    groups := 2 }

/-- The pattern `DIDQueryRegexp` (line 19). -/
def DIDQueryRegexp : Regexp :=
  { source :=
      "^([/a-zA-Z0-9\\-\\.\\_\\~\\!\\$\\&\\'\\(\\)\\*\\+\\,\\;\\=\\:\\@\\/\\?]*|(%[0-9A-Fa-f]\x7b2\x7d)*)*$"
    tree := segmentTree queryChar
    groups := 2 }

/-- The pattern `DIDFragmentRegexp` (line 20). -/
def DIDFragmentRegexp : Regexp :=
  { source :=
      "^([/a-zA-Z0-9\\-\\.\\_\\~\\!\\$\\&\\'\\(\\)\\*\\+\\,\\;\\=\\:\\@\\/\\?]*|(%[0-9A-Fa-f]\x7b2\x7d)*)*$"
    tree := segmentTree queryChar
    groups := 2 }

/-- The function `TrySplitDIDUrl` (lines 25-28): the groups 1, 2, 4 and 6 of the leftmost
match; `none` is the index panic on a nil match. -/
def TrySplitDIDUrl (didUrl : String) : Option (String × String × String × String) :=
  match SplitDIDURL.FindStringSubmatch didUrl with
  | none => none
  | some m =>
    match m[1]?, m[2]?, m[4]?, m[6]? with
    | some did, some path, some query, some fragment => some (did, path, query, fragment)
    | _, _, _, _ => none

/-- The function `ValidateFragment` (lines 57-62); the result is the error text or nil. -/
def ValidateFragment (fragment : String) : Option String :=
  if !DIDFragmentRegexp.MatchString fragment then
    some ("did url fragmnt must match the following regexp: " ++ DIDFragmentRegexp.source)
  else none

/-- The function `ValidateQuery` (lines 64-69). -/
def ValidateQuery (query : String) : Option String :=
  if !DIDQueryRegexp.MatchString query then
    some ("did url query must match the following regexp: " ++ DIDQueryRegexp.source)
  else none

/-- The function `ValidatePath` (lines 71-76). -/
def ValidatePath (path : String) : Option String :=
  if !DIDPathAbemptyRegexp.MatchString path then
    some ("did url path abempty must match the following regexp: " ++
      DIDPathAbemptyRegexp.source)
  else none

/-- The function `ValidateDIDUrl` (lines 31-55).  `ValidateDID` is declared outside the
embedded files and is a parameter; the outer `none` is the panic of TrySplitDIDUrl. -/
def ValidateDIDUrl (ValidateDID : String → String → List String → Option String)
    (didUrl method : String) (allowedNamespaces : List String) : Option (Option String) :=
  match TrySplitDIDUrl didUrl with
  | none => none
  | some (did, path, query, fragment) =>
    match ValidateDID did method allowedNamespaces with
    | some err => some (some err)
    | none =>
    match ValidatePath path with
    | some err => some (some err)
    | none =>
    match ValidateQuery query with
    | some err => some (some err)
    | none =>
    match ValidateFragment fragment with
    | some err => some (some err)
    | none => some none

/-- The function `IsValidDIDUrl` (lines 78-82). -/
def IsValidDIDUrl (ValidateDID : String → String → List String → Option String)
    (didUrl method : String) (allowedNamespaces : List String) : Option Bool :=
  (ValidateDIDUrl ValidateDID didUrl method allowedNamespaces).map (fun err => err.isNone)

end Utils

/-! ## Texts that a pattern consumes, and the grammar of the split -/

namespace Regexp

/-- Every thread that a tree returns has consumed a text with the property `S`. -/
def Consumes (re : Re) (S : List Char → Prop) : Prop :=
  ∀ t m : Thread, m ∈ re.run t → ∃ u, t.rest = u ++ m.rest ∧ S u

end Regexp

namespace Utils

open Regexp

/-- Concatenations of single characters of a class and of percent-encoded octets, a
percent-encoded octet being '%' followed by two hexadecimal digits. -/
inductive Segments (allowed : Char → Bool) : List Char → Prop where
  | nil : Segments allowed []
  | char (c : Char) (rest : List Char) (hc : allowed c = true)
      (hrest : Segments allowed rest) : Segments allowed (c :: rest)
  | octet (high low : Char) (rest : List Char) (hhigh : hexDigit high = true)
      (hlow : hexDigit low = true) (hrest : Segments allowed rest) :
      Segments allowed ('%' :: high :: low :: rest)

/-- A text that holds no '#', or exactly one '#' that is not its last character. -/
def wellFormed (w : List Char) : Bool :=
  w.count '#' == 0 || (w.count '#' == 1 && w.getLast? != some '#')

/-- The query of a text that begins where the path ends: the text after a leading '?' up
to the '#' or the end, and nothing when the text does not begin with '?'. -/
def queryAfter (afterPath : List Char) : List Char :=
  match afterPath with
  | '?' :: r => r.takeWhile (noneOf ['#'])
  | _ => []

/-- The split that the grammar describes: the identifier is the longest prefix without
'/', '?' and '#', the path runs from there up to the first '?' or '#', the query is the
text after a '?' that ends the path up to the '#' or the end, and the fragment is the text
after the first '#'. -/
def grammarSplit (w : List Char) : String × String × String × String :=
  let did := w.takeWhile (noneOf ['/', '?', '#'])
  let afterDid := w.dropWhile (noneOf ['/', '?', '#'])
  let path := afterDid.takeWhile (noneOf ['?', '#'])
  let afterPath := afterDid.dropWhile (noneOf ['?', '#'])
  let query := queryAfter afterPath
  let fragment := (w.dropWhile (noneOf ['#'])).drop 1
  (String.mk did, String.mk path, String.mk query, String.mk fragment)

end Utils

/-! ## Calls on the legacy count, and utils/encoding.go -/

namespace Legacy

/-- A call of SetDidCount or of AppendDid on the legacy keeper. -/
inductive Op where
  | setDidCount (count : Nat)
  | appendDid (creator verkey aliasName : String)
deriving DecidableEq, Repr

/-- The store after one call; the argument of SetDidCount is a 64-bit number, and `none`
is a panic of the call. -/
def Op.apply (k : Keeper) (store : KVStore) : Op → Option KVStore
  | .setDidCount count => some (SetDidCount k store (count % 2 ^ 64))
  | .appendDid creator verkey aliasName =>
    (AppendDid k store creator verkey aliasName).map Prod.snd

/-- The store after a sequence of calls, `none` when one of them panics. -/
def runOps (k : Keeper) : List Op → KVStore → Option KVStore
  | [], store => some store
  | op :: rest, store =>
    match op.apply k store with
    | none => none
    | some after => runOps k rest after

end Legacy

namespace Utils

/-- The parts of the package go-multibase that utils/encoding.go calls; the package is
outside the embedded files and is a parameter.  An `Encoding` is the character that the
encoded text begins with; `Decode` returns the encoding and the bytes, or an error text. -/
structure Multibase where
  Decode : String → Except String (Char × List Nat)
  EncodingToStr : Char → String

/-- The constant `multibase.Base58BTC`. -/
def Base58BTC : Char := 'z'

/-- The function `ValidateMultibase` (lines 11-14). -/
def ValidateMultibase (mb : Multibase) (data : String) : Option String :=
  match mb.Decode data with
  | .error err => some err
  | .ok _ => none

/-- The function `ValidateMultibaseEncoding` (lines 16-28); the result is the error text
or nil. -/
def ValidateMultibaseEncoding (mb : Multibase) (data : String) (expectedEncoding : Char) :
    Option String :=
  match mb.Decode data with
  | .error err => some err
  | .ok (actualEncoding, _) =>
    if actualEncoding ≠ expectedEncoding then
      some ("invalid actualEncoding. expected: " ++ mb.EncodingToStr expectedEncoding ++
        " actual: " ++ mb.EncodingToStr actualEncoding)
    else none

/-- The function `ValidateBase58` (lines 30-32). -/
def ValidateBase58 (mb : Multibase) (data : String) : Option String :=
  ValidateMultibaseEncoding mb (String.singleton Base58BTC ++ data) Base58BTC

/-- A decoder for evaluation: the text must begin with 'z' or 'f', and what follows must
be free of the character '0' (for 'z') or made of hexadecimal digits (for 'f'); the bytes
are the character codes. -/
def someMultibase : Multibase :=
  { Decode := fun data =>
      match data.toList with
      | [] => .error "cannot decode multibase for zero length string"
      | 'z' :: rest =>
        if rest.contains '0' then .error "invalid base58 digit"
        else .ok ('z', rest.map Char.toNat)
      | 'f' :: rest =>
        if rest.all hexDigit then .ok ('f', rest.map Char.toNat)
        else .error "invalid hexadecimal digit"
      | _ => .error "unsupported multibase encoding"
    EncodingToStr := fun c => if c = 'z' then "base58btc" else "base16" }

end Utils

/-! ## The codec of Service (types/did.pb.go) -/

namespace Pb

/-- The struct `Service` of did.pb.go as the codec sees it: a Go string is a sequence of
bytes, and the three fields are held as their bytes (naturals below 256). -/
structure Service where
  Id : List Nat
  Typ : List Nat
  ServiceEndpoint : List Nat
deriving DecidableEq, Repr

/-- The errors that Unmarshal and skipDid return. -/
inductive Error where
  | ErrInvalidLengthDid
  | ErrIntOverflowDid
  | ErrUnexpectedEndOfGroupDid
  | ErrUnexpectedEOF
  | endGroupForNonGroup
  | illegalTag (fieldNum : Int) (wire : Nat)
  | wrongWireType (wireType : Nat) (field : String)
  | illegalWireType (wireType : Nat)
deriving DecidableEq, Repr

/-- The number of binary digits of `x`, for `x` below 2 to the power `fuel`. -/
def lenBits : Nat → Nat → Nat
  | 0, _ => 0
  | fuel + 1, x => if x = 0 then 0 else lenBits fuel (x / 2) + 1

/-- The function `math/bits.Len64`, which is outside the embedded files: the least number
of bits that represent the 64-bit `x`, 0 for 0. -/
def Len64 (x : Nat) : Nat :=
  lenBits 64 (x % 2 ^ 64)

/-- The function `sovDid` (lines 714-716). -/
def sovDid (x : Nat) : Nat :=
  (Len64 (x ||| 1) + 6) / 7

/-- The loop of `encodeVarintDid` (lines 581-586) with the buffer passed along; `none` is
an index out of range, or the end of the fuel, which bounds the iterations. -/
def encodeVarintLoop : Nat → List Nat → Nat → Nat → Option (List Nat)
  | 0, _, _, _ => none
  | fuel + 1, dAtA, offset, v =>
    if v ≥ 1 <<< 7 then
      if offset < dAtA.length then
        encodeVarintLoop fuel (dAtA.set offset ((v &&& 0x7f ||| 0x80) % 256)) (offset + 1)
          (v >>> 7)
      else none
    else if offset < dAtA.length then some (dAtA.set offset (v % 256))
    else none

/-- The function `encodeVarintDid` (lines 578-588): the buffer after the call and the
returned `base`.  A 64-bit `v` takes at most 10 iterations; `none` is an index out of
range, a negative one included. -/
def encodeVarintDid (dAtA : List Nat) (offset : Nat) (v : Nat) : Option (List Nat × Nat) :=
  if offset < sovDid v then none
  else
    let offset := offset - sovDid v
    let base := offset
    (encodeVarintLoop 10 dAtA offset v).map (fun dAtA => (dAtA, base))

/-- The method `Size` of Service (lines 693-712). -/
def Service.Size (m : Service) : Nat :=
  let n := 0
  let l := m.Id.length
  let n := if l > 0 then n + (1 + l + sovDid l) else n
  let l := m.Typ.length
  let n := if l > 0 then n + (1 + l + sovDid l) else n
  let l := m.ServiceEndpoint.length
  let n := if l > 0 then n + (1 + l + sovDid l) else n
  n

/-- The built-in `copy(dAtA[i:], src)`: as many bytes of `src` as fit are written from
index `i` on. -/
def copyAt (dAtA : List Nat) (i : Nat) (src : List Nat) : List Nat :=
  dAtA.take i ++ src.take (dAtA.length - i) ++ dAtA.drop (i + src.length)

/-- One block of `MarshalToSizedBuffer` (lines 555-561, 562-568, 569-575): the field is
written in front of index `i`, preceded by its length and by the tag byte; the result is
the buffer and the new `i`, and `none` is an index or a slice bound out of range. -/
def marshalField (dAtA : List Nat) (i : Nat) (field : List Nat) (tag : Nat) :
    Option (List Nat × Nat) :=
  if field.length > 0 then
    if i < field.length then none
    else
      let i := i - field.length
      let dAtA := copyAt dAtA i field
      match encodeVarintDid dAtA i field.length with
      | none => none
      | some (dAtA, i) =>
        if i = 0 then none
        else
          let i := i - 1
          if i < dAtA.length then some (dAtA.set i tag, i) else none
  else some (dAtA, i)

/-- The method `MarshalToSizedBuffer` of Service (lines 551-576): the buffer after the
call and the returned number of bytes. -/
def Service.MarshalToSizedBuffer (m : Service) (dAtA : List Nat) : Option (List Nat × Nat) :=
  let i := dAtA.length
  match marshalField dAtA i m.ServiceEndpoint 0x1a with
  | none => none
  | some (dAtA, i) =>
    match marshalField dAtA i m.Typ 0x12 with
    | none => none
    | some (dAtA, i) =>
      match marshalField dAtA i m.Id 0xa with
      | none => none
      | some (dAtA, i) => some (dAtA, dAtA.length - i)

/-- The method `Marshal` of Service (lines 534-543); `none` is a panic. -/
def Service.Marshal (m : Service) : Option (List Nat) :=
  let size := m.Size
  let dAtA := List.replicate size 0
  match m.MarshalToSizedBuffer (dAtA.take size) with
  | none => none
  | some (dAtA, n) => some (dAtA.take n)

/-- The base-128 loop of Unmarshal and skipDid (lines 1344-1357 and the like): from
`shift` and `iNdEx` on, the value read so far being `wire`; the result is the value and
the index after it.  The outer `none` is an index out of range, or the end of the fuel,
which bounds the iterations. -/
def decodeVarint (dAtA : List Nat) : Nat → Nat → Nat → Nat → Option (Except Error (Nat × Nat))
  | 0, _, _, _ => none
  | fuel + 1, shift, iNdEx, wire =>
    if shift ≥ 64 then some (.error .ErrIntOverflowDid)
    else if iNdEx ≥ dAtA.length then some (.error .ErrUnexpectedEOF)
    else
      match dAtA[iNdEx]? with
      | none => none
      | some b =>
        let wire := wire ||| ((b &&& 0x7F) <<< shift) % 2 ^ 64
        if b < 0x80 then some (.ok (wire, iNdEx + 1))
        else decodeVarint dAtA fuel (shift + 7) (iNdEx + 1) wire

/-- The slice expression `dAtA[lo:hi]`; `none` is a bound out of range. -/
def slice (dAtA : List Nat) (lo hi : Nat) : Option (List Nat) :=
  if lo ≤ hi ∧ hi ≤ dAtA.length then some ((dAtA.drop lo).take (hi - lo)) else none

/-- The body of a string field of Unmarshal (lines 1370-1395, 1402-1427, 1434-1459): the
length, the checks on it, and the bytes of the field with the index after them.  A length
or an end index that is negative as an `int` is one of 2^63 or more. -/
def readString (dAtA : List Nat) (iNdEx : Nat) : Option (Except Error (List Nat × Nat)) :=
  match decodeVarint dAtA 11 0 iNdEx 0 with
  | none => none
  | some (.error e) => some (.error e)
  | some (.ok (stringLen, iNdEx)) =>
    if stringLen ≥ 2 ^ 63 then some (.error .ErrInvalidLengthDid)
    else
      let postIndex := iNdEx + stringLen
      if postIndex ≥ 2 ^ 63 then some (.error .ErrInvalidLengthDid)
      else if postIndex > dAtA.length then some (.error .ErrUnexpectedEOF)
      else
        match slice dAtA iNdEx postIndex with
        | none => none
        | some bytes => some (.ok (bytes, postIndex))

/-- What the switch of skipDid (lines 1505-1548) does to `iNdEx` and `depth` for a wire
type. -/
def skipField (dAtA : List Nat) (wireType iNdEx depth : Nat) :
    Option (Except Error (Nat × Nat)) :=
  if wireType = 0 then
    match decodeVarint dAtA 11 0 iNdEx 0 with
    | none => none
    | some (.error e) => some (.error e)
    | some (.ok (_, iNdEx)) => some (.ok (iNdEx, depth))
  else if wireType = 1 then some (.ok (iNdEx + 8, depth))
  else if wireType = 2 then
    match decodeVarint dAtA 11 0 iNdEx 0 with
    | none => none
    | some (.error e) => some (.error e)
    | some (.ok (length, iNdEx)) =>
      if length ≥ 2 ^ 63 then some (.error .ErrInvalidLengthDid)
      else some (.ok (iNdEx + length, depth))
  else if wireType = 3 then some (.ok (iNdEx, depth + 1))
  else if wireType = 4 then
    if depth = 0 then some (.error .ErrUnexpectedEndOfGroupDid)
    else some (.ok (iNdEx, depth - 1))
  else if wireType = 5 then some (.ok (iNdEx + 4, depth))
  else some (.error (.illegalWireType wireType))

/-- The loop of `skipDid` (lines 1488-1557). -/
def skipLoop (dAtA : List Nat) : Nat → Nat → Nat → Option (Except Error Nat)
  | 0, _, _ => none
  | fuel + 1, iNdEx, depth =>
    if iNdEx < dAtA.length then
      match decodeVarint dAtA 11 0 iNdEx 0 with
      | none => none
      | some (.error e) => some (.error e)
      | some (.ok (wire, iNdEx)) =>
        let wireType := wire &&& 0x7
        match skipField dAtA wireType iNdEx depth with
        | none => none
        | some (.error e) => some (.error e)
        | some (.ok (iNdEx, depth)) =>
          if iNdEx ≥ 2 ^ 63 then some (.error .ErrInvalidLengthDid)
          else if depth = 0 then some (.ok iNdEx)
          else skipLoop dAtA fuel iNdEx depth
    else some (.error .ErrUnexpectedEOF)

/-- The function `skipDid` (lines 1484-1561); every iteration reads at least one byte, so
one iteration more than there are bytes is enough. -/
def skipDid (dAtA : List Nat) : Option (Except Error Nat) :=
  skipLoop dAtA (dAtA.length + 1) 0 0

/-- The conversion `int32(x)` of a 64-bit unsigned value. -/
def toInt32 (x : Nat) : Int :=
  if x % 2 ^ 32 ≥ 2 ^ 31 then (x % 2 ^ 32 : Nat) - 2 ^ 32 else (x % 2 ^ 32 : Nat)

/-- The loop of `Unmarshal` of Service (lines 1341-1477). -/
def unmarshalLoop (dAtA : List Nat) : Nat → Service → Nat → Option (Except Error Service)
  | 0, _, _ => none
  | fuel + 1, m, iNdEx =>
    if iNdEx < dAtA.length then
      let preIndex := iNdEx
      match decodeVarint dAtA 11 0 iNdEx 0 with
      | none => none
      | some (.error e) => some (.error e)
      | some (.ok (wire, iNdEx)) =>
        let fieldNum := toInt32 (wire >>> 3)
        let wireType := wire &&& 0x7
        if wireType = 4 then some (.error .endGroupForNonGroup)
        else if fieldNum ≤ 0 then some (.error (.illegalTag fieldNum wire))
        else if fieldNum = 1 then
          if wireType ≠ 2 then some (.error (.wrongWireType wireType "Id"))
          else
            match readString dAtA iNdEx with
            | none => none
            | some (.error e) => some (.error e)
            | some (.ok (bytes, iNdEx)) => unmarshalLoop dAtA fuel { m with Id := bytes } iNdEx
        else if fieldNum = 2 then
          if wireType ≠ 2 then some (.error (.wrongWireType wireType "Type"))
          else
            match readString dAtA iNdEx with
            | none => none
            | some (.error e) => some (.error e)
            | some (.ok (bytes, iNdEx)) => unmarshalLoop dAtA fuel { m with Typ := bytes } iNdEx
        else if fieldNum = 3 then
          if wireType ≠ 2 then some (.error (.wrongWireType wireType "ServiceEndpoint"))
          else
            match readString dAtA iNdEx with
            | none => none
            | some (.error e) => some (.error e)
            | some (.ok (bytes, iNdEx)) =>
              unmarshalLoop dAtA fuel { m with ServiceEndpoint := bytes } iNdEx
        else
          let iNdEx := preIndex
          match slice dAtA iNdEx dAtA.length with
          | none => none
          | some tail =>
            match skipDid tail with
            | none => none
            | some (.error e) => some (.error e)
            | some (.ok skippy) =>
              if iNdEx + skippy ≥ 2 ^ 63 then some (.error .ErrInvalidLengthDid)
              else if iNdEx + skippy > dAtA.length then some (.error .ErrUnexpectedEOF)
              else unmarshalLoop dAtA fuel m (iNdEx + skippy)
    else if iNdEx > dAtA.length then some (.error .ErrUnexpectedEOF)
    else some (.ok m)

/-- The method `Unmarshal` of Service (lines 1338-1483) on the receiver `m`: the receiver
after the call, or the error; the outer `none` is a panic or the end of the fuel.  Every
iteration moves `iNdEx` forward, so one iteration more than there are bytes is enough. -/
def Service.Unmarshal (m : Service) (dAtA : List Nat) : Option (Except Error Service) :=
  unmarshalLoop dAtA (dAtA.length + 1) m 0

/-- The bytes of a base-128 varint of `v`, least significant group first, with at most
`fuel` continuation bytes. -/
def uvarint : Nat → Nat → List Nat
  | 0, v => [v]
  | fuel + 1, v => if v ≥ 128 then (v % 128 + 128) :: uvarint fuel (v / 128) else [v]

/-- The wire form of a string field with the number `fieldNum`: the tag byte of wire type
2, the length and the bytes. -/
def fieldBytes (fieldNum : Nat) (field : List Nat) : List Nat :=
  (fieldNum * 8 + 2) :: (uvarint 9 field.length ++ field)

/-- What MarshalToSizedBuffer writes for a string field: nothing for an empty string. -/
def optionalField (fieldNum : Nat) (field : List Nat) : List Nat :=
  if field.length > 0 then fieldBytes fieldNum field else []

/-- The wire form of a sequence of string fields. -/
def encodeFields : List (Nat × List Nat) → List Nat
  | [] => []
  | (fieldNum, field) :: rest => fieldBytes fieldNum field ++ encodeFields rest

/-- The assignment that Unmarshal makes for a string field. -/
def Service.setField (m : Service) (fieldNum : Nat) (field : List Nat) : Service :=
  if fieldNum = 1 then { m with Id := field }
  else if fieldNum = 2 then { m with Typ := field }
  else { m with ServiceEndpoint := field }

/-- The string fields of a Service that are not empty, in the order of their numbers. -/
def Service.fields (m : Service) : List (Nat × List Nat) :=
  [(1, m.Id), (2, m.Typ), (3, m.ServiceEndpoint)].filter (fun f => decide (f.2.length > 0))

/-- A service for evaluation: id "s1", type "T", no endpoint. -/
def someService : Service :=
  { Id := [115, 49], Typ := [84], ServiceEndpoint := [] }

end Pb

/-! ## Concrete documents and requests -/

/-- A document with the given id and every list empty. -/
def emptyDid (id : String) : Did :=
  { Context := [], Id := id, Controller := [], VerificationMethod := [], Authentication := [],
    AssertionMethod := [], CapabilityInvocation := [], CapabilityDelegation := [],
    KeyAgreement := [], Service := [], AlsoKnownAs := [] }

/-- An update message with the given id and asserted version and every list empty. -/
def emptyUpdate (id versionId : String) : MsgUpdateDid :=
  { Context := [], Id := id, Controller := [], VerificationMethod := [], Authentication := [],
    AssertionMethod := [], CapabilityInvocation := [], CapabilityDelegation := [],
    KeyAgreement := [], Service := [], AlsoKnownAs := [], VersionId := versionId }

/-- An Ed25519 verification method given by id, controller and multibase key. -/
def ed25519Method (id controller key : String) : VerificationMethod :=
  { Id := id, Typ := "Ed25519VerificationKey2020", Controller := controller,
    PublicKeyJwk := none, PublicKeyMultibase := key }

/-- The stored document of Alice: one self-controlled key, used for authentication. -/
def aliceDoc : Did :=
  { emptyDid "did:cheqd:test:alice" with
    VerificationMethod := [ed25519Method "did:cheqd:test:alice#key-1" "did:cheqd:test:alice" "zA1"]
    Authentication := ["did:cheqd:test:alice#key-1"] }

/-- A store that holds Alice's document at version "v1". -/
def aliceStore : Store :=
  [("did:cheqd:test:alice",
    { Did := aliceDoc
      Metadata := { Created := "t0", Updated := "t0", Deactivated := false, VersionId := "v1" }
      Timestamp := "t0", TxHash := "v1" })]

/-- A block context. -/
def someContext : Context :=
  { ChainID := "test", BlockTime := "t1", TxBytes := [118, 50] }

/-- Key rotation on Alice's document: key-1 is replaced by key-2, asserted version as
given. -/
def rotateAlice (versionId : String) : MsgUpdateDid :=
  { emptyUpdate "did:cheqd:test:alice" versionId with
    VerificationMethod := [ed25519Method "did:cheqd:test:alice#key-2" "did:cheqd:test:alice" "zA2"]
    Authentication := ["did:cheqd:test:alice#key-2"] }

/-- The rotation request with the stale version "v0" and an empty signature bundle. -/
def staleUnsignedRequest : MsgWriteRequest :=
  { Data := .UpdateDid (rotateAlice "v0"), Signatures := [] }

/-- The rotation request with the stale version "v0", signed with the new key. -/
def staleSignedRequest : MsgWriteRequest :=
  { Data := .UpdateDid (rotateAlice "v0"),
    Signatures := [("did:cheqd:test:alice#key-2", "signed:zA2")] }

/-- An update of Bob's document, which the store does not hold. -/
def missingDocRequest : MsgWriteRequest :=
  { Data := .UpdateDid (emptyUpdate "did:cheqd:test:bob" "v1"), Signatures := [] }

/-- A create request for Alice's id, which the store already holds, signed with the
declared key. -/
def duplicateCreateRequest : MsgWriteRequest :=
  { Data := .CreateDid
      { Context := [], Id := "did:cheqd:test:alice", Controller := [],
        VerificationMethod := aliceDoc.VerificationMethod,
        Authentication := aliceDoc.Authentication, AssertionMethod := [],
        CapabilityInvocation := [], CapabilityDelegation := [], KeyAgreement := [],
        Service := [], AlsoKnownAs := [] },
    Signatures := [("did:cheqd:test:alice#key-1", "signed:zA1")] }

/-- Alice's document handed over to Bob: the new controller list names Bob alone, the key
is replaced. -/
def handOverToBob : MsgUpdateDid :=
  { rotateAlice "v1" with Controller := ["did:cheqd:test:bob"] }

/-- A document whose controller list names Bob twice. -/
def twiceBobDoc : Did :=
  { emptyDid "did:cheqd:test:alice" with
    Controller := ["did:cheqd:test:bob", "did:cheqd:test:bob"] }

/-- An update of that document whose controller list names Charlie alone. -/
def toCharlie : MsgUpdateDid :=
  { emptyUpdate "did:cheqd:test:alice" "v1" with Controller := ["did:cheqd:test:charlie"] }

/-- Alice's document with its key key-1 re-assigned to Charlie's control. -/
def aliceKeyToCharlie : MsgUpdateDid :=
  { emptyUpdate "did:cheqd:test:alice" "v1" with
    VerificationMethod :=
      [ed25519Method "did:cheqd:test:alice#key-1" "did:cheqd:test:charlie" "zA1"]
    Authentication := ["did:cheqd:test:alice#key-1"] }

/-- Alice's document restated unchanged as an update message. -/
def aliceUnchanged : MsgUpdateDid :=
  { emptyUpdate "did:cheqd:test:alice" "v1" with
    VerificationMethod := aliceDoc.VerificationMethod
    Authentication := aliceDoc.Authentication }

/-- Alice's document with controllers Alice and Bob. -/
def aliceAndBobDoc : Did :=
  { aliceDoc with Controller := ["did:cheqd:test:alice", "did:cheqd:test:bob"] }

/-- Alice's document with two controllers and two keys, the second key controlled by
Bob. -/
def aliceTwoKeys : Did :=
  { emptyDid "did:cheqd:test:alice" with
    Controller := ["did:cheqd:test:alice", "did:cheqd:test:bob"]
    VerificationMethod :=
      [ed25519Method "did:cheqd:test:alice#key-1" "did:cheqd:test:alice" "zA1",
       ed25519Method "did:cheqd:test:alice#key-3" "did:cheqd:test:bob" "zA3"]
    Authentication := ["did:cheqd:test:alice#key-1"] }

/-- The same document with its controllers and its keys in the other order. -/
def aliceTwoKeysSwapped : Did :=
  { aliceTwoKeys with
    Controller := ["did:cheqd:test:bob", "did:cheqd:test:alice"]
    VerificationMethod :=
      [ed25519Method "did:cheqd:test:alice#key-3" "did:cheqd:test:bob" "zA3",
       ed25519Method "did:cheqd:test:alice#key-1" "did:cheqd:test:alice" "zA1"] }

/-- The create message for Alice's document. -/
def createAlice : MsgCreateDid :=
  { Context := [], Id := "did:cheqd:test:alice", Controller := [],
    VerificationMethod := aliceDoc.VerificationMethod,
    Authentication := aliceDoc.Authentication, AssertionMethod := [],
    CapabilityInvocation := [], CapabilityDelegation := [], KeyAgreement := [],
    Service := [], AlsoKnownAs := [] }

/-- The create request for Alice's document, signed with the declared key. -/
def createAliceRequest : MsgWriteRequest :=
  { Data := .CreateDid createAlice,
    Signatures := [("did:cheqd:test:alice#key-1", "signed:zA1")] }

/-- The create request for Alice's document without any signature. -/
def unsignedCreateRequest : MsgWriteRequest :=
  { Data := .CreateDid createAlice, Signatures := [] }

/-- The create request for Alice's document, signed with a key of Bob's document only. -/
def foreignSignedCreateRequest : MsgWriteRequest :=
  { Data := .CreateDid createAlice,
    Signatures := [("did:cheqd:test:bob#key-1", "signed:zB1")] }

/-- The rotation request on Alice's document with the given asserted version, signed with
the new key. -/
def rotateSignedRequest (versionId : String) : MsgWriteRequest :=
  { Data := .UpdateDid (rotateAlice versionId),
    Signatures := [("did:cheqd:test:alice#key-2", "signed:zA2")] }

/-- A store that holds Alice's document at version "v1" with the deactivated flag set. -/
def deactivatedStore : Store :=
  [("did:cheqd:test:alice",
    { Did := aliceDoc
      Metadata := { Created := "t0", Updated := "t0", Deactivated := true, VersionId := "v1" }
      Timestamp := "t0", TxHash := "v1" })]

/-- Two calls that carry the same transaction bytes: the creation of Alice's document and
a rotation that asserts the version the creation wrote. -/
def sameBytesCalls : List Call :=
  [.create someContext createAliceRequest,
   .update someContext (rotateSignedRequest (GetTxHash specEnv someContext.TxBytes))]

/-- A later block context with other transaction bytes. -/
def laterContext : Context :=
  { ChainID := "test", BlockTime := "t2", TxBytes := [118, 51] }

/-- The creation of Alice's document followed by a rotation in a later transaction. -/
def createThenRotate : List Call :=
  [.create someContext createAliceRequest,
   .update laterContext (rotateSignedRequest (GetTxHash specEnv someContext.TxBytes))]

/-- Two successive rotations of Alice's stored document, each asserting the version the
store holds at its turn. -/
def twoRotations : List Call :=
  [.update someContext (rotateSignedRequest "v1"),
   .update laterContext (rotateSignedRequest (GetTxHash specEnv someContext.TxBytes))]

/-- The entry of the create-time signer list for one controller: the document's own id
carries the message's verification methods and authentication, any other controller
carries neither (the function mapped by `MsgCreateDid.GetSigners`). -/
def createSignerEntry (controller : String) (msg : MsgCreateDid) : Signer :=
  if controller = msg.Id then selfSigner msg.Id msg.Authentication msg.VerificationMethod
  else bareSigner controller

/-- Alice's document restated with one more key and with Bob as second controller. -/
def aliceExtended : MsgUpdateDid :=
  { aliceUnchanged with
    Controller := ["did:cheqd:test:alice", "did:cheqd:test:bob"]
    VerificationMethod := aliceDoc.VerificationMethod ++
      [ed25519Method "did:cheqd:test:alice#key-9" "did:cheqd:test:bob" "zA9"] }

/-- The stored document of Bob: one self-controlled key, used for authentication. -/
def bobDoc : Did :=
  { emptyDid "did:cheqd:test:bob" with
    VerificationMethod := [ed25519Method "did:cheqd:test:bob#key-1" "did:cheqd:test:bob" "zB1"]
    Authentication := ["did:cheqd:test:bob#key-1"] }

/-- A store that holds the documents of Alice and of Bob. -/
def aliceBobStore : Store :=
  ("did:cheqd:test:bob",
    { Did := bobDoc
      Metadata := { Created := "t0", Updated := "t0", Deactivated := false, VersionId := "v1" }
      Timestamp := "t0", TxHash := "v1" }) :: aliceStore

/-- A create message for a new document with the given controllers and nothing else, as in
the cases "With controller works" and "Second controller did not sign request" of
TestCreateDID. -/
def createImposter (controllers : List String) : MsgCreateDid :=
  { Context := [], Id := "did:cheqd:test:imposter", Controller := controllers,
    VerificationMethod := [], Authentication := [], AssertionMethod := [],
    CapabilityInvocation := [], CapabilityDelegation := [], KeyAgreement := [],
    Service := [], AlsoKnownAs := [] }

/-- The create request with controllers Alice and Bob, signed with Alice's key only. -/
def secondControllerUnsigned : MsgWriteRequest :=
  { Data := .CreateDid (createImposter ["did:cheqd:test:alice", "did:cheqd:test:bob"]),
    Signatures := [("did:cheqd:test:alice#key-1", "signed:zA1")] }

/-- The create request with controllers Alice and a document the store does not hold,
signed with Alice's key and with a key of the new document, as in the case "Controller not
found" of TestCreateDID. -/
def unknownControllerRequest : MsgWriteRequest :=
  { Data := .CreateDid (createImposter ["did:cheqd:test:alice", "did:cheqd:test:ghost"]),
    Signatures := [("did:cheqd:test:alice#key-1", "signed:zA1"),
      ("did:cheqd:test:imposter#key-1", "signed:zI1")] }

/-- Alice's document with one key that Bob controls; its publicKeyJwk is nil. -/
def bobKeyNilJwk : Did :=
  { emptyDid "did:cheqd:test:alice" with
    VerificationMethod := [ed25519Method "did:cheqd:test:alice#key-1" "did:cheqd:test:bob" "zA1"]
    Authentication := ["did:cheqd:test:alice#key-1"] }

/-- The same document as an update message, the publicKeyJwk of the key being an empty
slice that is not nil. -/
def bobKeyEmptyJwk : MsgUpdateDid :=
  { emptyUpdate "did:cheqd:test:alice" "v1" with
    VerificationMethod :=
      [{ ed25519Method "did:cheqd:test:alice#key-1" "did:cheqd:test:bob" "zA1" with
          PublicKeyJwk := some [] }]
    Authentication := ["did:cheqd:test:alice#key-1"] }

/-- The same update message with the publicKeyJwk of the key left nil. -/
def bobKeyRestated : MsgUpdateDid :=
  { emptyUpdate "did:cheqd:test:alice" "v1" with
    VerificationMethod := bobKeyNilJwk.VerificationMethod
    Authentication := ["did:cheqd:test:alice#key-1"] }

/-- A create message for a new document that declares one key of its own, "key-1", with
the given controllers, as in the cases "DID signed by wrong controller", "DID self-signed
by not existing verification method" and "Self-signature not found" of TestCreateDID. -/
def createImposterKeyed (controllers : List String) : MsgCreateDid :=
  { createImposter controllers with
    VerificationMethod :=
      [ed25519Method "did:cheqd:test:imposter#key-1" "did:cheqd:test:imposter" "zI1"]
    Authentication := ["did:cheqd:test:imposter#key-1"] }

/-- The create request of the case "DID signed by wrong controller": no controller is
declared and the only signature is keyed by Alice's key. -/
def wrongControllerRequest : MsgWriteRequest :=
  { Data := .CreateDid (createImposterKeyed []),
    Signatures := [("did:cheqd:test:alice#key-1", "signed:zA1")] }

/-- The create request of the case "DID self-signed by not existing verification method":
no controller is declared and the only signature is keyed by "key-2" of the new document,
which the document does not declare. -/
def undeclaredMethodRequest : MsgWriteRequest :=
  { Data := .CreateDid (createImposterKeyed []),
    Signatures := [("did:cheqd:test:imposter#key-2", "signed:zI2")] }

/-- The create request of the case "Self-signature not found": the controllers are Alice
and the new document itself, signed with Alice's key and with the undeclared "key-2" of
the new document. -/
def undeclaredSelfMethodRequest : MsgWriteRequest :=
  { Data := .CreateDid
      (createImposterKeyed ["did:cheqd:test:alice", "did:cheqd:test:imposter"]),
    Signatures := [("did:cheqd:test:alice#key-1", "signed:zA1"),
      ("did:cheqd:test:imposter#key-2", "signed:zI2")] }

/-- The create request of the case "Wrong signature": the controller is Alice and the
entry keyed by her key carries a signature made with another key. -/
def wrongSignatureRequest : MsgWriteRequest :=
  { Data := .CreateDid (createImposter ["did:cheqd:test:alice"]),
    Signatures := [("did:cheqd:test:alice#key-1", "signed:zB1")] }

/-- The create request of the case "No signature": controllers Alice and Bob, an empty
bundle. -/
def noSignatureRequest : MsgWriteRequest :=
  { Data := .CreateDid (createImposter ["did:cheqd:test:alice", "did:cheqd:test:bob"]),
    Signatures := [] }

/-- The create request of the case "With controller works": controllers Alice and Bob,
signed with a key of each. -/
def bothControllersSigned : MsgWriteRequest :=
  { Data := .CreateDid (createImposter ["did:cheqd:test:alice", "did:cheqd:test:bob"]),
    Signatures := [("did:cheqd:test:alice#key-1", "signed:zA1"),
      ("did:cheqd:test:bob#key-1", "signed:zB1")] }

/-! ## Lemmas on DeepEqual, look-up and AppendSignerIfNeed -/

theorem DeepEqualJwk_iff (a b : Option (List KeyValuePair)) :
    DeepEqualJwk a b = true ↔ a = b := by
  cases a with
  | none => cases b <;> simp [DeepEqualJwk]
  | some xs =>
    cases b with
    | none => simp [DeepEqualJwk]
    | some ys =>
      simp only [DeepEqualJwk, Option.some.injEq]
      induction xs generalizing ys with
      | nil => cases ys <;> simp
      | cons x xs ih =>
        cases ys with
        | nil => simp
        | cons y ys =>
          have h := ih ys
          simp only [List.length_cons, List.zipWith_cons_cons, List.all_cons, id_eq,
            Bool.and_eq_true, beq_iff_eq, List.cons.injEq, Nat.add_right_cancel_iff] at h ⊢
          constructor
          · rintro ⟨hl, hxy, hall⟩
            refine ⟨?_, h.mp ⟨hl, hall⟩⟩
            cases x; cases y
            simpa [DeepEqualKeyValuePair] using hxy
          · rintro ⟨rfl, hrest⟩
            have h2 := h.mpr hrest
            exact ⟨h2.1, by simp [DeepEqualKeyValuePair], h2.2⟩

theorem DeepEqual_iff (a b : VerificationMethod) : DeepEqual a b = true ↔ a = b := by
  cases a; cases b
  simp [DeepEqual, DeepEqualJwk_iff, and_assoc]

theorem FindVerificationMethod_eq_none (vms : List VerificationMethod) (id : String) :
    FindVerificationMethod vms id = none ↔ ∀ vm ∈ vms, vm.Id ≠ id := by
  simp [FindVerificationMethod, List.find?_eq_none]

theorem FindVerificationMethod_some_id (vms : List VerificationMethod) (id : String)
    (vm : VerificationMethod) (h : FindVerificationMethod vms id = some vm) :
    vm.Id = id ∧ vm ∈ vms := by
  unfold FindVerificationMethod at h
  have h1 := List.find?_some h
  have h2 := List.mem_of_find?_eq_some h
  exact ⟨by simpa using h1, h2⟩

theorem FindVerificationMethod_self (vms : List VerificationMethod)
    (hnodup : (vms.map (fun vm => vm.Id)).Nodup) (vm : VerificationMethod) (hmem : vm ∈ vms) :
    FindVerificationMethod vms vm.Id = some vm := by
  induction vms with
  | nil => cases hmem
  | cons v rest ih =>
    simp only [List.map_cons, List.nodup_cons, List.mem_map, not_exists, not_and] at hnodup
    by_cases hv : v.Id = vm.Id
    · rcases List.mem_cons.mp hmem with h | h
      · subst h
        simp [FindVerificationMethod]
      · exact absurd hv.symm (hnodup.1 vm h)
    · rcases List.mem_cons.mp hmem with h | h
      · exact absurd (by rw [h]) hv
      · have := ih hnodup.2 h
        unfold FindVerificationMethod at this ⊢
        rw [List.find?_cons_of_neg _ (by simpa using hv)]
        exact this

/-- The entry that AppendSignerIfNeed builds for `controller` (lines 188-195). -/
theorem AppendSignerIfNeed_cases (signers : List Signer) (controller : String)
    (msg : MsgUpdateDid) :
    (controller ∈ principals signers ∧ AppendSignerIfNeed signers controller msg = signers) ∨
    (controller ∉ principals signers ∧
      AppendSignerIfNeed signers controller msg =
        signers ++ [if controller = msg.Id then
          selfSigner msg.Id msg.Authentication msg.VerificationMethod
          else bareSigner controller]) := by
  by_cases h : signers.any (fun signer => signer.Signer == controller) = true
  · left
    refine ⟨?_, by simp [AppendSignerIfNeed, h]⟩
    simp only [List.any_eq_true, beq_iff_eq] at h
    obtain ⟨s, hs, rfl⟩ := h
    exact List.mem_map.mpr ⟨s, hs, rfl⟩
  · right
    refine ⟨?_, ?_⟩
    · intro hmem
      apply h
      obtain ⟨s, hs, hseq⟩ := List.mem_map.mp hmem
      simp only [List.any_eq_true, beq_iff_eq]
      exact ⟨s, hs, hseq⟩
    · simp only [AppendSignerIfNeed, h]
      by_cases hc : controller = msg.Id
      · subst hc
        simp [selfSigner, bareSigner]
      · simp [hc]

theorem mem_principals_AppendSignerIfNeed (signers : List Signer) (controller : String)
    (msg : MsgUpdateDid) : controller ∈ principals (AppendSignerIfNeed signers controller msg) := by
  rcases AppendSignerIfNeed_cases signers controller msg with ⟨h, he⟩ | ⟨_, he⟩
  · rw [he]; exact h
  · rw [he]
    by_cases hc : controller = msg.Id <;> simp [principals, hc, selfSigner, bareSigner]

theorem AppendSignerIfNeed_extends (signers : List Signer) (controller : String)
    (msg : MsgUpdateDid) : ∃ added, AppendSignerIfNeed signers controller msg = signers ++ added := by
  rcases AppendSignerIfNeed_cases signers controller msg with ⟨_, he⟩ | ⟨_, he⟩
  · exact ⟨[], by simp [he]⟩
  · exact ⟨_, he⟩

/-- A property kept by every AppendSignerIfNeed is kept by one iteration of the
verification-method loop. -/
theorem verificationMethodStep_induction (P : List Signer → Prop) (newDIDDoc : MsgUpdateDid)
    (hstep : ∀ signers controller, P signers → P (AppendSignerIfNeed signers controller newDIDDoc))
    (signers : List Signer) (oldVM : VerificationMethod) (h : P signers) :
    P (verificationMethodStep newDIDDoc signers oldVM) := by
  unfold verificationMethodStep
  cases FindVerificationMethod newDIDDoc.VerificationMethod oldVM.Id with
  | none => exact hstep _ _ h
  | some newVM =>
    simp only
    split_ifs
    · exact hstep _ _ (hstep _ _ h)
    · exact hstep _ _ h
    · exact hstep _ _ h
    · exact h

/-- A property kept by every iteration is kept by the whole verification-method loop. -/
theorem foldl_induction {α β : Type} (P : β → Prop) (f : β → α → β) (l : List α)
    (hstep : ∀ b a, a ∈ l → P b → P (f b a)) (b : β) (h : P b) : P (l.foldl f b) := by
  induction l generalizing b with
  | nil => exact h
  | cons a rest ih =>
    simp only [List.foldl_cons]
    exact ih (fun b' a' ha' hb' => hstep b' a' (List.mem_cons_of_mem _ ha') hb') _
      (hstep b a (List.mem_cons_self _ _) h)

/-- What an iteration guarantees for every signer list stays true to the end of the loop,
provided later iterations keep it. -/
theorem foldl_after {α β : Type} (P : β → Prop) (f : β → α → β) (l : List α) (a : α)
    (ha : a ∈ l) (hhere : ∀ b, P (f b a)) (hkeep : ∀ b a', P b → P (f b a')) (b : β) :
    P (l.foldl f b) := by
  induction l generalizing b with
  | nil => cases ha
  | cons x rest ih =>
    simp only [List.foldl_cons]
    rcases List.mem_cons.mp ha with h | h
    · subst h
      exact foldl_induction P f rest (fun b' a' _ hb' => hkeep b' a' hb') _ (hhere b)
    · exact ih h _

theorem appendRemovedControllers_eq (signers : List Signer) (removedControllers : List String) :
    appendRemovedControllers signers removedControllers =
      signers ++ removedControllers.map bareSigner := by
  unfold appendRemovedControllers
  have key : ∀ (l : List String) (acc : List Signer),
      l.foldl (fun acc controller => acc ++ [bareSigner controller]) acc =
        acc ++ l.map bareSigner := by
    intro l
    induction l with
    | nil => intro acc; simp
    | cons c rest ih => intro acc; simp [ih]
  split_ifs with h
  · exact key _ _
  · have : removedControllers = [] := by
      cases removedControllers with
      | nil => rfl
      | cons c rest => simp at h
    simp [this]

theorem mem_Complement (vs ts : List String) (c : String) :
    c ∈ Complement vs ts ↔ c ∈ vs ∧ c ∉ ts := by
  simp [Complement]

theorem mem_principals_iff (signers : List Signer) (p : String) :
    p ∈ principals signers ↔ ∃ s ∈ signers, s.Signer = p := by
  simp [principals]

theorem principals_AppendSignerIfNeed_mono (signers : List Signer) (controller p : String)
    (msg : MsgUpdateDid) (h : p ∈ principals signers) :
    p ∈ principals (AppendSignerIfNeed signers controller msg) := by
  obtain ⟨added, he⟩ := AppendSignerIfNeed_extends signers controller msg
  rw [he]
  simp only [principals, List.map_append, List.mem_append]
  exact Or.inl h

theorem mem_AppendSignerIfNeed_mono (signers : List Signer) (controller : String)
    (msg : MsgUpdateDid) (s : Signer) (h : s ∈ signers) :
    s ∈ AppendSignerIfNeed signers controller msg := by
  obtain ⟨added, he⟩ := AppendSignerIfNeed_extends signers controller msg
  rw [he]
  exact List.mem_append_left _ h

/-- A principal required by the iteration for `oldVM`, whatever the list before it, is
required at the end of UpdateDidVerifySignature's computation. -/
theorem required_of_step (seed : List Signer) (oldDIDDoc : Did) (newDIDDoc : MsgUpdateDid)
    (oldVM : VerificationMethod) (p : String) (hmem : oldVM ∈ oldDIDDoc.VerificationMethod)
    (hhere : ∀ signers, p ∈ principals (verificationMethodStep newDIDDoc signers oldVM)) :
    ∃ s ∈ requiredSigners seed oldDIDDoc newDIDDoc, s.Signer = p := by
  rw [← mem_principals_iff]
  unfold requiredSigners
  exact foldl_after (fun signers => p ∈ principals signers) _ _ oldVM hmem hhere
    (fun b a hb => verificationMethodStep_induction (fun signers => p ∈ principals signers)
      newDIDDoc (fun signers c h => principals_AppendSignerIfNeed_mono signers c p newDIDDoc h)
      b a hb) _

/-! ## Claims -/

/-- C3: a verification method of the old document whose id no verification method of the
new document has makes its controller a required signer: the list that
UpdateDidVerifySignature hands to VerifySignature has an entry with principal
`oldVM.Controller`. -/
theorem removed_method_requires_old_controller (seed : List Signer) (oldDIDDoc : Did)
    (newDIDDoc : MsgUpdateDid) (oldVM : VerificationMethod)
    (hmem : oldVM ∈ oldDIDDoc.VerificationMethod)
    (hgone : ∀ vm ∈ newDIDDoc.VerificationMethod, vm.Id ≠ oldVM.Id) :
    ∃ s ∈ requiredSigners seed oldDIDDoc newDIDDoc, s.Signer = oldVM.Controller := by
  apply required_of_step seed oldDIDDoc newDIDDoc oldVM _ hmem
  intro signers
  have hnone := (FindVerificationMethod_eq_none newDIDDoc.VerificationMethod oldVM.Id).mpr hgone
  simp only [verificationMethodStep, hnone]
  exact mem_principals_AppendSignerIfNeed _ _ _

/-- The witness of C3: Alice's key-1 is dropped by the rotation, and Alice is required. -/
theorem removed_method_requires_old_controller_witness :
    ∃ s ∈ requiredSigners (rotateAlice "v1").GetSigners aliceDoc (rotateAlice "v1"),
      s.Signer = "did:cheqd:test:alice" :=
  removed_method_requires_old_controller (rotateAlice "v1").GetSigners aliceDoc
    (rotateAlice "v1")
    (ed25519Method "did:cheqd:test:alice#key-1" "did:cheqd:test:alice" "zA1")
    (by simp [aliceDoc]) (by simp [rotateAlice, ed25519Method])

/-- C4: when an old verification method is found by id in the new document with another
controller, both the old and the new controller are required signers. -/
theorem controller_hand_off_requires_both (seed : List Signer) (oldDIDDoc : Did)
    (newDIDDoc : MsgUpdateDid) (oldVM newVM : VerificationMethod)
    (hmem : oldVM ∈ oldDIDDoc.VerificationMethod)
    (hfind : FindVerificationMethod newDIDDoc.VerificationMethod oldVM.Id = some newVM)
    (hctrl : newVM.Controller ≠ oldVM.Controller) :
    (∃ s ∈ requiredSigners seed oldDIDDoc newDIDDoc, s.Signer = oldVM.Controller) ∧
    (∃ s ∈ requiredSigners seed oldDIDDoc newDIDDoc, s.Signer = newVM.Controller) := by
  have hne : DeepEqual oldVM newVM = false := by
    rw [Bool.eq_false_iff]
    intro h
    exact hctrl (by rw [(DeepEqual_iff oldVM newVM).mp h])
  have hstep : ∀ signers, verificationMethodStep newDIDDoc signers oldVM =
      AppendSignerIfNeed (AppendSignerIfNeed signers newVM.Controller newDIDDoc)
        oldVM.Controller newDIDDoc := by
    intro signers
    simp [verificationMethodStep, hfind, hne, hctrl]
  constructor
  · apply required_of_step seed oldDIDDoc newDIDDoc oldVM _ hmem
    intro signers
    rw [hstep]
    exact mem_principals_AppendSignerIfNeed _ _ _
  · apply required_of_step seed oldDIDDoc newDIDDoc oldVM _ hmem
    intro signers
    rw [hstep]
    exact principals_AppendSignerIfNeed_mono _ _ _ _ (mem_principals_AppendSignerIfNeed _ _ _)

/-- The witness of C4: Alice's key-1 passes from Alice to Charlie; both are required. -/
theorem controller_hand_off_requires_both_witness :
    (∃ s ∈ requiredSigners aliceKeyToCharlie.GetSigners aliceDoc aliceKeyToCharlie,
      s.Signer = "did:cheqd:test:alice") ∧
    (∃ s ∈ requiredSigners aliceKeyToCharlie.GetSigners aliceDoc aliceKeyToCharlie,
      s.Signer = "did:cheqd:test:charlie") :=
  controller_hand_off_requires_both aliceKeyToCharlie.GetSigners aliceDoc aliceKeyToCharlie
    (ed25519Method "did:cheqd:test:alice#key-1" "did:cheqd:test:alice" "zA1")
    (ed25519Method "did:cheqd:test:alice#key-1" "did:cheqd:test:charlie" "zA1")
    (by simp [aliceDoc]) (by simp [aliceKeyToCharlie, FindVerificationMethod, ed25519Method])
    (by simp [ed25519Method])

/-- C5: when an old verification method is found by id in the new document, a difference
in type, controller, publicKeyJwk or publicKeyMultibase makes the new controller a
required signer, and equality in all five fields makes the iteration for that method
leave the signer list as it is. -/
theorem changed_method_requires_new_controller (seed : List Signer) (oldDIDDoc : Did)
    (newDIDDoc : MsgUpdateDid) (oldVM newVM : VerificationMethod)
    (hmem : oldVM ∈ oldDIDDoc.VerificationMethod)
    (hfind : FindVerificationMethod newDIDDoc.VerificationMethod oldVM.Id = some newVM) :
    ((newVM.Typ ≠ oldVM.Typ ∨ newVM.Controller ≠ oldVM.Controller ∨
        newVM.PublicKeyJwk ≠ oldVM.PublicKeyJwk ∨
        newVM.PublicKeyMultibase ≠ oldVM.PublicKeyMultibase) →
      ∃ s ∈ requiredSigners seed oldDIDDoc newDIDDoc, s.Signer = newVM.Controller) ∧
    ((newVM.Id = oldVM.Id ∧ newVM.Typ = oldVM.Typ ∧ newVM.Controller = oldVM.Controller ∧
        newVM.PublicKeyJwk = oldVM.PublicKeyJwk ∧
        newVM.PublicKeyMultibase = oldVM.PublicKeyMultibase) →
      ∀ signers, verificationMethodStep newDIDDoc signers oldVM = signers) := by
  constructor
  · intro hdiff
    have hne : DeepEqual oldVM newVM = false := by
      rw [Bool.eq_false_iff]
      intro h
      have heq := (DeepEqual_iff oldVM newVM).mp h
      subst heq
      simp at hdiff
    apply required_of_step seed oldDIDDoc newDIDDoc oldVM _ hmem
    intro signers
    simp only [verificationMethodStep, hfind, hne, Bool.not_false, if_true]
    split_ifs
    · exact principals_AppendSignerIfNeed_mono _ _ _ _ (mem_principals_AppendSignerIfNeed _ _ _)
    · exact mem_principals_AppendSignerIfNeed _ _ _
  · rintro ⟨h1, h2, h3, h4, h5⟩ signers
    have heq : oldVM = newVM := by
      cases oldVM; cases newVM
      simp only at h1 h2 h3 h4 h5
      simp [h1, h2, h3, h4, h5]
    subst heq
    have hde : DeepEqual oldVM oldVM = true := (DeepEqual_iff _ _).mpr rfl
    simp [verificationMethodStep, hfind, hde]

/-- The witness of C5: Alice's key-1 changes its controller (Charlie becomes required),
and in the unchanged restatement the iteration for key-1 adds nothing. -/
theorem changed_method_requires_new_controller_witness :
    (∃ s ∈ requiredSigners aliceKeyToCharlie.GetSigners aliceDoc aliceKeyToCharlie,
      s.Signer = "did:cheqd:test:charlie") ∧
    (∀ signers, verificationMethodStep aliceUnchanged signers
      (ed25519Method "did:cheqd:test:alice#key-1" "did:cheqd:test:alice" "zA1") = signers) :=
  ⟨(changed_method_requires_new_controller aliceKeyToCharlie.GetSigners aliceDoc
      aliceKeyToCharlie
      (ed25519Method "did:cheqd:test:alice#key-1" "did:cheqd:test:alice" "zA1")
      (ed25519Method "did:cheqd:test:alice#key-1" "did:cheqd:test:charlie" "zA1")
      (by simp [aliceDoc])
      (by simp [aliceKeyToCharlie, FindVerificationMethod, ed25519Method])).1
      (Or.inr (Or.inl (by simp [ed25519Method]))),
   (changed_method_requires_new_controller aliceUnchanged.GetSigners aliceDoc aliceUnchanged
      (ed25519Method "did:cheqd:test:alice#key-1" "did:cheqd:test:alice" "zA1")
      (ed25519Method "did:cheqd:test:alice#key-1" "did:cheqd:test:alice" "zA1")
      (by simp [aliceDoc])
      (by simp [aliceUnchanged, aliceDoc, FindVerificationMethod, ed25519Method])).2
      ⟨rfl, rfl, rfl, rfl, rfl⟩⟩

/-- C6: a controller of the old document (after the self default) that is no controller of
the new document (after the self default) is a required signer with an entry that carries
no verification method and no authentication. -/
theorem removed_controller_required_without_restriction (seed : List Signer) (oldDIDDoc : Did)
    (newDIDDoc : MsgUpdateDid) (c : String)
    (hold : c ∈ expandController oldDIDDoc.Controller oldDIDDoc.Id)
    (hnew : c ∉ expandController newDIDDoc.Controller newDIDDoc.Id) :
    ∃ s ∈ requiredSigners seed oldDIDDoc newDIDDoc,
      s.Signer = c ∧ s.VerificationMethod = [] ∧ s.Authentication = [] := by
  refine ⟨bareSigner c, ?_, rfl, rfl, rfl⟩
  unfold requiredSigners
  apply foldl_induction (fun signers => bareSigner c ∈ signers)
  · intro b a _ hb
    exact verificationMethodStep_induction (fun signers => bareSigner c ∈ signers) newDIDDoc
      (fun signers ctrl h => mem_AppendSignerIfNeed_mono signers ctrl newDIDDoc _ h) b a hb
  · rw [appendRemovedControllers_eq]
    apply List.mem_append_right
    exact List.mem_map.mpr ⟨c, (mem_Complement _ _ _).mpr ⟨hold, hnew⟩, rfl⟩

/-- The witness of C6: Alice's document (controlled by itself) is handed over to Bob, and
Alice is required without key restriction. -/
theorem removed_controller_required_without_restriction_witness :
    ∃ s ∈ requiredSigners handOverToBob.GetSigners aliceDoc handOverToBob,
      s.Signer = "did:cheqd:test:alice" ∧ s.VerificationMethod = [] ∧ s.Authentication = [] :=
  removed_controller_required_without_restriction handOverToBob.GetSigners aliceDoc
    handOverToBob "did:cheqd:test:alice"
    (by simp [expandController, aliceDoc, emptyDid])
    (by simp [expandController, handOverToBob, rotateAlice, emptyUpdate])

theorem principals_append (xs ys : List Signer) :
    principals (xs ++ ys) = principals xs ++ principals ys := by
  simp [principals]

theorem principals_map_bareSigner (cs : List String) :
    principals (cs.map bareSigner) = cs := by
  induction cs with
  | nil => rfl
  | cons c rest ih =>
    simp only [principals, List.map_cons, List.map_map] at ih ⊢
    rw [ih]
    rfl

theorem nodup_principals_AppendSignerIfNeed (signers : List Signer) (controller : String)
    (msg : MsgUpdateDid) (h : (principals signers).Nodup) :
    (principals (AppendSignerIfNeed signers controller msg)).Nodup := by
  rcases AppendSignerIfNeed_cases signers controller msg with ⟨_, he⟩ | ⟨hnot, he⟩
  · rw [he]; exact h
  · rw [he, principals_append]
    have hp : principals [if controller = msg.Id then
        selfSigner msg.Id msg.Authentication msg.VerificationMethod
        else bareSigner controller] = [controller] := by
      by_cases hc : controller = msg.Id <;> simp [principals, hc, selfSigner, bareSigner]
    rw [hp]
    exact List.Nodup.append h (List.nodup_singleton _)
      (by
        intro x hx hx2
        rw [List.mem_singleton] at hx2
        exact hnot (hx2 ▸ hx))

theorem nodup_expandController (controller : List String) (id : String)
    (h : controller.Nodup) : (expandController controller id).Nodup := by
  unfold expandController
  split_ifs
  · exact List.nodup_singleton _
  · exact h

/-- C7, the claim as stated fails: the old document names Bob twice as controller, the new
one names Charlie alone; the seed has no repeated principal, and the required-signer list
has Bob twice. -/
theorem signer_list_repeats_removed_controller :
    (principals toCharlie.GetSigners).Nodup ∧
    principals (requiredSigners toCharlie.GetSigners twiceBobDoc toCharlie) =
      ["did:cheqd:test:charlie", "did:cheqd:test:bob", "did:cheqd:test:bob"] ∧
    ¬ (principals (requiredSigners toCharlie.GetSigners twiceBobDoc toCharlie)).Nodup := by
  have h : principals (requiredSigners toCharlie.GetSigners twiceBobDoc toCharlie) =
      ["did:cheqd:test:charlie", "did:cheqd:test:bob", "did:cheqd:test:bob"] := by decide
  refine ⟨by decide, h, ?_⟩
  rw [h]
  decide

/-- C7, amended: when the seed has no two entries with the same principal, the old
controller list has no repeated entry and no removed controller is a principal of the
seed, the required-signer list has no two entries with the same principal. -/
theorem signer_list_without_repeats (seed : List Signer) (oldDIDDoc : Did)
    (newDIDDoc : MsgUpdateDid) (hseed : (principals seed).Nodup)
    (hold : oldDIDDoc.Controller.Nodup)
    (hfresh : ∀ c ∈ Complement (expandController oldDIDDoc.Controller oldDIDDoc.Id)
      (expandController newDIDDoc.Controller newDIDDoc.Id), c ∉ principals seed) :
    (principals (requiredSigners seed oldDIDDoc newDIDDoc)).Nodup := by
  unfold requiredSigners
  apply foldl_induction (fun signers => (principals signers).Nodup)
  · intro b a _ hb
    exact verificationMethodStep_induction (fun signers => (principals signers).Nodup)
      newDIDDoc (fun signers c h => nodup_principals_AppendSignerIfNeed signers c newDIDDoc h)
      b a hb
  · rw [appendRemovedControllers_eq, principals_append, principals_map_bareSigner]
    refine List.Nodup.append hseed ?_ ?_
    · exact List.Nodup.filter _ (nodup_expandController _ _ hold)
    · intro x hx hx2
      exact hfresh x hx2 hx

/-- The witness of C7 amended: Alice's document, controlled by Alice and Bob, restated
with the same keys and no controller list (Bob is removed). -/
theorem signer_list_without_repeats_witness :
    (principals (requiredSigners aliceUnchanged.GetSigners aliceAndBobDoc
      aliceUnchanged)).Nodup :=
  signer_list_without_repeats aliceUnchanged.GetSigners aliceAndBobDoc aliceUnchanged
    (by decide) (by decide) (by decide)

/-- C8, the claim as stated fails: Alice's self-controlled document is handed over to Bob;
the list requires Alice through an entry without verification method and authentication,
although the new document declares both, and the later AppendSignerIfNeed for the dropped
key leaves that entry as it is. -/
theorem own_id_required_without_restriction :
    requiredSigners handOverToBob.GetSigners aliceDoc handOverToBob =
      [bareSigner "did:cheqd:test:bob", bareSigner "did:cheqd:test:alice"] ∧
    handOverToBob.Id = "did:cheqd:test:alice" ∧
    handOverToBob.VerificationMethod ≠ [] ∧ handOverToBob.Authentication ≠ [] := by
  decide

/-- C8, amended: the required-signer list is the seed, then one entry without key
restriction for every removed controller (also when that controller is the document's own
id), then the entries added by the verification-method loop; every entry of that last part
whose principal is the new document's id carries the new document's verificationMethod and
authentication lists. -/
theorem method_signers_for_own_id_are_restricted (seed : List Signer) (oldDIDDoc : Did)
    (newDIDDoc : MsgUpdateDid) :
    ∃ added,
      requiredSigners seed oldDIDDoc newDIDDoc =
        seed ++
        (Complement (expandController oldDIDDoc.Controller oldDIDDoc.Id)
          (expandController newDIDDoc.Controller newDIDDoc.Id)).map bareSigner ++ added ∧
      ∀ s ∈ added, s.Signer = newDIDDoc.Id →
        s.VerificationMethod = newDIDDoc.VerificationMethod ∧
        s.Authentication = newDIDDoc.Authentication := by
  simp only [requiredSigners, appendRemovedControllers_eq]
  generalize seed ++ (Complement (expandController oldDIDDoc.Controller oldDIDDoc.Id)
    (expandController newDIDDoc.Controller newDIDDoc.Id)).map bareSigner = base
  apply foldl_induction (fun signers => ∃ added, signers = base ++ added ∧
      ∀ s ∈ added, s.Signer = newDIDDoc.Id →
        s.VerificationMethod = newDIDDoc.VerificationMethod ∧
        s.Authentication = newDIDDoc.Authentication)
  · intro b a _ hb
    refine verificationMethodStep_induction (fun signers => ∃ added, signers = base ++ added ∧
      ∀ s ∈ added, s.Signer = newDIDDoc.Id →
        s.VerificationMethod = newDIDDoc.VerificationMethod ∧
        s.Authentication = newDIDDoc.Authentication) newDIDDoc ?_ b a hb
    rintro signers c ⟨added, rfl, hadded⟩
    rcases AppendSignerIfNeed_cases (base ++ added) c newDIDDoc with ⟨_, he⟩ | ⟨_, he⟩
    · exact ⟨added, he, hadded⟩
    · refine ⟨added ++ [if c = newDIDDoc.Id then
        selfSigner newDIDDoc.Id newDIDDoc.Authentication newDIDDoc.VerificationMethod
        else bareSigner c], by rw [he, List.append_assoc], ?_⟩
      intro s hs hid
      rcases List.mem_append.mp hs with h | h
      · exact hadded s h hid
      · rw [List.mem_singleton] at h
        by_cases hc : c = newDIDDoc.Id
        · rw [if_pos hc] at h
          subst h
          exact ⟨rfl, rfl⟩
        · rw [if_neg hc] at h
          subst h
          exact absurd hid hc
  · exact ⟨[], by simp, by simp⟩

theorem Complement_self (vs ts : List String) (h : ∀ c ∈ vs, c ∈ ts) : Complement vs ts = [] := by
  simp only [Complement, List.filter_eq_nil_iff]
  intro c hc
  simpa using h c hc

theorem mem_expandController_congr (old new : List String) (id c : String)
    (h : ∀ x, x ∈ old ↔ x ∈ new) (hc : c ∈ expandController old id) :
    c ∈ expandController new id := by
  unfold expandController at hc ⊢
  cases old with
  | nil =>
    cases new with
    | nil => exact hc
    | cons y ys => exact absurd ((h y).mpr (List.mem_cons_self _ _)) (List.not_mem_nil _)
  | cons x xs =>
    cases new with
    | nil => exact absurd ((h x).mp (List.mem_cons_self _ _)) (List.not_mem_nil _)
    | cons y ys =>
      simp only [List.length_cons, Nat.add_one_ne_zero, if_false] at hc ⊢
      exact (h c).mp hc

/-- C9: when the verification-method ids of the old document are pairwise distinct and the
new document has the same id, controller list and verification methods, the
required-signer list is exactly the seed: nothing is added for a removed controller or a
changed method. -/
theorem unchanged_document_requires_seed_only (seed : List Signer) (oldDIDDoc : Did)
    (newDIDDoc : MsgUpdateDid)
    (hdistinct : (oldDIDDoc.VerificationMethod.map (fun vm => vm.Id)).Nodup)
    (hid : newDIDDoc.Id = oldDIDDoc.Id) (hcontroller : newDIDDoc.Controller = oldDIDDoc.Controller)
    (hmethods : newDIDDoc.VerificationMethod = oldDIDDoc.VerificationMethod) :
    requiredSigners seed oldDIDDoc newDIDDoc = seed := by
  have hremoved : Complement (expandController oldDIDDoc.Controller oldDIDDoc.Id)
      (expandController newDIDDoc.Controller newDIDDoc.Id) = [] := by
    rw [hid, hcontroller]
    exact Complement_self _ _ (fun c hc => hc)
  simp only [requiredSigners, hremoved, appendRemovedControllers_eq, List.map_nil,
    List.append_nil]
  apply foldl_induction (fun signers => signers = seed)
  · intro b oldVM hmem hb
    have hfind : FindVerificationMethod newDIDDoc.VerificationMethod oldVM.Id = some oldVM := by
      rw [hmethods]
      exact FindVerificationMethod_self _ hdistinct oldVM hmem
    have hde : DeepEqual oldVM oldVM = true := (DeepEqual_iff _ _).mpr rfl
    simp [verificationMethodStep, hfind, hde, hb]
  · rfl

/-- The witness of C9: Alice's document restated unchanged requires the seed only. -/
theorem unchanged_document_requires_seed_only_witness :
    requiredSigners aliceUnchanged.GetSigners aliceDoc aliceUnchanged =
      aliceUnchanged.GetSigners :=
  unchanged_document_requires_seed_only aliceUnchanged.GetSigners aliceDoc aliceUnchanged
    (by decide) rfl rfl rfl

theorem GetSigners_own_id_restricted (msg : MsgUpdateDid) :
    ∀ s ∈ msg.GetSigners, s.Signer = msg.Id →
      s.VerificationMethod = msg.VerificationMethod ∧ s.Authentication = msg.Authentication := by
  intro s hs hid
  simp only [MsgUpdateDid.GetSigners, List.mem_map] at hs
  obtain ⟨c, _, hc⟩ := hs
  by_cases h : c = msg.Id
  · rw [if_pos h] at hc
    subst hc
    exact ⟨rfl, rfl⟩
  · rw [if_neg h] at hc
    subst hc
    exact absurd hid h

/-- C10: when old and new document have the same id D and the same set of controllers,
every old verification method is controlled by D and none of the old ids occurs among the
verification methods of the new document (which D controls as well), the diff adds at most
one entry to the seed, and that entry is D restricted to the new document's
verificationMethod and authentication lists; if the seed's entries for D carry that
restriction, so does every entry for D in the required-signer list, and the seed of the
spec's GetSigners does carry it. -/
theorem key_rotation_adds_only_restricted_self (seed : List Signer) (oldDIDDoc : Did)
    (newDIDDoc : MsgUpdateDid) (hid : oldDIDDoc.Id = newDIDDoc.Id)
    (hcontroller : ∀ c, c ∈ oldDIDDoc.Controller ↔ c ∈ newDIDDoc.Controller)
    (hold : ∀ vm ∈ oldDIDDoc.VerificationMethod, vm.Controller = newDIDDoc.Id)
    (hreplaced : ∀ vm ∈ oldDIDDoc.VerificationMethod, ∀ vm2 ∈ newDIDDoc.VerificationMethod,
      vm2.Id ≠ vm.Id)
    (_hnew : ∀ vm2 ∈ newDIDDoc.VerificationMethod, vm2.Controller = newDIDDoc.Id) :
    (requiredSigners seed oldDIDDoc newDIDDoc = seed ∨
      requiredSigners seed oldDIDDoc newDIDDoc =
        seed ++ [selfSigner newDIDDoc.Id newDIDDoc.Authentication
          newDIDDoc.VerificationMethod]) ∧
    ((∀ s ∈ seed, s.Signer = newDIDDoc.Id →
        s.VerificationMethod = newDIDDoc.VerificationMethod ∧
        s.Authentication = newDIDDoc.Authentication) →
      ∀ s ∈ requiredSigners seed oldDIDDoc newDIDDoc, s.Signer = newDIDDoc.Id →
        s.VerificationMethod = newDIDDoc.VerificationMethod ∧
        s.Authentication = newDIDDoc.Authentication) ∧
    (seed = newDIDDoc.GetSigners →
      ∀ s ∈ requiredSigners seed oldDIDDoc newDIDDoc, s.Signer = newDIDDoc.Id →
        s.VerificationMethod = newDIDDoc.VerificationMethod ∧
        s.Authentication = newDIDDoc.Authentication) := by
  have hremoved : Complement (expandController oldDIDDoc.Controller oldDIDDoc.Id)
      (expandController newDIDDoc.Controller newDIDDoc.Id) = [] := by
    rw [hid]
    exact Complement_self _ _ (fun c hc => mem_expandController_congr _ _ _ c hcontroller hc)
  have hmain : requiredSigners seed oldDIDDoc newDIDDoc = seed ∨
      requiredSigners seed oldDIDDoc newDIDDoc =
        seed ++ [selfSigner newDIDDoc.Id newDIDDoc.Authentication
          newDIDDoc.VerificationMethod] := by
    simp only [requiredSigners, hremoved, appendRemovedControllers_eq, List.map_nil,
      List.append_nil]
    apply foldl_induction (fun signers => signers = seed ∨ signers =
      seed ++ [selfSigner newDIDDoc.Id newDIDDoc.Authentication newDIDDoc.VerificationMethod])
    · intro b oldVM hmem hb
      have hnone : FindVerificationMethod newDIDDoc.VerificationMethod oldVM.Id = none :=
        (FindVerificationMethod_eq_none _ _).mpr (hreplaced oldVM hmem)
      simp only [verificationMethodStep, hnone, hold oldVM hmem]
      rcases AppendSignerIfNeed_cases b newDIDDoc.Id newDIDDoc with ⟨_, he⟩ | ⟨hnot, he⟩
      · rw [he]; exact hb
      · rcases hb with hb | hb
        · right
          rw [he, hb, if_pos rfl]
        · exfalso
          apply hnot
          rw [hb, principals_append]
          exact List.mem_append_right _ (by simp [principals, selfSigner])
    · exact Or.inl rfl
  have hkeep : (∀ s ∈ seed, s.Signer = newDIDDoc.Id →
        s.VerificationMethod = newDIDDoc.VerificationMethod ∧
        s.Authentication = newDIDDoc.Authentication) →
      ∀ s ∈ requiredSigners seed oldDIDDoc newDIDDoc, s.Signer = newDIDDoc.Id →
        s.VerificationMethod = newDIDDoc.VerificationMethod ∧
        s.Authentication = newDIDDoc.Authentication := by
    intro hseed s hs hsid
    rcases hmain with h | h
    · rw [h] at hs
      exact hseed s hs hsid
    · rw [h] at hs
      rcases List.mem_append.mp hs with h1 | h1
      · exact hseed s h1 hsid
      · rw [List.mem_singleton] at h1
        subst h1
        exact ⟨rfl, rfl⟩
  refine ⟨hmain, hkeep, ?_⟩
  intro hspec
  exact hkeep (hspec ▸ GetSigners_own_id_restricted newDIDDoc)

/-- The witness of C10: the rotation of Alice's key-1 to key-2; the seed modelled from the
spec already holds Alice restricted to the new document's keys. -/
theorem key_rotation_adds_only_restricted_self_witness :
    (requiredSigners (rotateAlice "v1").GetSigners aliceDoc (rotateAlice "v1") =
        (rotateAlice "v1").GetSigners ∨
      requiredSigners (rotateAlice "v1").GetSigners aliceDoc (rotateAlice "v1") =
        (rotateAlice "v1").GetSigners ++
          [selfSigner (rotateAlice "v1").Id (rotateAlice "v1").Authentication
            (rotateAlice "v1").VerificationMethod]) ∧
    ∀ s ∈ requiredSigners (rotateAlice "v1").GetSigners aliceDoc (rotateAlice "v1"),
      s.Signer = (rotateAlice "v1").Id →
        s.VerificationMethod = (rotateAlice "v1").VerificationMethod ∧
        s.Authentication = (rotateAlice "v1").Authentication :=
  have h := key_rotation_adds_only_restricted_self (rotateAlice "v1").GetSigners aliceDoc
    (rotateAlice "v1") rfl (fun _ => Iff.rfl) (by decide) (by decide) (by decide)
  ⟨h.1, h.2.2 rfl⟩

/-- C1, the claim as stated fails: the rotation request asserts version "v0" while "v1" is
stored, its signature bundle is empty, and UpdateDid returns the error of the signature
verification, not the unexpected-version error. -/
theorem stale_version_reports_signature_error :
    List.lookup "did:cheqd:test:alice" aliceStore ≠ none ∧
    (rotateAlice "v0").VersionId ≠ "v1" ∧
    UpdateDid specEnv someContext aliceStore staleUnsignedRequest =
      (.error { kind := .SignatureNotFound, description := "signer: did:cheqd:test:alice" },
        aliceStore) ∧
    (UpdateDid specEnv someContext aliceStore staleUnsignedRequest).1 ≠
      .error (unexpectedDidVersion "did:cheqd:test:alice" "v1" "v0") := by
  have h : UpdateDid specEnv someContext aliceStore staleUnsignedRequest =
      (.error { kind := .SignatureNotFound, description := "signer: did:cheqd:test:alice" },
        aliceStore) := by rfl
  refine ⟨by decide, by decide, h, ?_⟩
  rw [h]
  simp [unexpectedDidVersion]

/-- C1, amended: an update request that passes basic validation, for a stored document
whose versionId differs from the asserted one, fails and leaves the store as it was.  The
signers are computed and verified before the versions are compared: the error is the one
of VerifySignature when it rejects the computed signers, and the unexpected-version error
otherwise. -/
theorem stale_version_update_fails (env : Env) (ctx : Context) (store : Store)
    (msg : MsgWriteRequest) (didMsg : MsgUpdateDid) (stored : StateValue)
    (hmsg : msg.Data = .UpdateDid didMsg)
    (hvalid : env.ValidateBasicUpdate didMsg (env.DidPrefix ++ ctx.ChainID ++ ":") = none)
    (hstored : List.lookup didMsg.Id store = some stored)
    (hstale : stored.Metadata.VersionId ≠ didMsg.VersionId) :
    UpdateDid env ctx store msg =
      (match UpdateDidVerifySignature env ctx store msg stored.Did didMsg with
        | some err => .error err
        | none =>
          .error (unexpectedDidVersion didMsg.Id stored.Metadata.VersionId didMsg.VersionId),
        store) := by
  unfold UpdateDid
  simp only [hmsg, hvalid, Store.HasDid, Store.GetDid, hstored, Option.isSome_some,
    Bool.not_true, Bool.false_eq_true, if_false]
  cases UpdateDidVerifySignature env ctx store msg stored.Did didMsg with
  | some err => rfl
  | none => simp [hstale]

/-- The witness of C1 amended: the stale rotation request signed with the new key passes
the signature verification and fails with the unexpected-version error. -/
theorem stale_version_update_fails_witness :
    UpdateDid specEnv someContext aliceStore staleSignedRequest =
      (.error (unexpectedDidVersion "did:cheqd:test:alice" "v1" "v0"), aliceStore) :=
  (stale_version_update_fails specEnv someContext aliceStore staleSignedRequest
    (rotateAlice "v0") _ rfl rfl rfl (by decide)).trans rfl

theorem CreateDid_fails_or_writes (env : Env) (ctx : Context) (store : Store)
    (msg : MsgWriteRequest) :
    (CreateDid env ctx store msg).2 = store ∨ ∃ r, (CreateDid env ctx store msg).1 = .ok r := by
  unfold CreateDid
  simp only []
  repeat' split
  all_goals first | exact Or.inl rfl | exact Or.inr ⟨_, rfl⟩

theorem UpdateDid_fails_or_writes (env : Env) (ctx : Context) (store : Store)
    (msg : MsgWriteRequest) :
    (UpdateDid env ctx store msg).2 = store ∨ ∃ r, (UpdateDid env ctx store msg).1 = .ok r := by
  unfold UpdateDid
  simp only []
  repeat' split
  all_goals first | exact Or.inl rfl | exact Or.inr ⟨_, rfl⟩

/-- C2: when CreateDid or UpdateDid returns an error, the store after the call is the
store before the call: no document and no metadata has been written. -/
theorem failed_request_leaves_store (env : Env) (ctx : Context) (store : Store)
    (msg : MsgWriteRequest) :
    (∀ err, (CreateDid env ctx store msg).1 = .error err →
      (CreateDid env ctx store msg).2 = store) ∧
    (∀ err, (UpdateDid env ctx store msg).1 = .error err →
      (UpdateDid env ctx store msg).2 = store) := by
  constructor
  · intro err h
    rcases CreateDid_fails_or_writes env ctx store msg with hs | ⟨r, hr⟩
    · exact hs
    · rw [hr] at h
      cases h
  · intro err h
    rcases UpdateDid_fails_or_writes env ctx store msg with hs | ⟨r, hr⟩
    · exact hs
    · rw [hr] at h
      cases h

/-- The witness of C2: a create request for an id the store holds fails with the
"DID Doc exists" error, an update of a document the store does not hold fails with the
key-not-found error, and both leave the store as it was. -/
theorem failed_request_leaves_store_witness :
    ((CreateDid specEnv someContext aliceStore duplicateCreateRequest).1 =
        .error { kind := .DidDocExists, description := "did:cheqd:test:alice" } ∧
      (CreateDid specEnv someContext aliceStore duplicateCreateRequest).2 = aliceStore) ∧
    ((UpdateDid specEnv someContext aliceStore missingDocRequest).1 =
        .error (keyNotFound "did:cheqd:test:bob") ∧
      (UpdateDid specEnv someContext aliceStore missingDocRequest).2 = aliceStore) :=
  ⟨⟨rfl, (failed_request_leaves_store specEnv someContext aliceStore
      duplicateCreateRequest).1 _ rfl⟩,
    ⟨rfl, (failed_request_leaves_store specEnv someContext aliceStore
      missingDocRequest).2 _ rfl⟩⟩

/-! ## The entries of the required-signer list -/

theorem AppendSignerIfNeed_entry (signers : List Signer) (controller : String)
    (msg : MsgUpdateDid) :
    (controller ∈ principals signers ∧ AppendSignerIfNeed signers controller msg = signers) ∨
    (controller ∉ principals signers ∧
      AppendSignerIfNeed signers controller msg = signers ++ [signerEntry controller msg]) :=
  AppendSignerIfNeed_cases signers controller msg

theorem signerEntry_principal (controller : String) (msg : MsgUpdateDid) :
    (signerEntry controller msg).Signer = controller := by
  unfold signerEntry
  split_ifs with h
  · exact h.symm
  · rfl

theorem verificationMethodStep_eq_foldl (newDIDDoc : MsgUpdateDid) (signers : List Signer)
    (oldVM : VerificationMethod) :
    verificationMethodStep newDIDDoc signers oldVM =
      (demandedControllers newDIDDoc oldVM).foldl
        (fun acc c => AppendSignerIfNeed acc c newDIDDoc) signers := by
  unfold verificationMethodStep demandedControllers
  cases FindVerificationMethod newDIDDoc.VerificationMethod oldVM.Id with
  | none => rfl
  | some newVM =>
    simp only
    split_ifs <;> rfl

/-- The entries after a run of AppendSignerIfNeed over the controllers `cs`: the entries
before it and, for every controller of `cs` that was no principal before, its entry. -/
theorem mem_foldl_AppendSignerIfNeed (msg : MsgUpdateDid) (cs : List String)
    (base : List Signer) (s : Signer) :
    s ∈ cs.foldl (fun acc c => AppendSignerIfNeed acc c msg) base ↔
      s ∈ base ∨ ∃ c ∈ cs, c ∉ principals base ∧ s = signerEntry c msg := by
  induction cs generalizing base with
  | nil => simp
  | cons c rest ih =>
    simp only [List.foldl_cons]
    rw [ih]
    rcases AppendSignerIfNeed_entry base c msg with ⟨hin, he⟩ | ⟨hnot, he⟩
    · rw [he]
      constructor
      · rintro (h | ⟨c2, hc2, hn, hs⟩)
        · exact Or.inl h
        · exact Or.inr ⟨c2, List.mem_cons_of_mem _ hc2, hn, hs⟩
      · rintro (h | ⟨c2, hc2, hn, hs⟩)
        · exact Or.inl h
        · rcases List.mem_cons.mp hc2 with h2 | h2
          · exact absurd (h2 ▸ hin) hn
          · exact Or.inr ⟨c2, h2, hn, hs⟩
    · rw [he]
      have hp : ∀ x, x ∈ principals (base ++ [signerEntry c msg]) ↔
          x ∈ principals base ∨ x = c := by
        intro x
        simp [principals, signerEntry_principal]
      constructor
      · rintro (h | ⟨c2, hc2, hn, hs⟩)
        · rcases List.mem_append.mp h with h1 | h1
          · exact Or.inl h1
          · rw [List.mem_singleton] at h1
            exact Or.inr ⟨c, List.mem_cons_self _ _, hnot, h1⟩
        · rw [hp] at hn
          exact Or.inr ⟨c2, List.mem_cons_of_mem _ hc2, fun h => hn (Or.inl h), hs⟩
      · rintro (h | ⟨c2, hc2, hn, hs⟩)
        · exact Or.inl (List.mem_append_left _ h)
        · by_cases hcc : c2 = c
          · subst hcc
            exact Or.inl (List.mem_append_right _ (by rw [hs]; exact List.mem_singleton_self _))
          · rcases List.mem_cons.mp hc2 with h2 | h2
            · exact absurd h2 hcc
            · refine Or.inr ⟨c2, h2, ?_, hs⟩
              rw [hp]
              rintro (h3 | h3)
              · exact hn h3
              · exact hcc h3

theorem mem_principals_foldl_AppendSignerIfNeed (msg : MsgUpdateDid) (cs : List String)
    (base : List Signer) (p : String) :
    p ∈ principals (cs.foldl (fun acc c => AppendSignerIfNeed acc c msg) base) ↔
      p ∈ principals base ∨ p ∈ cs := by
  rw [mem_principals_iff]
  constructor
  · rintro ⟨s, hs, rfl⟩
    rcases (mem_foldl_AppendSignerIfNeed msg cs base s).mp hs with h | ⟨c, hc, _, he⟩
    · exact Or.inl ((mem_principals_iff _ _).mpr ⟨s, h, rfl⟩)
    · rw [he, signerEntry_principal]
      exact Or.inr hc
  · rintro (h | h)
    · obtain ⟨s, hs, hp⟩ := (mem_principals_iff _ _).mp h
      exact ⟨s, (mem_foldl_AppendSignerIfNeed msg cs base s).mpr (Or.inl hs), hp⟩
    · by_cases hb : p ∈ principals base
      · obtain ⟨s, hs, hp⟩ := (mem_principals_iff _ _).mp hb
        exact ⟨s, (mem_foldl_AppendSignerIfNeed msg cs base s).mpr (Or.inl hs), hp⟩
      · exact ⟨signerEntry p msg,
          (mem_foldl_AppendSignerIfNeed msg cs base _).mpr (Or.inr ⟨p, h, hb, rfl⟩),
          signerEntry_principal p msg⟩

/-- The entries after the whole verification-method loop: the entries before it and, for
every controller demanded by an iteration that was no principal before the loop, its
entry. -/
theorem mem_foldl_verificationMethodStep (newDIDDoc : MsgUpdateDid)
    (vms : List VerificationMethod) (base : List Signer) (s : Signer) :
    s ∈ vms.foldl (verificationMethodStep newDIDDoc) base ↔
      s ∈ base ∨ ∃ vm ∈ vms, ∃ c ∈ demandedControllers newDIDDoc vm,
        c ∉ principals base ∧ s = signerEntry c newDIDDoc := by
  induction vms generalizing base with
  | nil => simp
  | cons vm rest ih =>
    simp only [List.foldl_cons]
    rw [ih, verificationMethodStep_eq_foldl, mem_foldl_AppendSignerIfNeed]
    constructor
    · rintro ((h | ⟨c, hc, hn, hs⟩) | ⟨vm2, hvm2, c, hc, hn, hs⟩)
      · exact Or.inl h
      · exact Or.inr ⟨vm, List.mem_cons_self _ _, c, hc, hn, hs⟩
      · rw [mem_principals_foldl_AppendSignerIfNeed] at hn
        exact Or.inr ⟨vm2, List.mem_cons_of_mem _ hvm2, c, hc, fun h => hn (Or.inl h), hs⟩
    · rintro (h | ⟨vm2, hvm2, c, hc, hn, hs⟩)
      · exact Or.inl (Or.inl h)
      · rcases List.mem_cons.mp hvm2 with h2 | h2
        · subst h2
          exact Or.inl (Or.inr ⟨c, hc, hn, hs⟩)
        · by_cases hcc : c ∈ demandedControllers newDIDDoc vm
          · exact Or.inl (Or.inr ⟨c, hcc, hn, hs⟩)
          · refine Or.inr ⟨vm2, h2, c, hc, ?_, hs⟩
            rw [mem_principals_foldl_AppendSignerIfNeed]
            rintro (h3 | h3)
            · exact hn h3
            · exact hcc h3

/-- The entries of the required-signer list: the seed, a bare entry for every removed
controller, and the entry of every controller demanded by the verification-method loop
that is neither a principal of the seed nor a removed controller. -/
theorem mem_requiredSigners (seed : List Signer) (oldDIDDoc : Did) (newDIDDoc : MsgUpdateDid)
    (s : Signer) :
    s ∈ requiredSigners seed oldDIDDoc newDIDDoc ↔
      s ∈ seed ∨
      (∃ c ∈ Complement (expandController oldDIDDoc.Controller oldDIDDoc.Id)
          (expandController newDIDDoc.Controller newDIDDoc.Id), s = bareSigner c) ∨
      (∃ vm ∈ oldDIDDoc.VerificationMethod, ∃ c ∈ demandedControllers newDIDDoc vm,
        c ∉ principals seed ∧
        c ∉ Complement (expandController oldDIDDoc.Controller oldDIDDoc.Id)
          (expandController newDIDDoc.Controller newDIDDoc.Id) ∧
        s = signerEntry c newDIDDoc) := by
  simp only [requiredSigners, appendRemovedControllers_eq, mem_foldl_verificationMethodStep,
    List.mem_append, List.mem_map, principals_append, principals_map_bareSigner, not_or]
  constructor
  · rintro ((h | ⟨c, hc, rfl⟩) | ⟨vm, hvm, c, hc, ⟨hn1, hn2⟩, hs⟩)
    · exact Or.inl h
    · exact Or.inr (Or.inl ⟨c, hc, rfl⟩)
    · exact Or.inr (Or.inr ⟨vm, hvm, c, hc, hn1, hn2, hs⟩)
  · rintro (h | ⟨c, hc, rfl⟩ | ⟨vm, hvm, c, hc, hn1, hn2, hs⟩)
    · exact Or.inl (Or.inl h)
    · exact Or.inl (Or.inr ⟨c, hc, rfl⟩)
    · exact Or.inr ⟨vm, hvm, c, hc, ⟨hn1, hn2⟩, hs⟩

theorem mem_expandController_iff (old new : List String) (id c : String)
    (h : ∀ x, x ∈ old ↔ x ∈ new) :
    c ∈ expandController old id ↔ c ∈ expandController new id :=
  ⟨mem_expandController_congr old new id c h,
    mem_expandController_congr new old id c (fun x => (h x).symm)⟩

/-- C11: with a fixed seed the required-signer list is the same whether an empty
controller list of the old document is written as empty or as the list of its own id, and
the same for the new document; an old document with empty controller list updated to a
controller list without its id has its own id among the removed controllers, and the list
requires it with a bare entry. -/
theorem default_controller_expansion (seed : List Signer) (oldDIDDoc : Did)
    (newDIDDoc : MsgUpdateDid) :
    requiredSigners seed { oldDIDDoc with Controller := [] } newDIDDoc =
      requiredSigners seed { oldDIDDoc with Controller := [oldDIDDoc.Id] } newDIDDoc ∧
    requiredSigners seed oldDIDDoc { newDIDDoc with Controller := [] } =
      requiredSigners seed oldDIDDoc { newDIDDoc with Controller := [newDIDDoc.Id] } ∧
    (oldDIDDoc.Controller = [] → newDIDDoc.Controller ≠ [] →
      oldDIDDoc.Id ∉ newDIDDoc.Controller →
      oldDIDDoc.Id ∈ Complement (expandController oldDIDDoc.Controller oldDIDDoc.Id)
          (expandController newDIDDoc.Controller newDIDDoc.Id) ∧
        bareSigner oldDIDDoc.Id ∈ requiredSigners seed oldDIDDoc newDIDDoc) := by
  refine ⟨rfl, rfl, ?_⟩
  intro hold hnew hnot
  have hmem : oldDIDDoc.Id ∈ Complement (expandController oldDIDDoc.Controller oldDIDDoc.Id)
      (expandController newDIDDoc.Controller newDIDDoc.Id) := by
    rw [mem_Complement, hold]
    refine ⟨by simp [expandController], ?_⟩
    unfold expandController
    cases hc : newDIDDoc.Controller with
    | nil => exact absurd hc hnew
    | cons x xs =>
      rw [hc] at hnot
      simpa using hnot
  exact ⟨hmem, (mem_requiredSigners seed oldDIDDoc newDIDDoc _).mpr
    (Or.inr (Or.inl ⟨_, hmem, rfl⟩))⟩

/-- The witness of C11: Alice's document has no controller list and is handed over to Bob;
Alice is a removed controller and is required with a bare entry. -/
theorem default_controller_expansion_witness :
    "did:cheqd:test:alice" ∈
        Complement (expandController aliceDoc.Controller aliceDoc.Id)
          (expandController handOverToBob.Controller handOverToBob.Id) ∧
      bareSigner "did:cheqd:test:alice" ∈
        requiredSigners handOverToBob.GetSigners aliceDoc handOverToBob :=
  (default_controller_expansion handOverToBob.GetSigners aliceDoc handOverToBob).2.2
    rfl (by decide) (by decide)

/-- C12: two old documents with the same id whose verification methods are the same up to
order and whose controller entries are the same up to order give required-signer lists
with the same entries (principal together with its verificationMethod and authentication
lists), for every seed and new document. -/
theorem signer_entries_order_independent (seed : List Signer) (old1 old2 : Did)
    (newDIDDoc : MsgUpdateDid) (hid : old1.Id = old2.Id)
    (hmethods : old1.VerificationMethod.Perm old2.VerificationMethod)
    (hcontrollers : old1.Controller.Perm old2.Controller) :
    ∀ s, s ∈ requiredSigners seed old1 newDIDDoc ↔ s ∈ requiredSigners seed old2 newDIDDoc := by
  intro s
  have hexp : ∀ c, c ∈ expandController old1.Controller old1.Id ↔
      c ∈ expandController old2.Controller old2.Id := by
    intro c
    rw [hid]
    exact mem_expandController_iff _ _ _ _ (fun x => hcontrollers.mem_iff)
  simp only [mem_requiredSigners, mem_Complement, hexp, hmethods.mem_iff]

/-- The witness of C12: Alice's document with two controllers and two keys, and the same
document with both lists in the other order, updated to Charlie as only controller; the
two lists differ in order and both hold the bare entry of Bob. -/
theorem signer_entries_order_independent_witness :
    (bareSigner "did:cheqd:test:bob" ∈
        requiredSigners toCharlie.GetSigners aliceTwoKeys toCharlie ↔
      bareSigner "did:cheqd:test:bob" ∈
        requiredSigners toCharlie.GetSigners aliceTwoKeysSwapped toCharlie) ∧
    requiredSigners toCharlie.GetSigners aliceTwoKeys toCharlie ≠
      requiredSigners toCharlie.GetSigners aliceTwoKeysSwapped toCharlie :=
  ⟨signer_entries_order_independent toCharlie.GetSigners aliceTwoKeys aliceTwoKeysSwapped
      toCharlie rfl (List.Perm.swap _ _ _) (List.Perm.swap _ _ _)
      (bareSigner "did:cheqd:test:bob"),
    by decide⟩

/-! ## Lemmas on the store and on the two handlers -/

theorem lookup_filter_ne (store : Store) (key id : String) (h : id ≠ key) :
    List.lookup id (store.filter (fun entry => entry.1 != key)) = List.lookup id store := by
  induction store with
  | nil => rfl
  | cons entry rest ih =>
    obtain ⟨k, v⟩ := entry
    by_cases hk : k = key
    · subst hk
      have h1 : (id == k) = false := by simpa using h
      simp [List.filter_cons, List.lookup_cons, h1, ih]
    · have h2 : (k != key) = true := by simpa using hk
      simp only [List.filter_cons, h2, if_true, List.lookup_cons, ih]

theorem lookup_SetDid_self (store : Store) (did : Did) (metadata : Metadata)
    (timestamp txHash : String) :
    List.lookup did.Id (store.SetDid did metadata timestamp txHash) =
      some { Did := did, Metadata := metadata, Timestamp := timestamp, TxHash := txHash } := by
  simp [Store.SetDid, List.lookup_cons]

theorem lookup_SetDid_other (store : Store) (did : Did) (metadata : Metadata)
    (timestamp txHash id : String) (h : id ≠ did.Id) :
    List.lookup id (store.SetDid did metadata timestamp txHash) = List.lookup id store := by
  have h1 : (id == did.Id) = false := by simpa using h
  simp only [Store.SetDid, List.lookup_cons, h1]
  exact lookup_filter_ne store did.Id id h

theorem GetDid_eq_ok_iff (store : Store) (id : String) (value : StateValue) :
    store.GetDid id = .ok value ↔ List.lookup id store = some value := by
  unfold Store.GetDid
  cases List.lookup id store <;> simp

theorem HasDidDoc_eq_none_iff (store : Store) (id : String) :
    store.HasDidDoc id = none ↔ List.lookup id store = none := by
  unfold Store.HasDidDoc Store.HasDid
  cases List.lookup id store <;> simp

/-- The success path of CreateDid (lines 38-66). -/
theorem CreateDid_success (env : Env) (ctx : Context) (store : Store) (msg : MsgWriteRequest)
    (didMsg : MsgCreateDid) (hmsg : msg.Data = .CreateDid didMsg)
    (hvalid : env.ValidateBasicCreate didMsg (env.DidPrefix ++ ctx.ChainID ++ ":") = none)
    (hverify : env.VerifySignature ctx store msg (env.GetSignersCreate didMsg) = none)
    (hexists : store.HasDidDoc didMsg.Id = none) :
    CreateDid env ctx store msg =
      (.ok { Id := didMsg.Id },
        store.AppendDid didMsg.toDid
          { Created := ctx.BlockTime, Updated := ctx.BlockTime, Deactivated := false,
            VersionId := GetTxHash env ctx.TxBytes }
          ctx.BlockTime (GetTxHash env ctx.TxBytes)) := by
  unfold CreateDid
  simp only [hmsg, hvalid, hverify, hexists]
  rfl

/-- A response of CreateDid means that every check has passed. -/
theorem CreateDid_ok_inv (env : Env) (ctx : Context) (store : Store) (msg : MsgWriteRequest)
    (r : MsgCreateDidResponse) (h : (CreateDid env ctx store msg).1 = .ok r) :
    ∃ didMsg, msg.Data = .CreateDid didMsg ∧
      env.ValidateBasicCreate didMsg (env.DidPrefix ++ ctx.ChainID ++ ":") = none ∧
      env.VerifySignature ctx store msg (env.GetSignersCreate didMsg) = none ∧
      store.HasDidDoc didMsg.Id = none := by
  unfold CreateDid at h
  cases hd : msg.Data with
  | CreateDid didMsg =>
    rw [hd] at h
    simp only at h
    cases hv : env.ValidateBasicCreate didMsg (env.DidPrefix ++ ctx.ChainID ++ ":") with
    | some err => rw [hv] at h; cases h
    | none =>
      rw [hv] at h
      simp only at h
      cases hs : env.VerifySignature ctx store msg (env.GetSignersCreate didMsg) with
      | some err => rw [hs] at h; cases h
      | none =>
        rw [hs] at h
        simp only at h
        cases he : store.HasDidDoc didMsg.Id with
        | some err => rw [he] at h; cases h
        | none => exact ⟨didMsg, rfl, hv, hs, he⟩
  | UpdateDid didMsg => rw [hd] at h; cases h
  | Other typeUrl => rw [hd] at h; cases h

/-- The success path of UpdateDid (lines 101-129). -/
theorem UpdateDid_success (env : Env) (ctx : Context) (store : Store) (msg : MsgWriteRequest)
    (didMsg : MsgUpdateDid) (stored : StateValue) (hmsg : msg.Data = .UpdateDid didMsg)
    (hvalid : env.ValidateBasicUpdate didMsg (env.DidPrefix ++ ctx.ChainID ++ ":") = none)
    (hstored : List.lookup didMsg.Id store = some stored)
    (hverify : UpdateDidVerifySignature env ctx store msg stored.Did didMsg = none)
    (hversion : stored.Metadata.VersionId = didMsg.VersionId) :
    UpdateDid env ctx store msg =
      (.ok { Id := didMsg.Id },
        store.SetDid didMsg.toDid
          { Created := stored.Metadata.Created, Updated := ctx.BlockTime,
            Deactivated := stored.Metadata.Deactivated,
            VersionId := GetTxHash env ctx.TxBytes }
          ctx.BlockTime (GetTxHash env ctx.TxBytes)) := by
  unfold UpdateDid
  simp only [hmsg, hvalid, Store.HasDid, Store.GetDid, hstored, Option.isSome_some,
    Bool.not_true, Bool.false_eq_true, if_false, hverify, hversion, bne_self_eq_false]
  rfl

/-- A response of UpdateDid means that every check has passed. -/
theorem UpdateDid_ok_inv (env : Env) (ctx : Context) (store : Store) (msg : MsgWriteRequest)
    (r : MsgUpdateDidResponse) (h : (UpdateDid env ctx store msg).1 = .ok r) :
    ∃ didMsg stored, msg.Data = .UpdateDid didMsg ∧
      env.ValidateBasicUpdate didMsg (env.DidPrefix ++ ctx.ChainID ++ ":") = none ∧
      List.lookup didMsg.Id store = some stored ∧
      UpdateDidVerifySignature env ctx store msg stored.Did didMsg = none ∧
      stored.Metadata.VersionId = didMsg.VersionId := by
  unfold UpdateDid at h
  cases hd : msg.Data with
  | UpdateDid didMsg =>
    rw [hd] at h
    simp only at h
    cases hv : env.ValidateBasicUpdate didMsg (env.DidPrefix ++ ctx.ChainID ++ ":") with
    | some err => rw [hv] at h; cases h
    | none =>
      rw [hv] at h
      simp only [Store.HasDid, Store.GetDid] at h
      cases hl : List.lookup didMsg.Id store with
      | none => rw [hl] at h; simp at h
      | some stored =>
        rw [hl] at h
        simp only [Option.isSome_some, Bool.not_true, Bool.false_eq_true, if_false] at h
        cases hs : UpdateDidVerifySignature env ctx store msg stored.Did didMsg with
        | some err => rw [hs] at h; cases h
        | none =>
          rw [hs] at h
          simp only at h
          by_cases hver : stored.Metadata.VersionId = didMsg.VersionId
          · exact ⟨didMsg, stored, rfl, hv, hl, hs, hver⟩
          · have hb : (stored.Metadata.VersionId != didMsg.VersionId) = true := by
              simpa using hver
            rw [if_pos hb] at h
            cases h
  | CreateDid didMsg => rw [hd] at h; cases h
  | Other typeUrl => rw [hd] at h; cases h

/-! ## Claims on CreateDid and UpdateDid -/

/-- C13: a create request that passes basic validation, signature verification and the
existence check gets a response with the request's id, and the document handed to the
store, read back under that id, has id, controller, verificationMethod, authentication,
assertionMethod, capabilityInvocation, capabilityDelegation, keyAgreement, alsoKnownAs,
service and context equal to the request's fields. -/
theorem create_stores_request (env : Env) (ctx : Context) (store : Store)
    (msg : MsgWriteRequest) (didMsg : MsgCreateDid) (hmsg : msg.Data = .CreateDid didMsg)
    (hvalid : env.ValidateBasicCreate didMsg (env.DidPrefix ++ ctx.ChainID ++ ":") = none)
    (hverify : env.VerifySignature ctx store msg (env.GetSignersCreate didMsg) = none)
    (hexists : store.HasDidDoc didMsg.Id = none) :
    (CreateDid env ctx store msg).1 = .ok { Id := didMsg.Id } ∧
    ∃ value, (CreateDid env ctx store msg).2.GetDid didMsg.Id = .ok value ∧
      value.Did.Id = didMsg.Id ∧ value.Did.Controller = didMsg.Controller ∧
      value.Did.VerificationMethod = didMsg.VerificationMethod ∧
      value.Did.Authentication = didMsg.Authentication ∧
      value.Did.AssertionMethod = didMsg.AssertionMethod ∧
      value.Did.CapabilityInvocation = didMsg.CapabilityInvocation ∧
      value.Did.CapabilityDelegation = didMsg.CapabilityDelegation ∧
      value.Did.KeyAgreement = didMsg.KeyAgreement ∧
      value.Did.AlsoKnownAs = didMsg.AlsoKnownAs ∧
      value.Did.Service = didMsg.Service ∧
      value.Did.Context = didMsg.Context := by
  rw [CreateDid_success env ctx store msg didMsg hmsg hvalid hverify hexists]
  refine ⟨rfl, _, (GetDid_eq_ok_iff _ _ _).mpr (lookup_SetDid_self store didMsg.toDid _ _ _), ?_⟩
  exact ⟨rfl, rfl, rfl, rfl, rfl, rfl, rfl, rfl, rfl, rfl, rfl⟩

/-- The witness of C13: Alice's document is created in an empty store. -/
theorem create_stores_request_witness :
    (CreateDid specEnv someContext [] createAliceRequest).1 =
      .ok { Id := "did:cheqd:test:alice" } ∧
    ∃ value, (CreateDid specEnv someContext [] createAliceRequest).2.GetDid createAlice.Id =
        .ok value ∧
      value.Did.Id = createAlice.Id ∧ value.Did.Controller = createAlice.Controller ∧
      value.Did.VerificationMethod = createAlice.VerificationMethod ∧
      value.Did.Authentication = createAlice.Authentication ∧
      value.Did.AssertionMethod = createAlice.AssertionMethod ∧
      value.Did.CapabilityInvocation = createAlice.CapabilityInvocation ∧
      value.Did.CapabilityDelegation = createAlice.CapabilityDelegation ∧
      value.Did.KeyAgreement = createAlice.KeyAgreement ∧
      value.Did.AlsoKnownAs = createAlice.AlsoKnownAs ∧
      value.Did.Service = createAlice.Service ∧
      value.Did.Context = createAlice.Context :=
  create_stores_request specEnv someContext [] createAliceRequest createAlice rfl rfl rfl rfl

/-- C14, the claim as stated fails: Alice's id is registered, the create request for it
carries no signature, and CreateDid returns the error of the signature verification, not
the "DID Doc exists" error. -/
theorem duplicate_create_reports_signature_error :
    List.lookup "did:cheqd:test:alice" aliceStore ≠ none ∧
    CreateDid specEnv someContext aliceStore unsignedCreateRequest =
      (.error { kind := .SignatureNotFound, description := "signer: did:cheqd:test:alice" },
        aliceStore) := by
  refine ⟨by decide, ?_⟩
  rfl

/-- C14, amended: a create request whose id is registered in the store fails and leaves
the stored document and metadata of that id as they were; the basic validation and the
signature verification run before the existence check, and when both pass the error is
the "DID Doc exists" error naming the id. -/
theorem duplicate_create_fails (env : Env) (ctx : Context) (store : Store)
    (msg : MsgWriteRequest) (didMsg : MsgCreateDid) (stored : StateValue)
    (hmsg : msg.Data = .CreateDid didMsg)
    (hstored : List.lookup didMsg.Id store = some stored) :
    (∃ err, CreateDid env ctx store msg = (.error err, store)) ∧
    List.lookup didMsg.Id (CreateDid env ctx store msg).2 = some stored ∧
    (env.ValidateBasicCreate didMsg (env.DidPrefix ++ ctx.ChainID ++ ":") = none →
      env.VerifySignature ctx store msg (env.GetSignersCreate didMsg) = none →
      CreateDid env ctx store msg =
        (.error { kind := .DidDocExists, description := didMsg.Id }, store) ∧
      Error.message { kind := .DidDocExists, description := didMsg.Id } =
        didMsg.Id ++ ": DID Doc exists") := by
  have hdup : store.HasDidDoc didMsg.Id =
      some { kind := .DidDocExists, description := didMsg.Id } := by
    simp [Store.HasDidDoc, Store.HasDid, hstored]
  have hfail : ∃ err, CreateDid env ctx store msg = (.error err, store) := by
    unfold CreateDid
    simp only [hmsg, hdup]
    cases env.ValidateBasicCreate didMsg (env.DidPrefix ++ ctx.ChainID ++ ":") with
    | some err => exact ⟨err, rfl⟩
    | none =>
      cases env.VerifySignature ctx store msg (env.GetSignersCreate didMsg) with
      | some err => exact ⟨err, rfl⟩
      | none => exact ⟨_, rfl⟩
  refine ⟨hfail, ?_, ?_⟩
  · obtain ⟨err, he⟩ := hfail
    rw [he]
    exact hstored
  · intro hvalid hverify
    refine ⟨?_, ?_⟩
    · unfold CreateDid
      simp only [hmsg, hvalid, hverify, hdup]
    · show didMsg.Id ++ ": " ++ "DID Doc exists" = didMsg.Id ++ ": DID Doc exists"
      rw [String.append_assoc]
      rfl

/-- The witness of C14 amended: the signed create request for Alice's registered id fails
with the "DID Doc exists" error. -/
theorem duplicate_create_fails_witness :
    CreateDid specEnv someContext aliceStore createAliceRequest =
        (.error { kind := .DidDocExists, description := "did:cheqd:test:alice" },
          aliceStore) ∧
    Error.message { kind := .DidDocExists, description := "did:cheqd:test:alice" } =
      "did:cheqd:test:alice: DID Doc exists" :=
  (duplicate_create_fails specEnv someContext aliceStore createAliceRequest createAlice _
    rfl rfl).2.2 rfl rfl

/-- C15: an update request that passes basic validation and whose id the store does not
hold fails with the key-not-found error that names the id and leaves the store as it was;
the result is the same for every GetSigners and every VerifySignature, none of which is
consulted. -/
theorem update_of_missing_document (env : Env) (ctx : Context) (store : Store)
    (msg : MsgWriteRequest) (didMsg : MsgUpdateDid) (hmsg : msg.Data = .UpdateDid didMsg)
    (hvalid : env.ValidateBasicUpdate didMsg (env.DidPrefix ++ ctx.ChainID ++ ":") = none)
    (hmissing : List.lookup didMsg.Id store = none) :
    UpdateDid env ctx store msg =
      (.error { kind := .KeyNotFound,
                description := "key " ++ didMsg.Id ++ " doesn't exist" }, store) ∧
    ∀ getSigners verify,
      UpdateDid { env with GetSignersUpdate := getSigners, VerifySignature := verify }
        ctx store msg = UpdateDid env ctx store msg := by
  have key : ∀ e : Env,
      e.ValidateBasicUpdate didMsg (e.DidPrefix ++ ctx.ChainID ++ ":") = none →
      UpdateDid e ctx store msg = (.error (keyNotFound didMsg.Id), store) := by
    intro e he
    unfold UpdateDid
    simp [hmsg, he, Store.HasDid, hmissing]
  refine ⟨key env hvalid, ?_⟩
  intro getSigners verify
  rw [key env hvalid]
  exact key _ hvalid

/-- The witness of C15: the update of Bob's document, which the store does not hold. -/
theorem update_of_missing_document_witness :
    UpdateDid specEnv someContext aliceStore missingDocRequest =
      (.error { kind := .KeyNotFound,
                description := "key did:cheqd:test:bob doesn't exist" }, aliceStore) :=
  (update_of_missing_document specEnv someContext aliceStore missingDocRequest
    (emptyUpdate "did:cheqd:test:bob" "v1") rfl rfl rfl).1

/-- What a call of CreateDid does: it fails and leaves the store, or every check has passed
for an id the store does not hold and the document is written with the creation
metadata. -/
theorem CreateDid_cases (env : Env) (ctx : Context) (store : Store) (msg : MsgWriteRequest) :
    (∃ err, CreateDid env ctx store msg = (.error err, store)) ∨
    (∃ didMsg, msg.Data = .CreateDid didMsg ∧ List.lookup didMsg.Id store = none ∧
      CreateDid env ctx store msg =
        (.ok { Id := didMsg.Id },
          store.SetDid didMsg.toDid
            { Created := ctx.BlockTime, Updated := ctx.BlockTime, Deactivated := false,
              VersionId := GetTxHash env ctx.TxBytes }
            ctx.BlockTime (GetTxHash env ctx.TxBytes))) := by
  cases h : (CreateDid env ctx store msg).1 with
  | error err =>
    left
    refine ⟨err, ?_⟩
    rcases CreateDid_fails_or_writes env ctx store msg with hs | ⟨r, hr⟩
    · exact Prod.ext h hs
    · rw [hr] at h
      cases h
  | ok r =>
    right
    obtain ⟨didMsg, hmsg, hvalid, hverify, hexists⟩ := CreateDid_ok_inv env ctx store msg r h
    exact ⟨didMsg, hmsg, (HasDidDoc_eq_none_iff _ _).mp hexists,
      CreateDid_success env ctx store msg didMsg hmsg hvalid hverify hexists⟩

/-- What a call of UpdateDid does: it fails and leaves the store, or every check has passed
for a stored document with the asserted version and the document is replaced, with
metadata that keeps created and deactivated. -/
theorem UpdateDid_cases (env : Env) (ctx : Context) (store : Store) (msg : MsgWriteRequest) :
    (∃ err, UpdateDid env ctx store msg = (.error err, store)) ∨
    (∃ didMsg stored, msg.Data = .UpdateDid didMsg ∧
      List.lookup didMsg.Id store = some stored ∧
      UpdateDidVerifySignature env ctx store msg stored.Did didMsg = none ∧
      stored.Metadata.VersionId = didMsg.VersionId ∧
      UpdateDid env ctx store msg =
        (.ok { Id := didMsg.Id },
          store.SetDid didMsg.toDid
            { Created := stored.Metadata.Created, Updated := ctx.BlockTime,
              Deactivated := stored.Metadata.Deactivated,
              VersionId := GetTxHash env ctx.TxBytes }
            ctx.BlockTime (GetTxHash env ctx.TxBytes))) := by
  cases h : (UpdateDid env ctx store msg).1 with
  | error err =>
    left
    refine ⟨err, ?_⟩
    rcases UpdateDid_fails_or_writes env ctx store msg with hs | ⟨r, hr⟩
    · exact Prod.ext h hs
    · rw [hr] at h
      cases h
  | ok r =>
    right
    obtain ⟨didMsg, stored, hmsg, hvalid, hstored, hverify, hversion⟩ :=
      UpdateDid_ok_inv env ctx store msg r h
    exact ⟨didMsg, stored, hmsg, hstored, hverify, hversion,
      UpdateDid_success env ctx store msg didMsg stored hmsg hvalid hstored hverify hversion⟩

/-- C16, the claim as stated fails: Alice's stored document has deactivated = true, the
rotation request asserts the stored version and is signed with the new key, and UpdateDid
succeeds and replaces the document; the metadata written keeps deactivated = true. -/
theorem deactivated_document_is_updated :
    (List.lookup "did:cheqd:test:alice" deactivatedStore).map
        (fun value => (value.Metadata.Deactivated, value.Metadata.VersionId)) =
      some (true, "v1") ∧
    (UpdateDid specEnv someContext deactivatedStore (rotateSignedRequest "v1")).1 =
      .ok { Id := "did:cheqd:test:alice" } ∧
    (List.lookup "did:cheqd:test:alice"
        (UpdateDid specEnv someContext deactivatedStore (rotateSignedRequest "v1")).2).map
        (fun value => (value.Did.VerificationMethod, value.Metadata.Deactivated)) =
      some ((rotateAlice "v1").VerificationMethod, true) := by
  refine ⟨by decide, ?_, ?_⟩
  · rfl
  · rfl

/-- C16, amended: UpdateDid does not test the deactivated flag.  An update of a stored
document with deactivated = true that passes basic validation, whose signatures verify and
whose asserted versionId is the stored one succeeds: the document is replaced and the
metadata written keeps created and deactivated = true. -/
theorem update_ignores_deactivated (env : Env) (ctx : Context) (store : Store)
    (msg : MsgWriteRequest) (didMsg : MsgUpdateDid) (stored : StateValue)
    (hmsg : msg.Data = .UpdateDid didMsg)
    (hvalid : env.ValidateBasicUpdate didMsg (env.DidPrefix ++ ctx.ChainID ++ ":") = none)
    (hstored : List.lookup didMsg.Id store = some stored)
    (hdeactivated : stored.Metadata.Deactivated = true)
    (hverify : UpdateDidVerifySignature env ctx store msg stored.Did didMsg = none)
    (hversion : stored.Metadata.VersionId = didMsg.VersionId) :
    UpdateDid env ctx store msg =
      (.ok { Id := didMsg.Id },
        store.SetDid didMsg.toDid
          { Created := stored.Metadata.Created, Updated := ctx.BlockTime,
            Deactivated := true, VersionId := GetTxHash env ctx.TxBytes }
          ctx.BlockTime (GetTxHash env ctx.TxBytes)) := by
  rw [UpdateDid_success env ctx store msg didMsg stored hmsg hvalid hstored hverify hversion,
    hdeactivated]

/-- The witness of C16 amended: the signed rotation of Alice's deactivated document. -/
theorem update_ignores_deactivated_witness :
    UpdateDid specEnv someContext deactivatedStore (rotateSignedRequest "v1") =
      (.ok { Id := "did:cheqd:test:alice" },
        Store.SetDid deactivatedStore (rotateAlice "v1").toDid
          { Created := "t0", Updated := "t1", Deactivated := true, VersionId := "v2" }
          "t1" "v2") :=
  update_ignores_deactivated specEnv someContext deactivatedStore (rotateSignedRequest "v1")
    (rotateAlice "v1") _ rfl rfl rfl rfl rfl rfl

/-- C17: after a successful CreateDid the metadata stored for the document has created and
updated equal to the block time string, deactivated = false and versionId equal to
GetTxHash of the transaction bytes, the base64 encoding of their hash. -/
theorem metadata_at_creation (env : Env) (ctx : Context) (store : Store)
    (msg : MsgWriteRequest) (r : MsgCreateDidResponse)
    (h : (CreateDid env ctx store msg).1 = .ok r) :
    ∃ didMsg value, msg.Data = .CreateDid didMsg ∧ r.Id = didMsg.Id ∧
      (CreateDid env ctx store msg).2.GetDid didMsg.Id = .ok value ∧
      value.Metadata.Created = ctx.BlockTime ∧ value.Metadata.Updated = ctx.BlockTime ∧
      value.Metadata.Deactivated = false ∧
      value.Metadata.VersionId = GetTxHash env ctx.TxBytes ∧
      GetTxHash env ctx.TxBytes = env.Base64Encode (env.TmhashSum ctx.TxBytes) := by
  rcases CreateDid_cases env ctx store msg with ⟨err, he⟩ | ⟨didMsg, hmsg, _, he⟩
  · rw [he] at h
    cases h
  · rw [he] at h ⊢
    refine ⟨didMsg, _, hmsg, ?_,
      (GetDid_eq_ok_iff _ _ _).mpr (lookup_SetDid_self store didMsg.toDid _ _ _), ?_⟩
    · cases h
      rfl
    · exact ⟨rfl, rfl, rfl, rfl, rfl⟩

/-- The witness of C17: the creation of Alice's document in an empty store. -/
theorem metadata_at_creation_witness :
    ∃ didMsg value, createAliceRequest.Data = .CreateDid didMsg ∧
      "did:cheqd:test:alice" = didMsg.Id ∧
      (CreateDid specEnv someContext [] createAliceRequest).2.GetDid didMsg.Id = .ok value ∧
      value.Metadata.Created = "t1" ∧ value.Metadata.Updated = "t1" ∧
      value.Metadata.Deactivated = false ∧
      value.Metadata.VersionId = GetTxHash specEnv someContext.TxBytes ∧
      GetTxHash specEnv someContext.TxBytes =
        specEnv.Base64Encode (specEnv.TmhashSum someContext.TxBytes) :=
  metadata_at_creation specEnv someContext [] createAliceRequest
    { Id := "did:cheqd:test:alice" } rfl

/-! ## Runs of calls: created and versionId -/

theorem Call.apply_keeps_created (env : Env) (store : Store) (call : Call) (id : String)
    (stored : StateValue) (h : List.lookup id store = some stored) :
    ∃ value, List.lookup id (call.apply env store) = some value ∧
      value.Metadata.Created = stored.Metadata.Created := by
  cases call with
  | create ctx msg =>
    simp only [Call.apply]
    rcases CreateDid_cases env ctx store msg with ⟨err, he⟩ | ⟨didMsg, _, hnone, he⟩
    · rw [he]
      exact ⟨stored, h, rfl⟩
    · rw [he]
      have hne : id ≠ didMsg.toDid.Id := by
        intro hid
        have hid2 : id = didMsg.Id := hid
        rw [hid2, hnone] at h
        cases h
      exact ⟨stored, (lookup_SetDid_other store _ _ _ _ id hne).trans h, rfl⟩
  | update ctx msg =>
    simp only [Call.apply]
    rcases UpdateDid_cases env ctx store msg with
      ⟨err, he⟩ | ⟨didMsg, old, _, hold, _, _, he⟩
    · rw [he]
      exact ⟨stored, h, rfl⟩
    · rw [he]
      by_cases hid : id = didMsg.Id
      · subst hid
        rw [h] at hold
        cases hold
        exact ⟨_, lookup_SetDid_self store didMsg.toDid _ _ _, rfl⟩
      · exact ⟨stored, (lookup_SetDid_other store didMsg.toDid _ _ _ id hid).trans h, rfl⟩

theorem runCalls_keeps_created (env : Env) (calls : List Call) :
    ∀ (store : Store) (id : String) (stored : StateValue),
      List.lookup id store = some stored →
      ∃ value, List.lookup id (runCalls env store calls) = some value ∧
        value.Metadata.Created = stored.Metadata.Created := by
  induction calls with
  | nil =>
    intro store id stored h
    exact ⟨stored, h, rfl⟩
  | cons call rest ih =>
    intro store id stored h
    obtain ⟨mid, hmid, hcreated⟩ := Call.apply_keeps_created env store call id stored h
    obtain ⟨value, hvalue, hc⟩ := ih (call.apply env store) id mid hmid
    exact ⟨value, hvalue, hc.trans hcreated⟩

/-- C18: after a successful UpdateDid the metadata stored for the document has created
equal to the created value stored before and updated equal to the block time string; and
over every sequence of calls of CreateDid and UpdateDid a stored document keeps its created
value. -/
theorem created_is_immutable (env : Env) :
    (∀ ctx store msg r, (UpdateDid env ctx store msg).1 = .ok r →
      ∃ didMsg stored value, msg.Data = .UpdateDid didMsg ∧
        List.lookup didMsg.Id store = some stored ∧
        List.lookup didMsg.Id (UpdateDid env ctx store msg).2 = some value ∧
        value.Metadata.Created = stored.Metadata.Created ∧
        value.Metadata.Updated = ctx.BlockTime) ∧
    (∀ store calls id stored, List.lookup id store = some stored →
      ∃ value, List.lookup id (runCalls env store calls) = some value ∧
        value.Metadata.Created = stored.Metadata.Created) := by
  constructor
  · intro ctx store msg r h
    rcases UpdateDid_cases env ctx store msg with
      ⟨err, he⟩ | ⟨didMsg, stored, hmsg, hstored, _, _, he⟩
    · rw [he] at h
      cases h
    · rw [he]
      exact ⟨didMsg, stored, _, hmsg, hstored, lookup_SetDid_self store didMsg.toDid _ _ _,
        rfl, rfl⟩
  · intro store calls id stored h
    exact runCalls_keeps_created env calls store id stored h

/-- The witness of C18: Alice's document, created at "t0", is rotated at "t1"; after two
rotations its created value is still "t0". -/
theorem created_is_immutable_witness :
    (∃ didMsg stored value, (rotateSignedRequest "v1").Data = .UpdateDid didMsg ∧
        List.lookup didMsg.Id aliceStore = some stored ∧
        List.lookup didMsg.Id
          (UpdateDid specEnv someContext aliceStore (rotateSignedRequest "v1")).2 =
          some value ∧
        value.Metadata.Created = stored.Metadata.Created ∧
        value.Metadata.Updated = someContext.BlockTime) ∧
    (∃ value, List.lookup "did:cheqd:test:alice" (runCalls specEnv aliceStore twoRotations) =
        some value ∧ value.Metadata.Created = "t0") :=
  ⟨(created_is_immutable specEnv).1 someContext aliceStore (rotateSignedRequest "v1")
      { Id := "did:cheqd:test:alice" } rfl,
    (created_is_immutable specEnv).2 aliceStore twoRotations "did:cheqd:test:alice" _ rfl⟩

theorem Call.version_after_success (env : Env) (store : Store) (call : Call) (id : String)
    (value : StateValue) (hok : call.succeeds env store = true)
    (hid : call.msg.documentId = id) (hget : (call.apply env store).GetDid id = .ok value) :
    value.Metadata.VersionId = GetTxHash env call.ctx.TxBytes := by
  rw [GetDid_eq_ok_iff] at hget
  cases call with
  | create ctx msg =>
    simp only [Call.apply, Call.succeeds, Call.msg, Call.ctx] at hok hid hget ⊢
    rcases CreateDid_cases env ctx store msg with ⟨err, he⟩ | ⟨didMsg, hmsg, _, he⟩
    · rw [he] at hok
      cases hok
    · rw [he] at hget
      have hdoc : id = didMsg.toDid.Id := by
        rw [← hid]
        simp [MsgWriteRequest.documentId, hmsg, MsgCreateDid.toDid]
      rw [hdoc, lookup_SetDid_self] at hget
      cases hget
      rfl
  | update ctx msg =>
    simp only [Call.apply, Call.succeeds, Call.msg, Call.ctx] at hok hid hget ⊢
    rcases UpdateDid_cases env ctx store msg with
      ⟨err, he⟩ | ⟨didMsg, stored, hmsg, _, _, _, he⟩
    · rw [he] at hok
      cases hok
    · rw [he] at hget
      have hdoc : id = didMsg.toDid.Id := by
        rw [← hid]
        simp [MsgWriteRequest.documentId, hmsg, MsgUpdateDid.toDid]
      rw [hdoc, lookup_SetDid_self] at hget
      cases hget
      rfl

theorem versionHistory_sublist (env : Env) (calls : List Call) :
    ∀ (store : Store) (id : String),
      (versionHistory env store calls id).Sublist
        (calls.map (fun call => GetTxHash env call.ctx.TxBytes)) := by
  induction calls with
  | nil =>
    intro store id
    simp [versionHistory]
  | cons call rest ih =>
    intro store id
    simp only [versionHistory, List.map_cons]
    split_ifs with hc
    · simp only [Bool.and_eq_true, beq_iff_eq] at hc
      cases hg : (call.apply env store).GetDid id with
      | error err => exact List.Sublist.cons _ (ih _ _)
      | ok value =>
        have hv := Call.version_after_success env store call id value hc.1 hc.2 hg
        simp only [List.singleton_append]
        rw [hv]
        exact List.Sublist.cons₂ _ (ih _ _)
    · exact List.Sublist.cons _ (ih _ _)

/-- C19, the claim as stated fails: the creation of Alice's document and a rotation that
asserts the version written by the creation are called with the same transaction bytes;
both succeed, and the rotation writes the versionId that was stored before it. -/
theorem version_id_is_written_twice :
    (List.lookup "did:cheqd:test:alice" (runCalls specEnv [] (sameBytesCalls.take 1))).map
        (fun value => value.Metadata.VersionId) = some "v2" ∧
    (UpdateDid specEnv someContext (runCalls specEnv [] (sameBytesCalls.take 1))
        (rotateSignedRequest "v2")).1 = .ok { Id := "did:cheqd:test:alice" } ∧
    (List.lookup "did:cheqd:test:alice" (runCalls specEnv [] sameBytesCalls)).map
        (fun value => value.Metadata.VersionId) = some "v2" ∧
    versionHistory specEnv [] sameBytesCalls "did:cheqd:test:alice" = ["v2", "v2"] ∧
    ¬ (versionHistory specEnv [] sameBytesCalls "did:cheqd:test:alice").Nodup := by
  have h : versionHistory specEnv [] sameBytesCalls "did:cheqd:test:alice" = ["v2", "v2"] := by
    rfl
  refine ⟨by rfl, by rfl, by rfl, h, ?_⟩
  rw [h]
  decide

/-- C19, amended: the versionId written by a successful UpdateDid is GetTxHash of the
transaction bytes of the call, and the versionId stored before is the asserted one; the
two differ exactly when that hash differs from the asserted versionId, which UpdateDid
does not test.  Over a sequence of calls the versionIds a document takes are hashes of the
transaction bytes of the calls, in call order; no value is used twice when those hashes are
pairwise distinct. -/
theorem version_id_is_hash_of_transaction (env : Env) :
    (∀ ctx store msg r, (UpdateDid env ctx store msg).1 = .ok r →
      ∃ didMsg stored value, msg.Data = .UpdateDid didMsg ∧
        List.lookup didMsg.Id store = some stored ∧
        stored.Metadata.VersionId = didMsg.VersionId ∧
        List.lookup didMsg.Id (UpdateDid env ctx store msg).2 = some value ∧
        value.Metadata.VersionId = GetTxHash env ctx.TxBytes ∧
        (value.Metadata.VersionId ≠ stored.Metadata.VersionId ↔
          GetTxHash env ctx.TxBytes ≠ didMsg.VersionId)) ∧
    (∀ store calls id,
      (versionHistory env store calls id).Sublist
        (calls.map (fun call => GetTxHash env call.ctx.TxBytes)) ∧
      ((calls.map (fun call => GetTxHash env call.ctx.TxBytes)).Nodup →
        (versionHistory env store calls id).Nodup)) := by
  constructor
  · intro ctx store msg r h
    rcases UpdateDid_cases env ctx store msg with
      ⟨err, he⟩ | ⟨didMsg, stored, hmsg, hstored, _, hversion, he⟩
    · rw [he] at h
      cases h
    · rw [he]
      refine ⟨didMsg, stored, _, hmsg, hstored, hversion,
        lookup_SetDid_self store didMsg.toDid _ _ _, rfl, ?_⟩
      rw [hversion]
  · intro store calls id
    exact ⟨versionHistory_sublist env calls store id,
      fun hn => List.Nodup.sublist (versionHistory_sublist env calls store id) hn⟩

/-- The witness of C19 amended: Alice's document is created and then rotated in a later
transaction; the rotation writes a versionId other than the stored one, and the two
versionIds of the run are distinct. -/
theorem version_id_is_hash_of_transaction_witness :
    (∃ didMsg stored value, (rotateSignedRequest "v1").Data = .UpdateDid didMsg ∧
        List.lookup didMsg.Id aliceStore = some stored ∧
        stored.Metadata.VersionId = didMsg.VersionId ∧
        List.lookup didMsg.Id
          (UpdateDid specEnv someContext aliceStore (rotateSignedRequest "v1")).2 =
          some value ∧
        value.Metadata.VersionId = GetTxHash specEnv someContext.TxBytes ∧
        (value.Metadata.VersionId ≠ stored.Metadata.VersionId ↔
          GetTxHash specEnv someContext.TxBytes ≠ didMsg.VersionId)) ∧
    (versionHistory specEnv [] createThenRotate "did:cheqd:test:alice").Nodup :=
  ⟨(version_id_is_hash_of_transaction specEnv).1 someContext aliceStore
      (rotateSignedRequest "v1") { Id := "did:cheqd:test:alice" } rfl,
    ((version_id_is_hash_of_transaction specEnv).2 [] createThenRotate
      "did:cheqd:test:alice").2 (by decide)⟩

/-! ## The verifier of section 4.4 on one signer, and the default controller of a create -/

theorem mem_signerEntries (msg : MsgWriteRequest) (principal : String)
    (entry : String × String) :
    entry ∈ signerEntries msg principal ↔
      entry ∈ msg.Signatures ∧ methodDid entry.1 = principal := by
  simp [signerEntries]

theorem signerEntries_eq_nil (msg : MsgWriteRequest) (principal : String)
    (h : ∀ entry ∈ msg.Signatures, methodDid entry.1 ≠ principal) :
    signerEntries msg principal = [] := by
  unfold signerEntries
  rw [List.filter_eq_nil_iff]
  intro entry hentry
  simpa using h entry hentry

theorem keySetMethod_some (authentication : List String)
    (verificationMethod : List VerificationMethod) (id : String) (vm : VerificationMethod)
    (h : keySetMethod authentication verificationMethod id = some vm) :
    id ∈ authentication ∧ vm ∈ verificationMethod ∧ vm.Id = id := by
  unfold keySetMethod at h
  split_ifs at h with ha
  unfold FindVerificationMethod at h
  refine ⟨by simpa using ha, List.mem_of_find?_eq_some h, ?_⟩
  simpa using List.find?_some h

theorem verifySigner_unsigned (check : VerificationMethod → String → Bool) (store : Store)
    (msg : MsgWriteRequest) (signer : Signer) (authentication : List String)
    (verificationMethod : List VerificationMethod)
    (hkeys : resolveKeySet store msg.documentId signer =
      .ok (authentication, verificationMethod))
    (hunsigned : ∀ entry ∈ msg.Signatures, methodDid entry.1 ≠ signer.Signer) :
    verifySigner check store msg signer =
      some { kind := .SignatureNotFound, description := "signer: " ++ signer.Signer } := by
  simp only [verifySigner, hkeys, signerEntries_eq_nil msg signer.Signer hunsigned]

theorem verifySigner_undeclared (check : VerificationMethod → String → Bool) (store : Store)
    (msg : MsgWriteRequest) (signer : Signer) (authentication : List String)
    (verificationMethod : List VerificationMethod) (entry : String × String)
    (hkeys : resolveKeySet store msg.documentId signer =
      .ok (authentication, verificationMethod))
    (hfind : (signerEntries msg signer.Signer).find? (fun entry =>
      (keySetMethod authentication verificationMethod entry.1).isNone) = some entry) :
    verifySigner check store msg signer =
      some { kind := .VerificationMethodNotFound, description := entry.1 } := by
  cases he : signerEntries msg signer.Signer with
  | nil => rw [he] at hfind; cases hfind
  | cons first rest =>
    rw [he] at hfind
    simp only [verifySigner, hkeys, he, hfind]

theorem verifySigner_unresolved (check : VerificationMethod → String → Bool) (store : Store)
    (msg : MsgWriteRequest) (signer : Signer) (hother : signer.Signer ≠ msg.documentId)
    (hmissing : store.HasDid signer.Signer = false) :
    verifySigner check store msg signer =
      some { kind := .DidDocNotFound, description := signer.Signer } := by
  have hlookup : List.lookup signer.Signer store = none := by
    simpa [Store.HasDid] using hmissing
  simp only [verifySigner, resolveKeySet, hother, if_false, Store.GetDid, hlookup]

theorem verifySigner_none_inv (check : VerificationMethod → String → Bool) (store : Store)
    (msg : MsgWriteRequest) (signer : Signer)
    (h : verifySigner check store msg signer = none) :
    ∃ authentication verificationMethod,
      resolveKeySet store msg.documentId signer = .ok (authentication, verificationMethod) ∧
      ∃ entry ∈ msg.Signatures, methodDid entry.1 = signer.Signer ∧
        ∃ vm, keySetMethod authentication verificationMethod entry.1 = some vm ∧
          check vm entry.2 = true := by
  unfold verifySigner at h
  cases hk : resolveKeySet store msg.documentId signer with
  | error err => rw [hk] at h; cases h
  | ok keys =>
    obtain ⟨authentication, verificationMethod⟩ := keys
    rw [hk] at h
    refine ⟨authentication, verificationMethod, rfl, ?_⟩
    cases he : signerEntries msg signer.Signer with
    | nil => rw [he] at h; cases h
    | cons first rest =>
      rw [he] at h
      simp only at h
      cases hf : (first :: rest).find? (fun entry =>
          (keySetMethod authentication verificationMethod entry.1).isNone) with
      | some entry => rw [hf] at h; cases h
      | none =>
        rw [hf] at h
        simp only at h
        split_ifs at h with hany
        obtain ⟨entry, hentry, haccept⟩ := List.any_eq_true.mp hany
        rw [← he] at hentry
        obtain ⟨hin, hdid⟩ := (mem_signerEntries msg signer.Signer entry).mp hentry
        refine ⟨entry, hin, hdid, ?_⟩
        cases hm : keySetMethod authentication verificationMethod entry.1 with
        | none => rw [hm] at haccept; cases haccept
        | some vm => rw [hm] at haccept; exact ⟨vm, rfl, haccept⟩

/-- The verifier modelled from section 4.4 gives, on the requests of TestCreateDID, the
outcomes the test expects (handler_test.go, lines 129-141 and 218-331): a request signed
by both controllers is created; the others fail with "signature is required but not
found", "DID Doc not found", "invalid signature detected" and "verification method not
found" for the signer and the method id the test names. -/
theorem verifier_matches_TestCreateDID :
    (CreateDid specEnv someContext aliceBobStore bothControllersSigned).1 =
      .ok { Id := "did:cheqd:test:imposter" } ∧
    CreateDid specEnv someContext aliceBobStore secondControllerUnsigned =
      (.error { kind := .SignatureNotFound, description := "signer: did:cheqd:test:bob" },
        aliceBobStore) ∧
    CreateDid specEnv someContext aliceBobStore noSignatureRequest =
      (.error { kind := .SignatureNotFound, description := "signer: did:cheqd:test:alice" },
        aliceBobStore) ∧
    CreateDid specEnv someContext aliceBobStore wrongSignatureRequest =
      (.error { kind := .InvalidSignature,
                description := "method id: did:cheqd:test:alice#key-1 " }, aliceBobStore) ∧
    CreateDid specEnv someContext aliceBobStore wrongControllerRequest =
      (.error { kind := .SignatureNotFound, description := "signer: did:cheqd:test:imposter" },
        aliceBobStore) ∧
    CreateDid specEnv someContext aliceBobStore undeclaredMethodRequest =
      (.error { kind := .VerificationMethodNotFound,
                description := "did:cheqd:test:imposter#key-2" }, aliceBobStore) ∧
    CreateDid specEnv someContext aliceBobStore undeclaredSelfMethodRequest =
      (.error { kind := .VerificationMethodNotFound,
                description := "did:cheqd:test:imposter#key-2" }, aliceBobStore) ∧
    Error.message { kind := .VerificationMethodNotFound,
                    description := "did:cheqd:test:imposter#key-2" } =
      "did:cheqd:test:imposter#key-2: verification method not found" ∧
    Error.message { kind := .InvalidSignature,
                    description := "method id: did:cheqd:test:alice#key-1 " } =
      "method id: did:cheqd:test:alice#key-1 : invalid signature detected" := by
  refine ⟨by rfl, by rfl, by rfl, by rfl, by rfl, by rfl, by rfl, by rfl, by rfl⟩

/-- C20: with GetSigners and VerifySignature as the spec describes them, a create request
with an empty controller list has exactly one required signer, the document's own id
restricted to the verificationMethod and authentication lists of the request.  For a
request that passes basic validation this shows in the outcome of CreateDid: when every
entry of the signature bundle is keyed by a method of another document, CreateDid fails
with "signer: <id>: signature is required but not found"; when an entry is keyed by a
method of the new document that the request does not declare as an authentication
method, it fails with "<method id>: verification method not found"; in both cases the
store is left as it was; and whenever CreateDid succeeds, the bundle holds an entry keyed
by a declared authentication method of the new document whose signature is accepted. -/
theorem default_controller_on_create (env : Env) (ctx : Context) (store : Store)
    (msg : MsgWriteRequest) (didMsg : MsgCreateDid)
    (check : VerificationMethod → String → Bool) (hmsg : msg.Data = .CreateDid didMsg)
    (hempty : didMsg.Controller = [])
    (hsigners : env.GetSignersCreate = MsgCreateDid.GetSigners)
    (hverifier : env.VerifySignature =
      fun _ store msg signers => VerifySignature check store msg signers) :
    env.GetSignersCreate didMsg =
      [selfSigner didMsg.Id didMsg.Authentication didMsg.VerificationMethod] ∧
    principals (env.GetSignersCreate didMsg) = [didMsg.Id] ∧
    (env.ValidateBasicCreate didMsg (env.DidPrefix ++ ctx.ChainID ++ ":") = none →
      ((∀ entry ∈ msg.Signatures, methodDid entry.1 ≠ didMsg.Id) →
        CreateDid env ctx store msg =
          (.error { kind := .SignatureNotFound, description := "signer: " ++ didMsg.Id },
            store) ∧
        Error.message { kind := .SignatureNotFound, description := "signer: " ++ didMsg.Id } =
          "signer: " ++ didMsg.Id ++ ": signature is required but not found") ∧
      (∀ entry, (signerEntries msg didMsg.Id).find? (fun entry =>
          (keySetMethod didMsg.Authentication didMsg.VerificationMethod entry.1).isNone) =
            some entry →
        CreateDid env ctx store msg =
          (.error { kind := .VerificationMethodNotFound, description := entry.1 }, store) ∧
        Error.message { kind := .VerificationMethodNotFound, description := entry.1 } =
          entry.1 ++ ": verification method not found") ∧
      (∀ response, (CreateDid env ctx store msg).1 = .ok response →
        ∃ entry ∈ msg.Signatures, ∃ vm ∈ didMsg.VerificationMethod,
          methodDid entry.1 = didMsg.Id ∧ entry.1 ∈ didMsg.Authentication ∧
          vm.Id = entry.1 ∧ check vm entry.2 = true)) := by
  have hlist : env.GetSignersCreate didMsg =
      [selfSigner didMsg.Id didMsg.Authentication didMsg.VerificationMethod] := by
    rw [hsigners]
    simp [MsgCreateDid.GetSigners, hempty, expandController]
  refine ⟨hlist, by rw [hlist]; rfl, ?_⟩
  intro hvalid
  have hdoc : msg.documentId = didMsg.Id := by
    simp [MsgWriteRequest.documentId, hmsg]
  have hkeys : resolveKeySet store msg.documentId
      (selfSigner didMsg.Id didMsg.Authentication didMsg.VerificationMethod) =
        .ok (didMsg.Authentication, didMsg.VerificationMethod) := by
    simp [resolveKeySet, selfSigner, hdoc]
  have hfail : ∀ err, verifySigner check store msg
      (selfSigner didMsg.Id didMsg.Authentication didMsg.VerificationMethod) = some err →
      CreateDid env ctx store msg = (.error err, store) := by
    intro err herr
    have hv : env.VerifySignature ctx store msg (env.GetSignersCreate didMsg) = some err := by
      rw [hlist, hverifier]
      simp only [VerifySignature, herr]
    unfold CreateDid
    simp only [hmsg, hvalid, hv]
  refine ⟨?_, ?_, ?_⟩
  · intro hunsigned
    constructor
    · exact hfail _ (verifySigner_unsigned check store msg _ _ _ hkeys hunsigned)
    · show "signer: " ++ didMsg.Id ++ ": " ++ "signature is required but not found" =
        "signer: " ++ didMsg.Id ++ ": signature is required but not found"
      rw [String.append_assoc ("signer: " ++ didMsg.Id)]
      rfl
  · intro entry hfind
    refine ⟨hfail _ (verifySigner_undeclared check store msg _ _ _ entry hkeys hfind), ?_⟩
    show entry.1 ++ ": " ++ "verification method not found" =
      entry.1 ++ ": verification method not found"
    rw [String.append_assoc]
    rfl
  · intro response hok
    obtain ⟨didMsg2, hmsg2, -, hverify, -⟩ := CreateDid_ok_inv env ctx store msg response hok
    have hsame : didMsg2 = didMsg := by
      rw [hmsg] at hmsg2
      cases hmsg2
      rfl
    subst hsame
    rw [hlist, hverifier] at hverify
    have hself : verifySigner check store msg
        (selfSigner didMsg2.Id didMsg2.Authentication didMsg2.VerificationMethod) = none := by
      simp only [VerifySignature] at hverify
      split at hverify
      · cases hverify
      · assumption
    obtain ⟨authentication, verificationMethod, hk, entry, hentry, hdid, vm, hvm, haccept⟩ :=
      verifySigner_none_inv check store msg _ hself
    rw [hkeys] at hk
    cases hk
    obtain ⟨hauth, hmem, hid⟩ := keySetMethod_some _ _ _ _ hvm
    exact ⟨entry, hentry, vm, hmem, hdid, hauth, hid, haccept⟩

/-- The witness of C20: the create request for Alice's document signed with a key of Bob's
document only fails for the missing signature of Alice; the request of the case "DID
self-signed by not existing verification method" of TestCreateDID, signed with the
undeclared "key-2" of the new document, fails for that method. -/
theorem default_controller_on_create_witness :
    specEnv.GetSignersCreate createAlice =
      [selfSigner "did:cheqd:test:alice" createAlice.Authentication
        createAlice.VerificationMethod] ∧
    CreateDid specEnv someContext [] foreignSignedCreateRequest =
      (.error { kind := .SignatureNotFound, description := "signer: did:cheqd:test:alice" },
        []) ∧
    Error.message { kind := .SignatureNotFound, description := "signer: did:cheqd:test:alice" } =
      "signer: did:cheqd:test:alice: signature is required but not found" ∧
    CreateDid specEnv someContext aliceBobStore undeclaredMethodRequest =
      (.error { kind := .VerificationMethodNotFound,
                description := "did:cheqd:test:imposter#key-2" }, aliceBobStore) ∧
    Error.message { kind := .VerificationMethodNotFound,
                    description := "did:cheqd:test:imposter#key-2" } =
      "did:cheqd:test:imposter#key-2: verification method not found" :=
  have h := default_controller_on_create specEnv someContext [] foreignSignedCreateRequest
    createAlice (fun vm signature => signature == "signed:" ++ vm.PublicKeyMultibase)
    rfl rfl rfl rfl
  have h2 := default_controller_on_create specEnv someContext aliceBobStore
    undeclaredMethodRequest (createImposterKeyed [])
    (fun vm signature => signature == "signed:" ++ vm.PublicKeyMultibase) rfl rfl rfl rfl
  have a := (h.2.2 rfl).1 (by decide)
  have b := (h2.2.2 rfl).2.1 ("did:cheqd:test:imposter#key-2", "signed:zI2") (by rfl)
  ⟨h.1, a.1, a.2, b.1, b.2⟩

/-! ## AppendSignerIfNeed as a whole, and the exact set of required principals -/

/-- C29: AppendSignerIfNeed returns the list unchanged when it has an entry with the
principal; otherwise it returns the list followed by one new entry with that principal,
which carries the message's verificationMethod and authentication when the principal is
the message id and carries neither otherwise.  Applying it twice with the same principal
equals applying it once, and it keeps a list free of repeated principals free of them. -/
theorem AppendSignerIfNeed_contract (signers : List Signer) (c : String)
    (msg : MsgUpdateDid) :
    ((∃ s ∈ signers, s.Signer = c) → AppendSignerIfNeed signers c msg = signers) ∧
    ((∀ s ∈ signers, s.Signer ≠ c) →
      ∃ entry, AppendSignerIfNeed signers c msg = signers ++ [entry] ∧ entry.Signer = c ∧
        (c = msg.Id → entry.VerificationMethod = msg.VerificationMethod ∧
          entry.Authentication = msg.Authentication) ∧
        (c ≠ msg.Id → entry.VerificationMethod = [] ∧ entry.Authentication = [])) ∧
    AppendSignerIfNeed (AppendSignerIfNeed signers c msg) c msg =
      AppendSignerIfNeed signers c msg ∧
    ((principals signers).Nodup → (principals (AppendSignerIfNeed signers c msg)).Nodup) := by
  refine ⟨?_, ?_, ?_, nodup_principals_AppendSignerIfNeed signers c msg⟩
  · intro hin
    rcases AppendSignerIfNeed_entry signers c msg with ⟨_, he⟩ | ⟨hnot, _⟩
    · exact he
    · exact absurd ((mem_principals_iff _ _).mpr hin) hnot
  · intro hnot
    rcases AppendSignerIfNeed_entry signers c msg with ⟨hin, _⟩ | ⟨_, he⟩
    · obtain ⟨s, hs, hc⟩ := (mem_principals_iff _ _).mp hin
      exact absurd hc (hnot s hs)
    · refine ⟨signerEntry c msg, he, signerEntry_principal c msg, ?_, ?_⟩
      · intro hc
        simp [signerEntry, hc, selfSigner]
      · intro hc
        simp [signerEntry, hc, bareSigner]
  · rcases AppendSignerIfNeed_entry (AppendSignerIfNeed signers c msg) c msg with
      ⟨_, he⟩ | ⟨hnot, _⟩
    · exact he
    · exact absurd (mem_principals_AppendSignerIfNeed signers c msg) hnot

/-- The witness of C29: Bob is appended bare to the seed of Alice's rotation, Alice is
found in it. -/
theorem AppendSignerIfNeed_contract_witness :
    AppendSignerIfNeed (rotateAlice "v1").GetSigners "did:cheqd:test:alice" (rotateAlice "v1") =
      (rotateAlice "v1").GetSigners ∧
    (∃ entry, AppendSignerIfNeed (rotateAlice "v1").GetSigners "did:cheqd:test:bob"
        (rotateAlice "v1") = (rotateAlice "v1").GetSigners ++ [entry] ∧
      entry.Signer = "did:cheqd:test:bob" ∧
      ("did:cheqd:test:bob" = (rotateAlice "v1").Id →
        entry.VerificationMethod = (rotateAlice "v1").VerificationMethod ∧
        entry.Authentication = (rotateAlice "v1").Authentication) ∧
      ("did:cheqd:test:bob" ≠ (rotateAlice "v1").Id →
        entry.VerificationMethod = [] ∧ entry.Authentication = [])) ∧
    (principals (AppendSignerIfNeed (rotateAlice "v1").GetSigners "did:cheqd:test:bob"
      (rotateAlice "v1"))).Nodup :=
  ⟨(AppendSignerIfNeed_contract (rotateAlice "v1").GetSigners "did:cheqd:test:alice"
      (rotateAlice "v1")).1 (by decide),
    (AppendSignerIfNeed_contract (rotateAlice "v1").GetSigners "did:cheqd:test:bob"
      (rotateAlice "v1")).2.1 (by decide),
    (AppendSignerIfNeed_contract (rotateAlice "v1").GetSigners "did:cheqd:test:bob"
      (rotateAlice "v1")).2.2.2 (by decide)⟩

theorem mem_demandedControllers (newDIDDoc : MsgUpdateDid) (oldVM : VerificationMethod)
    (c : String) :
    c ∈ demandedControllers newDIDDoc oldVM ↔
      (oldVM.Controller = c ∧
        (FindVerificationMethod newDIDDoc.VerificationMethod oldVM.Id = none ∨
          ∃ newVM, FindVerificationMethod newDIDDoc.VerificationMethod oldVM.Id = some newVM ∧
            newVM.Controller ≠ oldVM.Controller)) ∨
      (∃ newVM, FindVerificationMethod newDIDDoc.VerificationMethod oldVM.Id = some newVM ∧
        newVM ≠ oldVM ∧ newVM.Controller = c) := by
  unfold demandedControllers
  cases hfind : FindVerificationMethod newDIDDoc.VerificationMethod oldVM.Id with
  | none => simp [eq_comm]
  | some newVM =>
    simp only [List.mem_append]
    constructor
    · rintro (h | h)
      · split_ifs at h with hd
        · rw [List.mem_singleton] at h
          refine Or.inr ⟨newVM, rfl, ?_, h.symm⟩
          intro heq
          rw [heq, (DeepEqual_iff oldVM oldVM).mpr rfl] at hd
          cases hd
        · cases h
      · split_ifs at h with hc
        · rw [List.mem_singleton] at h
          exact Or.inl ⟨h.symm, Or.inr ⟨newVM, rfl, by simpa using hc⟩⟩
        · cases h
    · rintro (⟨hc, hnone | ⟨n, hn, hne⟩⟩ | ⟨n, hn, hne, hc⟩)
      · cases hnone
      · cases hn
        right
        have hb : (newVM.Controller != oldVM.Controller) = true := by simpa using hne
        rw [if_pos hb, List.mem_singleton]
        exact hc.symm
      · cases hn
        left
        have hd : DeepEqual oldVM newVM = false := by
          rw [Bool.eq_false_iff]
          exact fun h => hne ((DeepEqual_iff oldVM newVM).mp h).symm
        rw [hd]
        simp [hc]

/-- C30: a principal occurs in the required-signer list exactly when it occurs in the
seed, or is a removed controller, or is the controller of an old verification method that
is absent from the new document or has another controller there, or is the controller of
the new version of an old verification method that is not equal to it in every field.
When every old controller is a new controller and every old verification method is found
unchanged, the list is the seed, whatever else the new document declares. -/
theorem exact_required_principals (seed : List Signer) (oldDIDDoc : Did)
    (newDIDDoc : MsgUpdateDid) (p : String) :
    (p ∈ principals (requiredSigners seed oldDIDDoc newDIDDoc) ↔
      p ∈ principals seed ∨
      (p ∈ expandController oldDIDDoc.Controller oldDIDDoc.Id ∧
        p ∉ expandController newDIDDoc.Controller newDIDDoc.Id) ∨
      (∃ oldVM ∈ oldDIDDoc.VerificationMethod, oldVM.Controller = p ∧
        (FindVerificationMethod newDIDDoc.VerificationMethod oldVM.Id = none ∨
          ∃ newVM, FindVerificationMethod newDIDDoc.VerificationMethod oldVM.Id = some newVM ∧
            newVM.Controller ≠ oldVM.Controller)) ∨
      (∃ oldVM ∈ oldDIDDoc.VerificationMethod, ∃ newVM,
        FindVerificationMethod newDIDDoc.VerificationMethod oldVM.Id = some newVM ∧
        newVM ≠ oldVM ∧ newVM.Controller = p)) ∧
    ((∀ c ∈ expandController oldDIDDoc.Controller oldDIDDoc.Id,
        c ∈ expandController newDIDDoc.Controller newDIDDoc.Id) →
      (∀ oldVM ∈ oldDIDDoc.VerificationMethod,
        FindVerificationMethod newDIDDoc.VerificationMethod oldVM.Id = some oldVM) →
      requiredSigners seed oldDIDDoc newDIDDoc = seed) := by
  constructor
  · rw [mem_principals_iff]
    constructor
    · rintro ⟨s, hs, rfl⟩
      rcases (mem_requiredSigners seed oldDIDDoc newDIDDoc s).mp hs with
        h | ⟨c, hc, rfl⟩ | ⟨vm, hvm, c, hc, _, _, rfl⟩
      · exact Or.inl ((mem_principals_iff _ _).mpr ⟨s, h, rfl⟩)
      · exact Or.inr (Or.inl ((mem_Complement _ _ _).mp hc))
      · rw [signerEntry_principal]
        rcases (mem_demandedControllers newDIDDoc vm c).mp hc with h | ⟨newVM, h1, h2, h3⟩
        · exact Or.inr (Or.inr (Or.inl ⟨vm, hvm, h⟩))
        · exact Or.inr (Or.inr (Or.inr ⟨vm, hvm, newVM, h1, h2, h3⟩))
    · intro h
      have hdemand : ∀ vm ∈ oldDIDDoc.VerificationMethod,
          p ∈ demandedControllers newDIDDoc vm →
          ∃ s ∈ requiredSigners seed oldDIDDoc newDIDDoc, s.Signer = p := by
        intro vm hvm hp
        by_cases h1 : p ∈ principals seed
        · obtain ⟨s, hs, hsp⟩ := (mem_principals_iff _ _).mp h1
          exact ⟨s, (mem_requiredSigners _ _ _ s).mpr (Or.inl hs), hsp⟩
        · by_cases h2 : p ∈ Complement (expandController oldDIDDoc.Controller oldDIDDoc.Id)
              (expandController newDIDDoc.Controller newDIDDoc.Id)
          · exact ⟨bareSigner p,
              (mem_requiredSigners _ _ _ _).mpr (Or.inr (Or.inl ⟨p, h2, rfl⟩)), rfl⟩
          · exact ⟨signerEntry p newDIDDoc,
              (mem_requiredSigners _ _ _ _).mpr
                (Or.inr (Or.inr ⟨vm, hvm, p, hp, h1, h2, rfl⟩)),
              signerEntry_principal p newDIDDoc⟩
      rcases h with h | h | ⟨vm, hvm, h⟩ | ⟨vm, hvm, newVM, h⟩
      · obtain ⟨s, hs, hsp⟩ := (mem_principals_iff _ _).mp h
        exact ⟨s, (mem_requiredSigners _ _ _ s).mpr (Or.inl hs), hsp⟩
      · exact ⟨bareSigner p, (mem_requiredSigners _ _ _ _).mpr
          (Or.inr (Or.inl ⟨p, (mem_Complement _ _ _).mpr h, rfl⟩)), rfl⟩
      · exact hdemand vm hvm ((mem_demandedControllers newDIDDoc vm p).mpr (Or.inl h))
      · exact hdemand vm hvm
          ((mem_demandedControllers newDIDDoc vm p).mpr (Or.inr ⟨newVM, h⟩))
  · intro hcontrollers hmethods
    have hremoved : Complement (expandController oldDIDDoc.Controller oldDIDDoc.Id)
        (expandController newDIDDoc.Controller newDIDDoc.Id) = [] :=
      Complement_self _ _ hcontrollers
    simp only [requiredSigners, hremoved, appendRemovedControllers_eq, List.map_nil,
      List.append_nil]
    apply foldl_induction (fun signers => signers = seed)
    · intro b oldVM hmem hb
      have hde : DeepEqual oldVM oldVM = true := (DeepEqual_iff _ _).mpr rfl
      simp [verificationMethodStep, hmethods oldVM hmem, hde, hb]
    · rfl

/-- The witness of C30: the seed of Alice's restated document is the whole list, although
the new document declares one more key and one more controller; and Alice is in it. -/
theorem exact_required_principals_witness :
    requiredSigners aliceExtended.GetSigners aliceDoc aliceExtended = aliceExtended.GetSigners :=
  (exact_required_principals aliceExtended.GetSigners aliceDoc aliceExtended
    "did:cheqd:test:alice").2 (by decide) (by decide)

/-! ## The first unsatisfied controller of a create request -/

theorem GetSigners_eq_map (msg : MsgCreateDid) :
    msg.GetSigners = (expandController msg.Controller msg.Id).map
      (fun controller => createSignerEntry controller msg) := rfl

theorem VerifySignature_append (check : VerificationMethod → String → Bool) (store : Store)
    (msg : MsgWriteRequest) (before after : List Signer)
    (h : ∀ s ∈ before, verifySigner check store msg s = none) :
    VerifySignature check store msg (before ++ after) =
      VerifySignature check store msg after := by
  induction before with
  | nil => rfl
  | cons s rest ih =>
    simp only [List.cons_append, VerifySignature, h s (List.mem_cons_self _ _)]
    exact ih (fun x hx => h x (List.mem_cons_of_mem _ hx))

/-- C21, the claim as stated fails: the create request names Alice and an unregistered
document as controllers and is signed with Alice's key; Alice is satisfied, no entry of
the bundle is keyed by a method of the second controller, and CreateDid fails with
"DID Doc not found" for that controller, not with the missing-signature error. -/
theorem unregistered_controller_reports_not_found :
    verifySigner (fun vm signature => signature == "signed:" ++ vm.PublicKeyMultibase)
        aliceStore unknownControllerRequest (bareSigner "did:cheqd:test:alice") = none ∧
    signerEntries unknownControllerRequest "did:cheqd:test:ghost" = [] ∧
    CreateDid specEnv someContext aliceStore unknownControllerRequest =
      (.error { kind := .DidDocNotFound, description := "did:cheqd:test:ghost" },
        aliceStore) ∧
    Error.message { kind := .DidDocNotFound, description := "did:cheqd:test:ghost" } =
      "did:cheqd:test:ghost: DID Doc not found" := by
  refine ⟨by rfl, by rfl, by rfl, by rfl⟩

/-- C21, amended: with GetSigners and VerifySignature as the spec describes them, a create
request with declared controllers that passes basic validation is checked controller by
controller in declared order.  Let every controller before c be satisfied and let no entry
of the signature bundle be keyed by a method of c.  When c is the new document's own id or
the id of a registered document, CreateDid fails with
"signer: c: signature is required but not found"; when c is another id and no document is
registered for it, CreateDid fails with "c: DID Doc not found".  In both cases the store
is left as it was. -/
theorem first_unsigned_controller_fails (env : Env) (ctx : Context) (store : Store)
    (msg : MsgWriteRequest) (didMsg : MsgCreateDid)
    (check : VerificationMethod → String → Bool) (before after : List String) (c : String)
    (hmsg : msg.Data = .CreateDid didMsg)
    (hsigners : env.GetSignersCreate = MsgCreateDid.GetSigners)
    (hverifier : env.VerifySignature =
      fun _ store msg signers => VerifySignature check store msg signers)
    (hvalid : env.ValidateBasicCreate didMsg (env.DidPrefix ++ ctx.ChainID ++ ":") = none)
    (hcontrollers : didMsg.Controller = before ++ c :: after)
    (hbefore : ∀ b ∈ before, verifySigner check store msg (createSignerEntry b didMsg) = none)
    (hunsigned : ∀ entry ∈ msg.Signatures, methodDid entry.1 ≠ c) :
    ((c = didMsg.Id ∨ store.HasDid c = true) →
      CreateDid env ctx store msg =
        (.error { kind := .SignatureNotFound, description := "signer: " ++ c }, store)) ∧
    ((c ≠ didMsg.Id ∧ store.HasDid c = false) →
      CreateDid env ctx store msg =
        (.error { kind := .DidDocNotFound, description := c }, store)) ∧
    Error.message { kind := .SignatureNotFound, description := "signer: " ++ c } =
      "signer: " ++ c ++ ": signature is required but not found" ∧
    Error.message { kind := .DidDocNotFound, description := c } =
      c ++ ": DID Doc not found" := by
  have hdoc : msg.documentId = didMsg.Id := by
    simp [MsgWriteRequest.documentId, hmsg]
  have hprincipal : (createSignerEntry c didMsg).Signer = c := by
    unfold createSignerEntry
    split_ifs with h
    · exact h.symm
    · rfl
  have hlist : env.GetSignersCreate didMsg =
      before.map (fun b => createSignerEntry b didMsg) ++
        (createSignerEntry c didMsg :: after.map (fun b => createSignerEntry b didMsg)) := by
    rw [hsigners, GetSigners_eq_map, hcontrollers]
    simp [expandController]
  have hfail : ∀ err, verifySigner check store msg (createSignerEntry c didMsg) = some err →
      CreateDid env ctx store msg = (.error err, store) := by
    intro err herr
    have hv : env.VerifySignature ctx store msg (env.GetSignersCreate didMsg) = some err := by
      rw [hlist, hverifier]
      show VerifySignature check store msg _ = _
      rw [VerifySignature_append]
      · simp only [VerifySignature, herr]
      · intro s hs
        obtain ⟨b, hb, rfl⟩ := List.mem_map.mp hs
        exact hbefore b hb
    unfold CreateDid
    simp only [hmsg, hvalid, hv]
  refine ⟨?_, ?_, ?_, ?_⟩
  · intro hresolves
    have hkeys : ∃ authentication verificationMethod,
        resolveKeySet store msg.documentId (createSignerEntry c didMsg) =
          .ok (authentication, verificationMethod) := by
      by_cases hc : c = didMsg.Id
      · exact ⟨didMsg.Authentication, didMsg.VerificationMethod, by
          simp [resolveKeySet, createSignerEntry, selfSigner, hc, hdoc]⟩
      · rcases hresolves with h | h
        · exact absurd h hc
        · obtain ⟨value, hvalue⟩ := Option.isSome_iff_exists.mp h
          exact ⟨value.Did.Authentication, value.Did.VerificationMethod, by
            simp [resolveKeySet, createSignerEntry, bareSigner, hc, hdoc, Store.GetDid,
              hvalue]⟩
    obtain ⟨authentication, verificationMethod, hk⟩ := hkeys
    have := verifySigner_unsigned check store msg (createSignerEntry c didMsg) authentication
      verificationMethod hk (by rw [hprincipal]; exact hunsigned)
    rw [hprincipal] at this
    exact hfail _ this
  · rintro ⟨hc, hmissing⟩
    have := verifySigner_unresolved check store msg (createSignerEntry c didMsg)
      (by rw [hprincipal, hdoc]; exact hc) (by rw [hprincipal]; exact hmissing)
    rw [hprincipal] at this
    exact hfail _ this
  · show "signer: " ++ c ++ ": " ++ "signature is required but not found" =
      "signer: " ++ c ++ ": signature is required but not found"
    rw [String.append_assoc ("signer: " ++ c)]
    rfl
  · show c ++ ": " ++ "DID Doc not found" = c ++ ": DID Doc not found"
    rw [String.append_assoc]
    rfl

/-- The witness of C21 amended: the case "Second controller did not sign request" of
TestCreateDID, where Alice and Bob are registered controllers and only Alice has signed;
and the case "Controller not found", where the second controller is not registered. -/
theorem first_unsigned_controller_fails_witness :
    CreateDid specEnv someContext aliceBobStore secondControllerUnsigned =
      (.error { kind := .SignatureNotFound, description := "signer: did:cheqd:test:bob" },
        aliceBobStore) ∧
    Error.message { kind := .SignatureNotFound, description := "signer: did:cheqd:test:bob" } =
      "signer: did:cheqd:test:bob: signature is required but not found" ∧
    CreateDid specEnv someContext aliceBobStore unknownControllerRequest =
      (.error { kind := .DidDocNotFound, description := "did:cheqd:test:ghost" },
        aliceBobStore) ∧
    Error.message { kind := .DidDocNotFound, description := "did:cheqd:test:ghost" } =
      "did:cheqd:test:ghost: DID Doc not found" :=
  have h := first_unsigned_controller_fails specEnv someContext aliceBobStore
    secondControllerUnsigned
    (createImposter ["did:cheqd:test:alice", "did:cheqd:test:bob"])
    (fun vm signature => signature == "signed:" ++ vm.PublicKeyMultibase)
    ["did:cheqd:test:alice"] [] "did:cheqd:test:bob"
    rfl rfl rfl rfl rfl (by decide) (by decide)
  have h2 := first_unsigned_controller_fails specEnv someContext aliceBobStore
    unknownControllerRequest
    (createImposter ["did:cheqd:test:alice", "did:cheqd:test:ghost"])
    (fun vm signature => signature == "signed:" ++ vm.PublicKeyMultibase)
    ["did:cheqd:test:alice"] [] "did:cheqd:test:ghost"
    rfl rfl rfl rfl rfl (by decide) (by decide)
  ⟨h.1 (Or.inr (by rfl)), h.2.2.1, h2.2.1 ⟨by decide, by rfl⟩, h2.2.2.2⟩

/-! ## The legacy registry: id bytes, count and AppendDid -/

namespace Legacy

theorem GetDidIDFromBytes_GetDidIDBytes (id : Nat) (h : id < 2 ^ 64) :
    GetDidIDFromBytes (GetDidIDBytes id) = some id := by
  simp only [GetDidIDBytes, GetDidIDFromBytes, Option.some.injEq]
  norm_num at h ⊢
  omega

theorem GetDidIDBytes_injective (id id2 : Nat) (h : id < 2 ^ 64) (h2 : id2 < 2 ^ 64)
    (heq : GetDidIDBytes id = GetDidIDBytes id2) : id = id2 := by
  have e1 := GetDidIDFromBytes_GetDidIDBytes id h
  have e2 := GetDidIDFromBytes_GetDidIDBytes id2 h2
  rw [heq, e2] at e1
  exact (Option.some.inj e1).symm

/-- C27: for a 64-bit id, GetDidIDBytes gives exactly 8 bytes, the big-endian digits of
the id in base 256; GetDidIDFromBytes reads the id back; and two 64-bit ids with the same
bytes are equal. -/
theorem id_bytes_round_trip (id : Nat) (h : id < 2 ^ 64) :
    (GetDidIDBytes id).length = 8 ∧
    (∀ b ∈ GetDidIDBytes id, b < 256) ∧
    Nat.ofDigits 256 (GetDidIDBytes id).reverse = id ∧
    GetDidIDFromBytes (GetDidIDBytes id) = some id ∧
    (∀ id2, id2 < 2 ^ 64 → GetDidIDBytes id = GetDidIDBytes id2 → id = id2) := by
  refine ⟨rfl, ?_, ?_, GetDidIDFromBytes_GetDidIDBytes id h,
    fun id2 h2 heq => GetDidIDBytes_injective id id2 h h2 heq⟩
  · intro b hb
    simp only [GetDidIDBytes, List.mem_cons, List.mem_singleton, List.not_mem_nil,
      or_false] at hb
    rcases hb with rfl | rfl | rfl | rfl | rfl | rfl | rfl | rfl <;> exact Nat.mod_lt _ (by norm_num)
  · simp only [GetDidIDBytes, List.reverse_cons, List.reverse_nil, List.nil_append,
      List.cons_append, Nat.ofDigits_cons, Nat.ofDigits_nil]
    norm_num at h ⊢
    omega

/-- The witness of C27: the id 258 is the bytes 0,0,0,0,0,0,1,2. -/
theorem id_bytes_round_trip_witness :
    GetDidIDBytes 258 = [0, 0, 0, 0, 0, 0, 1, 2] ∧
    GetDidIDFromBytes (GetDidIDBytes 258) = some 258 :=
  ⟨by decide, (id_bytes_round_trip 258 (by norm_num)).2.2.2.1⟩

end Legacy

namespace Legacy

theorem formatDigits_spec (fuel : Nat) :
    ∀ (n : Nat) (acc : Bytes), n < 10 ^ (fuel + 1) →
      ∃ ds : Bytes, formatDigits (fuel + 1) n acc = ds ++ acc ∧ ds ≠ [] ∧
        (∀ b ∈ ds, 48 ≤ b ∧ b ≤ 57) ∧
        ds.foldl (fun a b => a * 10 + (b - 48)) 0 = n := by
  induction fuel with
  | zero =>
    intro n acc hn
    have hn10 : n < 10 := by simpa using hn
    refine ⟨[48 + n % 10], ?_, by simp, ?_, ?_⟩
    · have h0 : n / 10 = 0 := by omega
      simp [formatDigits, h0]
    · intro b hb
      rw [List.mem_singleton] at hb
      omega
    · simp only [List.foldl_cons, List.foldl_nil]
      omega
  | succ fuel ih =>
    intro n acc hn
    by_cases h0 : n / 10 = 0
    · refine ⟨[48 + n % 10], ?_, by simp, ?_, ?_⟩
      · rw [formatDigits]
        simp [h0]
      · intro b hb
        rw [List.mem_singleton] at hb
        omega
      · simp only [List.foldl_cons, List.foldl_nil]
        omega
    · have hlt : n / 10 < 10 ^ (fuel + 1) := by
        rw [pow_succ] at hn
        omega
      obtain ⟨ds, hds, _, hdigits, hvalue⟩ := ih (n / 10) ((48 + n % 10) :: acc) hlt
      refine ⟨ds ++ [48 + n % 10], ?_, by simp, ?_, ?_⟩
      · rw [formatDigits]
        simp only [h0, if_false]
        rw [hds]
        simp
      · intro b hb
        rcases List.mem_append.mp hb with h | h
        · exact hdigits b h
        · rw [List.mem_singleton] at h
          omega
      · rw [List.foldl_append, hvalue]
        simp only [List.foldl_cons, List.foldl_nil]
        omega

theorem ParseUint_FormatUint (n : Nat) (h : n < 2 ^ 64) : ParseUint (FormatUint n) = some n := by
  have hn : n < 10 ^ (19 + 1) := by
    norm_num at h ⊢
    omega
  obtain ⟨ds, hds, hne, hdigits, hvalue⟩ := formatDigits_spec 19 n [] hn
  have hfmt : FormatUint n = ds := by
    unfold FormatUint
    rw [hds, List.append_nil]
  have hall : ds.all (fun b => decide (48 ≤ b) && decide (b ≤ 57)) = true := by
    rw [List.all_eq_true]
    intro b hb
    have := hdigits b hb
    simp [this.1, this.2]
  rw [hfmt]
  unfold ParseUint
  simp only [hne, if_false, hall, if_true, hvalue, h]

theorem GetDidCount_lt (k : Keeper) (store : KVStore) (c : Nat)
    (h : GetDidCount k store = some c) : c < 2 ^ 64 := by
  unfold GetDidCount at h
  cases hget : store.Get k.countKey with
  | none =>
    rw [hget] at h
    cases h
    norm_num
  | some bz =>
    rw [hget] at h
    unfold ParseUint at h
    simp only at h
    split_ifs at h with h1 h2 h3
    cases h
    exact h3

theorem lookup_cons_ne (key other value : Bytes) (store : KVStore) (h : key ≠ other) :
    List.lookup key ((other, value) :: store) = List.lookup key store := by
  have hb : (key == other) = false := by simpa using h
  simp [List.lookup_cons, hb]

theorem lookup_cons_self (key value : Bytes) (store : KVStore) :
    List.lookup key ((key, value) :: store) = some value := by
  simp [List.lookup_cons]

/-- C28: in a store whose count reads c (0 when no count is stored), AppendDid returns c,
stores the record with Id = c and the given creator, verkey and alias under the key of c,
sets the count to c + 1 modulo 2^64 and leaves the record of every other 64-bit id as it
was; the key of the count is taken to differ from every record key. -/
theorem AppendDid_assigns_next_id (k : Keeper) (store : KVStore)
    (creator verkey aliasName : String) (c : Nat) (hcount : GetDidCount k store = some c)
    (hkeys : ∀ id, k.didKey id ≠ k.countKey) :
    ∃ after, AppendDid k store creator verkey aliasName = some (c, after) ∧
      after.Get (k.didKey c) =
        some (k.Marshal { Creator := creator, Id := c, Verkey := verkey, Alias := aliasName }) ∧
      GetDidCount k after = some ((c + 1) % 2 ^ 64) ∧
      after.Get k.countKey = some (FormatUint ((c + 1) % 2 ^ 64)) ∧
      ∀ id, id < 2 ^ 64 → id ≠ c → after.Get (k.didKey id) = store.Get (k.didKey id) := by
  have hc : c < 2 ^ 64 := GetDidCount_lt k store c hcount
  refine ⟨SetDidCount k (store.Set (k.didKey c)
      (k.Marshal { Creator := creator, Id := c, Verkey := verkey, Alias := aliasName }))
      ((c + 1) % 2 ^ 64), by simp only [AppendDid, hcount], ?_, ?_, ?_, ?_⟩
  · simp only [SetDidCount, KVStore.Set, KVStore.Get]
    rw [lookup_cons_ne _ _ _ _ (hkeys c), lookup_cons_self]
  · simp only [GetDidCount, SetDidCount, KVStore.Set, KVStore.Get, lookup_cons_self]
    exact ParseUint_FormatUint _ (Nat.mod_lt _ (by norm_num))
  · simp only [SetDidCount, KVStore.Set, KVStore.Get, lookup_cons_self]
  · intro id hid hne
    simp only [SetDidCount, KVStore.Set, KVStore.Get]
    rw [lookup_cons_ne _ _ _ _ (hkeys id), lookup_cons_ne]
    intro heq
    apply hne
    unfold Keeper.didKey at heq
    exact GetDidIDBytes_injective id c hid hc (List.append_cancel_left heq)

/-- The witness of C28: the first AppendDid on an empty store returns the id 0 and leaves
the count 1. -/
theorem AppendDid_assigns_next_id_witness :
    ∃ after, AppendDid someKeeper [] "creator" "verkey" "alias" = some (0, after) ∧
      GetDidCount someKeeper after = some 1 :=
  (AppendDid_assigns_next_id someKeeper [] "creator" "verkey" "alias" 0 rfl
    (fun id h => by simp [Keeper.didKey, Keeper.countKey, someKeeper] at h)).imp
    (fun _ h => ⟨h.1, h.2.2.1⟩)

end Legacy

/-! ## The backtracking search: general lemmas -/

namespace Regexp

theorem mem_repeatGreedy_self (step : Thread → List Thread) (fuel : Nat) (t : Thread) :
    t ∈ repeatGreedy step fuel t := by
  cases fuel with
  | zero => simp [repeatGreedy]
  | succ fuel => simp [repeatGreedy]

theorem mem_repeatGreedy_step (step : Thread → List Thread) (fuel : Nat) (t u m : Thread)
    (hu : u ∈ step t) (hlt : u.rest.length < t.rest.length)
    (hm : m ∈ repeatGreedy step fuel u) : m ∈ repeatGreedy step (fuel + 1) t := by
  simp only [repeatGreedy, List.mem_append, List.mem_flatMap, List.mem_filter,
    decide_eq_true_eq]
  exact Or.inl ⟨u, ⟨hu, hlt⟩, hm⟩

theorem mem_repeatGreedy_succ (step : Thread → List Thread) (fuel : Nat) :
    ∀ (t m : Thread), m ∈ repeatGreedy step fuel t → m ∈ repeatGreedy step (fuel + 1) t := by
  induction fuel with
  | zero =>
    intro t m hm
    simp only [repeatGreedy, List.mem_singleton] at hm
    rw [hm]
    exact mem_repeatGreedy_self step 1 t
  | succ fuel ih =>
    intro t m hm
    rw [repeatGreedy] at hm
    simp only [List.mem_append, List.mem_flatMap, List.mem_filter, decide_eq_true_eq,
      List.mem_singleton] at hm
    rcases hm with ⟨u, ⟨hu, hlt⟩, hmu⟩ | rfl
    · exact mem_repeatGreedy_step step (fuel + 1) t u m hu hlt (ih u m hmu)
    · exact mem_repeatGreedy_self step _ _

theorem mem_repeatGreedy_mono (step : Thread → List Thread) (fuel more : Nat) (t m : Thread)
    (hm : m ∈ repeatGreedy step fuel t) : m ∈ repeatGreedy step (fuel + more) t := by
  induction more with
  | zero => exact hm
  | succ more ih => exact mem_repeatGreedy_succ step (fuel + more) t m ih

/-- What a repetition consumes is built from what its iterations consume. -/
theorem repeatGreedy_consumes (step : Thread → List Thread) (S : List Char → Prop)
    (hnil : S []) (happend : ∀ u v, S u → S v → S (u ++ v))
    (hstep : ∀ t m, m ∈ step t → ∃ u, t.rest = u ++ m.rest ∧ S u) (fuel : Nat) :
    ∀ (t m : Thread), m ∈ repeatGreedy step fuel t → ∃ u, t.rest = u ++ m.rest ∧ S u := by
  induction fuel with
  | zero =>
    intro t m hm
    simp only [repeatGreedy, List.mem_singleton] at hm
    exact ⟨[], by rw [hm]; rfl, hnil⟩
  | succ fuel ih =>
    intro t m hm
    rw [repeatGreedy] at hm
    simp only [List.mem_append, List.mem_flatMap, List.mem_filter, decide_eq_true_eq,
      List.mem_singleton] at hm
    rcases hm with ⟨x, ⟨hx, _⟩, hmx⟩ | rfl
    · obtain ⟨u1, h1, s1⟩ := hstep t x hx
      obtain ⟨u2, h2, s2⟩ := ih x m hmx
      exact ⟨u1 ++ u2, by rw [h1, h2, List.append_assoc], happend u1 u2 s1 s2⟩
    · exact ⟨[], rfl, hnil⟩

theorem mem_run_star_of_step (a : Re) (t u m : Thread) (hu : u ∈ a.run t)
    (hlt : u.rest.length < t.rest.length) (hm : m ∈ (Re.star a).run u) :
    m ∈ (Re.star a).run t := by
  simp only [Re.run] at hm ⊢
  obtain ⟨k, hk⟩ : ∃ k, t.rest.length = u.rest.length + k + 1 := ⟨t.rest.length - u.rest.length - 1, by omega⟩
  rw [hk]
  exact mem_repeatGreedy_step a.run _ t u m hu hlt (mem_repeatGreedy_mono a.run _ k u m hm)

theorem search_isSome (re : Re)
    (hempty : ∀ pos, re.run { pos := pos, rest := [], caps := [] } ≠ []) :
    ∀ (text : List Char) (pos : Nat), (search re pos text).isSome = true := by
  intro text
  induction text with
  | nil =>
    intro pos
    simp only [search]
    cases h : (re.run { pos := pos, rest := [], caps := [] }) with
    | nil => exact absurd h (hempty pos)
    | cons x xs => rfl
  | cons c rest ih =>
    intro pos
    simp only [search]
    cases (re.run { pos := pos, rest := c :: rest, caps := [] }).head? with
    | some t => rfl
    | none => exact ih (pos + 1)

/-- The search returns the first match at the leftmost start position that has one. -/
theorem search_leftmost (re : Re) (text : List Char) :
    ∀ (i pos : Nat) (m : Thread), i ≤ text.length →
      (∀ j, j < i → re.run { pos := pos + j, rest := text.drop j, caps := [] } = []) →
      (re.run { pos := pos + i, rest := text.drop i, caps := [] }).head? = some m →
      search re pos text = some m := by
  induction text with
  | nil =>
    intro i pos m hi _ hm
    have hi0 : i = 0 := by simpa using hi
    subst hi0
    simpa [search] using hm
  | cons c rest ih =>
    intro i pos m hi hbefore hm
    cases i with
    | zero =>
      have hm0 : (re.run { pos := pos, rest := c :: rest, caps := [] }).head? = some m := by
        simpa using hm
      simp only [search, hm0]
    | succ i =>
      have h0 := hbefore 0 (Nat.succ_pos i)
      have h0b : re.run { pos := pos, rest := c :: rest, caps := [] } = [] := by
        simpa using h0
      simp only [search, h0b, List.head?_nil]
      apply ih i (pos + 1) m (by simpa using hi)
      · intro j hj
        have := hbefore (j + 1) (by omega)
        simpa [Nat.add_assoc, Nat.add_comm 1 j] using this
      · simpa [Nat.add_assoc, Nat.add_comm 1 i] using hm

end Regexp

/-! ## TrySplitDIDUrl is total -/

namespace Utils

open Regexp

theorem SplitDIDURL_matches_empty (pos : Nat) :
    (Re.group 0 SplitDIDURL.tree).run { pos := pos, rest := [], caps := [] } ≠ [] := by
  simp [SplitDIDURL, Re.run, repeatGreedy]

/-- The four results of TrySplitDIDUrl are the groups 1, 2, 4 and 6 of the thread that the
search returns. -/
theorem TrySplitDIDUrl_eq (didUrl : String) :
    TrySplitDIDUrl didUrl =
      (search (.group 0 SplitDIDURL.tree) 0 didUrl.toList).map (fun t =>
        (String.mk ((List.lookup 1 t.caps).getD []), String.mk ((List.lookup 2 t.caps).getD []),
          String.mk ((List.lookup 4 t.caps).getD []),
          String.mk ((List.lookup 6 t.caps).getD []))) := by
  unfold TrySplitDIDUrl Regexp.FindStringSubmatch
  cases search (.group 0 SplitDIDURL.tree) 0 didUrl.toList with
  | none => rfl
  | some t => rfl

/-- C22: for every string the pattern SplitDIDURL has a match, FindStringSubmatch returns
the seven texts of the match and its six groups, and TrySplitDIDUrl returns four strings;
so it does for the empty string, for a string with two '#' and for a string that ends in
'#'. -/
theorem split_is_total (didUrl : String) :
    (∃ m, SplitDIDURL.FindStringSubmatch didUrl = some m ∧ m.length = 7) ∧
    (∃ did path query fragment, TrySplitDIDUrl didUrl = some (did, path, query, fragment)) ∧
    TrySplitDIDUrl "" = some ("", "", "", "") ∧
    TrySplitDIDUrl "a#b#c" = some ("b", "", "", "c") ∧
    TrySplitDIDUrl "a#" = some ("", "", "", "") := by
  have hsome := search_isSome (.group 0 SplitDIDURL.tree) SplitDIDURL_matches_empty
    didUrl.toList 0
  obtain ⟨t, ht⟩ := Option.isSome_iff_exists.mp hsome
  refine ⟨?_, ?_, by rfl, by rfl, by rfl⟩
  · unfold Regexp.FindStringSubmatch
    rw [ht]
    exact ⟨_, rfl, by simp [SplitDIDURL]⟩
  · rw [TrySplitDIDUrl_eq, ht]
    exact ⟨_, _, _, _, rfl⟩

end Utils

/-! ## What the trees consume -/

namespace Regexp

theorem run_cat (a b : Re) (t : Thread) : (Re.cat a b).run t = (a.run t).flatMap b.run := by
  rw [Re.run]

theorem run_alt (a b : Re) (t : Thread) : (Re.alt a b).run t = a.run t ++ b.run t := by
  rw [Re.run]

theorem run_star (a : Re) (t : Thread) :
    (Re.star a).run t = repeatGreedy a.run t.rest.length t := by
  rw [Re.run]

theorem run_plus (a : Re) (t : Thread) :
    (Re.plus a).run t = (a.run t).flatMap (fun u => repeatGreedy a.run u.rest.length u) := by
  rw [Re.run]

theorem run_opt (a : Re) (t : Thread) : (Re.opt a).run t = a.run t ++ [t] := by
  rw [Re.run]

theorem run_group (index : Nat) (a : Re) (t : Thread) :
    (Re.group index a).run t = (a.run t).map (fun u =>
      { u with caps := (index, t.rest.take (t.rest.length - u.rest.length)) :: u.caps }) := by
  rw [Re.run]

theorem run_bot (t : Thread) : Re.bot.run t = if t.pos = 0 then [t] else [] := by
  rw [Re.run]

theorem run_eot (t : Thread) : Re.eot.run t = if t.rest = [] then [t] else [] := by
  rw [Re.run]

theorem run_lit_cons (c x : Char) (pos : Nat) (rest : List Char) (caps : List (Nat × List Char)) :
    (Re.lit c).run { pos := pos, rest := x :: rest, caps := caps } =
      if x = c then [{ pos := pos + 1, rest := rest, caps := caps }] else [] := by
  rw [Re.run]

theorem run_lit_nil (c : Char) (pos : Nat) (caps : List (Nat × List Char)) :
    (Re.lit c).run { pos := pos, rest := [], caps := caps } = [] := by
  rw [Re.run]

theorem run_cls_cons (allowed : Char → Bool) (x : Char) (pos : Nat) (rest : List Char)
    (caps : List (Nat × List Char)) :
    (Re.cls allowed).run { pos := pos, rest := x :: rest, caps := caps } =
      if allowed x then [{ pos := pos + 1, rest := rest, caps := caps }] else [] := by
  rw [Re.run]

theorem run_cls_nil (allowed : Char → Bool) (pos : Nat) (caps : List (Nat × List Char)) :
    (Re.cls allowed).run { pos := pos, rest := [], caps := caps } = [] := by
  rw [Re.run]

theorem consumes_mono {re : Re} {S S' : List Char → Prop} (h : Consumes re S)
    (hs : ∀ u, S u → S' u) : Consumes re S' := by
  intro t m hm
  obtain ⟨u, hu, su⟩ := h t m hm
  exact ⟨u, hu, hs u su⟩

theorem consumes_lit (c : Char) : Consumes (.lit c) (fun u => u = [c]) := by
  intro t m hm
  obtain ⟨pos, rest, caps⟩ := t
  cases rest with
  | nil => rw [run_lit_nil] at hm; cases hm
  | cons x rest =>
    rw [run_lit_cons] at hm
    split_ifs at hm with hx
    · simp only [List.mem_singleton] at hm
      subst hm
      exact ⟨[c], by simp [hx], rfl⟩
    · cases hm

theorem consumes_cls (allowed : Char → Bool) :
    Consumes (.cls allowed) (fun u => ∃ c, u = [c] ∧ allowed c = true) := by
  intro t m hm
  obtain ⟨pos, rest, caps⟩ := t
  cases rest with
  | nil => rw [run_cls_nil] at hm; cases hm
  | cons x rest =>
    rw [run_cls_cons] at hm
    split_ifs at hm with hx
    · simp only [List.mem_singleton] at hm
      subst hm
      exact ⟨[x], by simp, x, rfl, hx⟩
    · cases hm

theorem consumes_cat {a b : Re} {S1 S2 S : List Char → Prop} (ha : Consumes a S1)
    (hb : Consumes b S2) (h : ∀ u v, S1 u → S2 v → S (u ++ v)) : Consumes (.cat a b) S := by
  intro t m hm
  rw [run_cat, List.mem_flatMap] at hm
  obtain ⟨x, hx, hmx⟩ := hm
  obtain ⟨u, hu, su⟩ := ha t x hx
  obtain ⟨v, hv, sv⟩ := hb x m hmx
  exact ⟨u ++ v, by rw [hu, hv, List.append_assoc], h u v su sv⟩

theorem consumes_alt {a b : Re} {S : List Char → Prop} (ha : Consumes a S)
    (hb : Consumes b S) : Consumes (.alt a b) S := by
  intro t m hm
  rw [run_alt, List.mem_append] at hm
  rcases hm with hm | hm
  · exact ha t m hm
  · exact hb t m hm

theorem consumes_star {a : Re} {S : List Char → Prop} (hnil : S [])
    (happend : ∀ u v, S u → S v → S (u ++ v)) (ha : Consumes a S) : Consumes (.star a) S := by
  intro t m hm
  rw [run_star] at hm
  exact repeatGreedy_consumes a.run S hnil happend ha _ t m hm

theorem consumes_plus {a : Re} {S : List Char → Prop} (hnil : S [])
    (happend : ∀ u v, S u → S v → S (u ++ v)) (ha : Consumes a S) : Consumes (.plus a) S := by
  intro t m hm
  rw [run_plus, List.mem_flatMap] at hm
  obtain ⟨x, hx, hmx⟩ := hm
  obtain ⟨u, hu, su⟩ := ha t x hx
  obtain ⟨v, hv, sv⟩ := repeatGreedy_consumes a.run S hnil happend ha _ x m hmx
  exact ⟨u ++ v, by rw [hu, hv, List.append_assoc], happend u v su sv⟩

theorem consumes_opt {a : Re} {S : List Char → Prop} (hnil : S []) (ha : Consumes a S) :
    Consumes (.opt a) S := by
  intro t m hm
  rw [run_opt, List.mem_append, List.mem_singleton] at hm
  rcases hm with hm | rfl
  · exact ha t m hm
  · exact ⟨[], rfl, hnil⟩

theorem consumes_group (index : Nat) {a : Re} {S : List Char → Prop} (ha : Consumes a S) :
    Consumes (.group index a) S := by
  intro t m hm
  rw [run_group, List.mem_map] at hm
  obtain ⟨x, hx, rfl⟩ := hm
  exact ha t x hx

theorem mem_run_eot (t m : Thread) (hm : m ∈ Re.eot.run t) : m = t ∧ t.rest = [] := by
  rw [run_eot] at hm
  split_ifs at hm with h
  · exact ⟨by simpa using hm, h⟩
  · cases hm

theorem mem_run_star_single (a : Re) (t u : Thread) (hu : u ∈ a.run t)
    (hlt : u.rest.length < t.rest.length) : u ∈ (Re.star a).run t := by
  apply mem_run_star_of_step a t u u hu hlt
  rw [run_star]
  exact mem_repeatGreedy_self _ _ _

end Regexp

/-! ## The segment grammar of ValidatePath, ValidateQuery and ValidateFragment -/

namespace Regexp

theorem mem_run_group (index : Nat) (a : Re) (t u : Thread) (hu : u ∈ a.run t) :
    ∃ v, v ∈ (Re.group index a).run t ∧ v.rest = u.rest := by
  have h : ({ u with caps := (index, t.rest.take (t.rest.length - u.rest.length)) :: u.caps }
      : Thread) ∈ (Re.group index a).run t := by
    rw [run_group, List.mem_map]
    exact ⟨u, hu, rfl⟩
  exact ⟨_, h, rfl⟩

/-- A pattern that begins with `^` has no match that starts after the first position. -/
theorem search_anchored (X : Re) :
    ∀ (text : List Char) (pos : Nat), 0 < pos →
      search (.group 0 (.cat .bot X)) pos text = none := by
  intro text
  induction text with
  | nil =>
    intro pos hpos
    have h0 : pos ≠ 0 := by omega
    simp [search, run_group, run_cat, run_bot, h0]
  | cons c rest ih =>
    intro pos hpos
    have h0 : pos ≠ 0 := by omega
    simp only [search, run_group, run_cat, run_bot, h0, if_false, List.flatMap_nil,
      List.map_nil, List.head?_nil]
    exact ih (pos + 1) (by omega)

theorem search_anchored_zero (X : Re) (text : List Char) :
    search (.group 0 (.cat .bot X)) 0 text =
      ((Re.group 0 (.cat .bot X)).run { pos := 0, rest := text, caps := [] }).head? := by
  cases text with
  | nil => simp only [search]
  | cons c rest =>
    simp only [search]
    cases h : ((Re.group 0 (.cat .bot X)).run { pos := 0, rest := c :: rest, caps := [] }).head? with
    | some t => rfl
    | none => exact search_anchored X rest 1 (by omega)

end Regexp

namespace Utils

open Regexp

theorem Segments_append {allowed : Char → Bool} {u v : List Char} (hu : Segments allowed u)
    (hv : Segments allowed v) : Segments allowed (u ++ v) := by
  induction hu with
  | nil => exact hv
  | char c rest hc _ ih => exact Segments.char c _ hc ih
  | octet high low rest hhigh hlow _ ih => exact Segments.octet high low _ hhigh hlow ih

theorem consumes_octet :
    Consumes (.cat (.lit '%') (.cat (.cls hexDigit) (.cls hexDigit)))
      (fun u => ∃ high low, u = ['%', high, low] ∧ hexDigit high = true ∧
        hexDigit low = true) := by
  refine consumes_cat (consumes_lit '%') (consumes_cat (consumes_cls _) (consumes_cls _)
    (S := fun v => ∃ high low, v = [high, low] ∧ hexDigit high = true ∧ hexDigit low = true)
    ?_) ?_
  · rintro u v ⟨high, rfl, hhigh⟩ ⟨low, rfl, hlow⟩
    exact ⟨high, low, rfl, hhigh, hlow⟩
  · rintro u v rfl ⟨high, low, rfl, hhigh, hlow⟩
    exact ⟨high, low, rfl, hhigh, hlow⟩

/-- The repeated group of a segment pattern consumes segments only. -/
theorem consumes_segments (allowed : Char → Bool) :
    Consumes
      (.star (.group 1
        (.alt (.star (.cls allowed))
          (.star (.group 2 (.cat (.lit '%') (.cat (.cls hexDigit) (.cls hexDigit))))))))
      (Segments allowed) := by
  apply consumes_star Segments.nil (fun u v => Segments_append)
  apply consumes_group
  apply consumes_alt
  · apply consumes_star Segments.nil (fun u v => Segments_append)
    refine consumes_mono (consumes_cls allowed) ?_
    rintro u ⟨c, rfl, hc⟩
    exact Segments.char c [] hc Segments.nil
  · apply consumes_star Segments.nil (fun u v => Segments_append)
    apply consumes_group
    refine consumes_mono consumes_octet ?_
    rintro u ⟨high, low, rfl, hhigh, hlow⟩
    exact Segments.octet high low [] hhigh hlow Segments.nil

/-- The repeated group of a segment pattern can consume every text made of segments. -/
theorem segments_matched (allowed : Char → Bool) (w : List Char) (h : Segments allowed w) :
    ∀ t : Thread, t.rest = w →
      ∃ m, m ∈ (Re.star (.group 1
        (.alt (.star (.cls allowed))
          (.star (.group 2 (.cat (.lit '%') (.cat (.cls hexDigit) (.cls hexDigit)))))))).run t ∧
        m.rest = [] := by
  induction h with
  | nil =>
    intro t ht
    exact ⟨t, by rw [run_star]; exact mem_repeatGreedy_self _ _ _, ht⟩
  | char c rest hc _ ih =>
    intro t ht
    obtain ⟨pos, r, caps⟩ := t
    simp only at ht
    subst ht
    have h0 : ({ pos := pos + 1, rest := rest, caps := caps } : Thread) ∈
        (Re.star (.cls allowed)).run { pos := pos, rest := c :: rest, caps := caps } := by
      apply mem_run_star_single
      · rw [run_cls_cons, if_pos hc]
        exact List.mem_singleton.mpr rfl
      · simp
    obtain ⟨v, hv, hrest⟩ := mem_run_group 1 _ _ _
      (show _ ∈ (Re.alt (.star (.cls allowed))
          (.star (.group 2 (.cat (.lit '%') (.cat (.cls hexDigit) (.cls hexDigit)))))).run _
        from by rw [run_alt]; exact List.mem_append.mpr (Or.inl h0))
    obtain ⟨m, hm, hr⟩ := ih v hrest
    exact ⟨m, mem_run_star_of_step _ _ v m hv (by rw [hrest]; simp) hm, hr⟩
  | octet high low rest hhigh hlow _ ih =>
    intro t ht
    obtain ⟨pos, r, caps⟩ := t
    simp only at ht
    subst ht
    have h0 : ({ pos := pos + 1 + 1 + 1, rest := rest, caps := caps } : Thread) ∈
        (Re.cat (.lit '%') (.cat (.cls hexDigit) (.cls hexDigit))).run
          { pos := pos, rest := '%' :: high :: low :: rest, caps := caps } := by
      simp [run_cat, run_lit_cons, run_cls_cons, hhigh, hlow]
    obtain ⟨v2, hv2, hrest2⟩ := mem_run_group 2 _ _ _ h0
    have h1 : v2 ∈ (Re.star (.group 2
        (.cat (.lit '%') (.cat (.cls hexDigit) (.cls hexDigit))))).run
          { pos := pos, rest := '%' :: high :: low :: rest, caps := caps } := by
      apply mem_run_star_single _ _ _ hv2
      rw [hrest2]
      simp
      omega
    obtain ⟨v, hv, hrest⟩ := mem_run_group 1 _ _ _
      (show _ ∈ (Re.alt (.star (.cls allowed))
          (.star (.group 2 (.cat (.lit '%') (.cat (.cls hexDigit) (.cls hexDigit)))))).run _
        from by rw [run_alt]; exact List.mem_append.mpr (Or.inr h1))
    obtain ⟨m, hm, hr⟩ := ih v (hrest.trans hrest2)
    exact ⟨m, mem_run_star_of_step _ _ v m hv (by rw [hrest, hrest2]; simp; omega) hm, hr⟩

/-- A segment pattern matches exactly the texts made of segments. -/
theorem search_segmentTree (allowed : Char → Bool) (text : List Char) :
    (search (.group 0 (segmentTree allowed)) 0 text).isSome = true ↔
      Segments allowed text := by
  unfold segmentTree
  rw [search_anchored_zero, run_group, run_cat, run_bot, if_pos rfl]
  simp only [List.flatMap_cons, List.flatMap_nil, List.append_nil, List.head?_map,
    Option.isSome_map', List.head?_isSome]
  constructor
  · intro hne
    obtain ⟨m, hm⟩ := List.exists_mem_of_ne_nil _ hne
    rw [run_cat, List.mem_flatMap] at hm
    obtain ⟨u, hu, hmu⟩ := hm
    obtain ⟨w, hw, sw⟩ := consumes_segments allowed _ u hu
    obtain ⟨_, hend⟩ := mem_run_eot u m hmu
    simp only [hend, List.append_nil] at hw
    rw [hw]
    exact sw
  · intro hseg
    obtain ⟨m, hm, hr⟩ := segments_matched allowed text hseg
      { pos := 0, rest := text, caps := [] } rfl
    apply List.ne_nil_of_mem (a := m)
    rw [run_cat, List.mem_flatMap]
    exact ⟨m, hm, by rw [run_eot, if_pos hr]; exact List.mem_singleton.mpr rfl⟩

theorem ValidatePath_eq_none (s : String) :
    ValidatePath s = none ↔ Segments pathChar s.toList := by
  rw [← search_segmentTree]
  unfold ValidatePath Regexp.MatchString
  simp [DIDPathAbemptyRegexp, Option.isSome_iff_ne_none]

theorem ValidateQuery_eq_none (s : String) :
    ValidateQuery s = none ↔ Segments queryChar s.toList := by
  rw [← search_segmentTree]
  unfold ValidateQuery Regexp.MatchString
  simp [DIDQueryRegexp, Option.isSome_iff_ne_none]

theorem ValidateFragment_eq_none (s : String) :
    ValidateFragment s = none ↔ Segments queryChar s.toList := by
  rw [← search_segmentTree]
  unfold ValidateFragment Regexp.MatchString
  simp [DIDFragmentRegexp, Option.isSome_iff_ne_none]

end Utils

namespace Utils

open Regexp

theorem pathChar_iff (c : Char) :
    pathChar c = true ↔
      (c = '/' ∨ c.isAlpha = true ∨ c.isDigit = true ∨
        c ∈ ['-', '.', '_', '~', '!', '$', '&', Char.ofNat 39, '(', ')', '*', '+', ',', ';',
          '=', ':', '@']) := by
  simp only [pathChar, inRange, Char.isAlpha, Char.isUpper, Char.isLower, Char.isDigit,
    Bool.or_eq_true, Bool.and_eq_true, decide_eq_true_eq, beq_iff_eq, List.elem_eq_mem,
    List.contains, Char.le_def, ge_iff_le]
  have ha : 'a'.val = 97 := rfl
  have hz : 'z'.val = 122 := rfl
  have hA : 'A'.val = 65 := rfl
  have hZ : 'Z'.val = 90 := rfl
  have h0 : '0'.val = 48 := rfl
  have h9 : '9'.val = 57 := rfl
  rw [ha, hz, hA, hZ, h0, h9]
  tauto

theorem queryChar_iff (c : Char) : queryChar c = true ↔ (pathChar c = true ∨ c = '?') := by
  simp only [queryChar, Bool.or_eq_true, beq_iff_eq]
  constructor
  · rintro ((h | h) | h)
    · exact Or.inl h
    · exact Or.inl (by rw [h]; rfl)
    · exact Or.inr h
  · rintro (h | h)
    · exact Or.inl (Or.inl h)
    · exact Or.inr h

theorem Segments_percent {allowed : Char → Bool} (hp : allowed '%' = false) {w : List Char}
    (h : Segments allowed w) :
    ∀ before after, w = before ++ '%' :: after →
      ∃ high low rest, after = high :: low :: rest ∧ hexDigit high = true ∧
        hexDigit low = true := by
  induction h with
  | nil =>
    intro before after e
    cases before <;> simp at e
  | char c rest hc _ ih =>
    intro before after e
    cases before with
    | nil =>
      simp only [List.nil_append, List.cons.injEq] at e
      rw [e.1, hp] at hc
      cases hc
    | cons b bs =>
      simp only [List.cons_append, List.cons.injEq] at e
      exact ih bs after e.2
  | octet high low rest hhigh hlow _ ih =>
    intro before after e
    have hx : hexDigit '%' = false := by decide
    cases before with
    | nil =>
      simp only [List.nil_append, List.cons.injEq, true_and] at e
      exact ⟨high, low, rest, e.symm, hhigh, hlow⟩
    | cons b bs =>
      cases bs with
      | nil =>
        simp only [List.cons_append, List.nil_append, List.cons.injEq] at e
        rw [e.2.1, hx] at hhigh
        cases hhigh
      | cons b2 bs =>
        cases bs with
        | nil =>
          simp only [List.cons_append, List.nil_append, List.cons.injEq] at e
          rw [e.2.2.1, hx] at hlow
          cases hlow
        | cons b3 bs =>
          simp only [List.cons_append, List.cons.injEq] at e
          exact ih bs after e.2.2.2

end Utils

namespace Utils

open Regexp

/-- C25: ValidatePath succeeds exactly on the concatenations of single characters of the
set '/', letters, digits, - . _ ~ ! $ & ' ( ) * + , ; = : @ and of percent-encoded octets;
ValidateQuery and ValidateFragment succeed exactly on such concatenations over that set
extended with '?'; and a string with a '%' that is not followed by two hexadecimal digits
is rejected by all three. -/
theorem segment_grammar (s : String) :
    (ValidatePath s = none ↔ Segments pathChar s.toList) ∧
    (ValidateQuery s = none ↔ Segments queryChar s.toList) ∧
    (ValidateFragment s = none ↔ Segments queryChar s.toList) ∧
    (∀ c, pathChar c = true ↔
      (c = '/' ∨ c.isAlpha = true ∨ c.isDigit = true ∨
        c ∈ ['-', '.', '_', '~', '!', '$', '&', Char.ofNat 39, '(', ')', '*', '+', ',', ';',
          '=', ':', '@'])) ∧
    (∀ c, queryChar c = true ↔ (pathChar c = true ∨ c = '?')) ∧
    (∀ before after, s.toList = before ++ '%' :: after →
      (¬ ∃ high low rest, after = high :: low :: rest ∧ hexDigit high = true ∧
        hexDigit low = true) →
      ValidatePath s ≠ none ∧ ValidateQuery s ≠ none ∧ ValidateFragment s ≠ none) := by
  refine ⟨ValidatePath_eq_none s, ValidateQuery_eq_none s, ValidateFragment_eq_none s,
    pathChar_iff, queryChar_iff, ?_⟩
  intro before after hs hnot
  refine ⟨?_, ?_, ?_⟩
  · intro h
    exact hnot (Segments_percent (by decide) ((ValidatePath_eq_none s).mp h) before after hs)
  · intro h
    exact hnot (Segments_percent (by decide) ((ValidateQuery_eq_none s).mp h) before after hs)
  · intro h
    exact hnot
      (Segments_percent (by decide) ((ValidateFragment_eq_none s).mp h) before after hs)

theorem segment_grammar_witness :
    "/a%2".toList = ['/', 'a'] ++ '%' :: ['2'] ∧
    (¬ ∃ high low rest, ['2'] = high :: low :: rest ∧ hexDigit high = true ∧
      hexDigit low = true) ∧
    ValidatePath "/a%2" ≠ none ∧ ValidateQuery "/a%2" ≠ none ∧
    ValidateFragment "/a%2" ≠ none ∧
    ValidatePath "/a%20b" = none ∧ ValidatePath "a?b" ≠ none ∧ ValidateQuery "a?b" = none :=
  ⟨rfl, (by rintro ⟨high, low, rest, h, _⟩; cases h),
    ((segment_grammar "/a%2").2.2.2.2.2 ['/', 'a'] ['2'] rfl
      (by rintro ⟨high, low, rest, h, _⟩; cases h)).1,
    ((segment_grammar "/a%2").2.2.2.2.2 ['/', 'a'] ['2'] rfl
      (by rintro ⟨high, low, rest, h, _⟩; cases h)).2.1,
    ((segment_grammar "/a%2").2.2.2.2.2 ['/', 'a'] ['2'] rfl
      (by rintro ⟨high, low, rest, h, _⟩; cases h)).2.2,
    (by decide), (by decide), (by decide)⟩

end Utils

/-! ## The first thread of a run -/

namespace Regexp

theorem head?_flatMap_of_head? {α β : Type} (l : List α) (f : α → List β) (x : α) (y : β)
    (hx : l.head? = some x) (hy : (f x).head? = some y) : (l.flatMap f).head? = some y := by
  cases l with
  | nil => cases hx
  | cons a l =>
    simp only [List.head?_cons, Option.some.injEq] at hx
    subst hx
    rw [List.flatMap_cons]
    cases hfx : f a with
    | nil => rw [hfx] at hy; cases hy
    | cons b bs =>
      rw [hfx] at hy
      simpa using hy

theorem head_cat (a b : Re) (t u m : Thread) (hu : (a.run t).head? = some u)
    (hm : (b.run u).head? = some m) : ((Re.cat a b).run t).head? = some m := by
  rw [run_cat]
  exact head?_flatMap_of_head? _ _ u m hu hm

theorem head_group (index : Nat) (a : Re) (t u : Thread) (hu : (a.run t).head? = some u) :
    ((Re.group index a).run t).head? =
      some { u with caps := (index, t.rest.take (t.rest.length - u.rest.length)) :: u.caps } := by
  rw [run_group, List.head?_map, hu]
  rfl

theorem head_opt_some (a : Re) (t u : Thread) (hu : (a.run t).head? = some u) :
    ((Re.opt a).run t).head? = some u := by
  rw [run_opt]
  cases h : a.run t with
  | nil => rw [h] at hu; cases hu
  | cons x xs =>
    rw [h] at hu
    simpa using hu

theorem head_opt_none (a : Re) (t : Thread) (h : a.run t = []) :
    ((Re.opt a).run t).head? = some t := by
  rw [run_opt, h]
  rfl

theorem run_group_nil (index : Nat) (a : Re) (t : Thread) (h : a.run t = []) :
    (Re.group index a).run t = [] := by
  rw [run_group, h]
  rfl

theorem run_cat_nil (a b : Re) (t : Thread) (h : a.run t = []) :
    (Re.cat a b).run t = [] := by
  rw [run_cat, h]
  rfl

/-- A greedy repetition of a class first takes the longest run of characters of the
class. -/
theorem head_repeat_cls (allowed : Char → Bool) :
    ∀ (w : List Char) (fuel pos : Nat) (caps : List (Nat × List Char)), w.length ≤ fuel →
      (repeatGreedy (Re.cls allowed).run fuel { pos := pos, rest := w, caps := caps }).head? =
        some { pos := pos + (w.takeWhile allowed).length, rest := w.dropWhile allowed,
               caps := caps } := by
  intro w
  induction w with
  | nil =>
    intro fuel pos caps _
    cases fuel with
    | zero => simp [repeatGreedy]
    | succ fuel => simp [repeatGreedy, run_cls_nil]
  | cons c w ih =>
    intro fuel pos caps hfuel
    cases fuel with
    | zero => simp at hfuel
    | succ fuel =>
      have hlen : w.length ≤ fuel := by simpa using hfuel
      rw [repeatGreedy, run_cls_cons]
      by_cases hc : allowed c = true
      · have h := ih fuel (pos + 1) caps hlen
        simp only [hc, if_true, List.filter_cons, List.length_cons, Nat.lt_succ_self,
          decide_True, List.filter_nil, List.flatMap_cons, List.flatMap_nil, List.append_nil,
          List.takeWhile_cons, List.dropWhile_cons]
        cases hrep : repeatGreedy (Re.cls allowed).run fuel
            { pos := pos + 1, rest := w, caps := caps } with
        | nil => rw [hrep] at h; cases h
        | cons x xs =>
          rw [hrep] at h
          simp only [List.head?_cons, Option.some.injEq] at h
          simp only [List.cons_append, List.head?_cons, Option.some.injEq, h,
            Thread.mk.injEq, and_true, true_and]
          omega
      · simp [hc]

theorem head_star_cls (allowed : Char → Bool) (w : List Char) (pos : Nat)
    (caps : List (Nat × List Char)) :
    ((Re.star (.cls allowed)).run { pos := pos, rest := w, caps := caps }).head? =
      some { pos := pos + (w.takeWhile allowed).length, rest := w.dropWhile allowed,
             caps := caps } := by
  rw [run_star]
  exact head_repeat_cls allowed w _ pos caps (Nat.le_refl _)

theorem head_plus_cls (allowed : Char → Bool) (c : Char) (w : List Char) (pos : Nat)
    (caps : List (Nat × List Char)) (hc : allowed c = true) :
    ((Re.plus (.cls allowed)).run { pos := pos, rest := c :: w, caps := caps }).head? =
      some { pos := pos + 1 + (w.takeWhile allowed).length, rest := w.dropWhile allowed,
             caps := caps } := by
  rw [run_plus, run_cls_cons, if_pos hc]
  simp only [List.flatMap_cons, List.flatMap_nil, List.append_nil]
  exact head_repeat_cls allowed w _ (pos + 1) caps (Nat.le_refl _)

theorem take_sub_dropWhile (allowed : Char → Bool) (w : List Char) :
    w.take (w.length - (w.dropWhile allowed).length) = w.takeWhile allowed := by
  have h : ∀ u v : List Char, (u ++ v).take ((u ++ v).length - v.length) = u := by
    intro u v
    simp
  have h2 := h (w.takeWhile allowed) (w.dropWhile allowed)
  rw [List.takeWhile_append_dropWhile] at h2
  exact h2

/-- A group around a greedy repetition of a class captures the longest run of characters
of the class. -/
theorem head_group_star_cls (index : Nat) (allowed : Char → Bool) (w : List Char) (pos : Nat)
    (caps : List (Nat × List Char)) :
    ((Re.group index (.star (.cls allowed))).run
        { pos := pos, rest := w, caps := caps }).head? =
      some { pos := pos + (w.takeWhile allowed).length, rest := w.dropWhile allowed,
             caps := (index, w.takeWhile allowed) :: caps } := by
  rw [head_group index _ _ _ (head_star_cls allowed w pos caps)]
  simp only [take_sub_dropWhile]

end Regexp

/-! ## The texts that SplitDIDURL matches from the first to the last character -/

namespace Regexp

theorem consumes_eot : Consumes .eot (fun u => u = []) := by
  intro t m hm
  obtain ⟨rfl, _⟩ := mem_run_eot t m hm
  exact ⟨[], rfl, rfl⟩

theorem consumes_plus_cls (allowed : Char → Bool) :
    Consumes (.plus (.cls allowed)) (fun u => u ≠ [] ∧ ∀ c ∈ u, allowed c = true) := by
  intro t m hm
  rw [run_plus, List.mem_flatMap] at hm
  obtain ⟨x, hx, hmx⟩ := hm
  obtain ⟨u, hu, c, rfl, hc⟩ := consumes_cls allowed t x hx
  obtain ⟨v, hv, sv⟩ := repeatGreedy_consumes (Re.cls allowed).run
    (fun u => ∀ c ∈ u, allowed c = true) (by simp)
    (by
      intro u v hu hv c hcm
      rcases List.mem_append.mp hcm with h | h
      · exact hu c h
      · exact hv c h)
    (by
      intro t m hm
      obtain ⟨u, hu, c, rfl, hc⟩ := consumes_cls allowed t m hm
      exact ⟨[c], hu, by simpa using hc⟩) _ x m hmx
  refine ⟨[c] ++ v, by rw [hu, hv, List.append_assoc], by simp, ?_⟩
  intro d hd
  rcases List.mem_append.mp hd with h | h
  · rw [List.mem_singleton.mp h]
    exact hc
  · exact sv d h

end Regexp

namespace Utils

open Regexp

theorem ne_hash_of_noneOf (excluded : List Char) (hmem : '#' ∈ excluded) (c : Char)
    (hc : noneOf excluded c = true) : c ≠ '#' := by
  rintro rfl
  simp [noneOf, hmem] at hc

theorem noneOf_hash_of_not_mem (u : List Char) (hu : '#' ∉ u) :
    ∀ c ∈ u, noneOf ['#'] c = true := by
  intro c hc
  have : c ≠ '#' := by
    rintro rfl
    exact hu hc
  simp [noneOf, this]

theorem consumes_star_noneOf (excluded : List Char) (hmem : '#' ∈ excluded) :
    Consumes (.star (.cls (noneOf excluded))) (fun u => '#' ∉ u) := by
  apply consumes_star (by simp)
  · intro u v hu hv h
    rcases List.mem_append.mp h with h | h
    · exact hu h
    · exact hv h
  · refine consumes_mono (consumes_cls _) ?_
    rintro u ⟨c, rfl, hc⟩ h
    exact ne_hash_of_noneOf excluded hmem c hc (List.mem_singleton.mp h).symm

theorem wellFormed_of_parts (u v : List Char) (hu : '#' ∉ u)
    (hv : v = [] ∨ ∃ f, v = '#' :: f ∧ f ≠ [] ∧ '#' ∉ f) : wellFormed (u ++ v) = true := by
  have cu : u.count '#' = 0 := List.count_eq_zero.mpr hu
  rcases hv with rfl | ⟨f, rfl, hne, hf⟩
  · simp [wellFormed, cu]
  · have cf : f.count '#' = 0 := List.count_eq_zero.mpr hf
    obtain ⟨x, hx⟩ : ∃ x, (u ++ '#' :: f).getLast? = some x ∧ x ∈ f := by
      cases f with
      | nil => exact absurd rfl hne
      | cons y ys =>
        refine ⟨(y :: ys).getLast (by simp), ?_, List.getLast_mem _⟩
        rw [List.getLast?_append, List.getLast?_cons_cons, List.getLast?_eq_getLast _ (by simp)]
        rfl
    have hxne : x ≠ '#' := by
      rintro rfl
      exact hf hx.2
    simp [wellFormed, List.count_append, cu, cf, hx.1, hxne]

theorem wellFormed_split (u f : List Char) (hu : '#' ∉ u)
    (hw : wellFormed (u ++ '#' :: f) = true) : f ≠ [] ∧ '#' ∉ f := by
  have cu : u.count '#' = 0 := List.count_eq_zero.mpr hu
  simp only [wellFormed, List.count_append, cu, List.count_cons_self, Nat.zero_add,
    Bool.or_eq_true, beq_iff_eq, Bool.and_eq_true, bne_iff_ne, ne_eq] at hw
  rcases hw with hw | ⟨hc, hlast⟩
  · omega
  · constructor
    · rintro rfl
      exact hlast (by simp)
    · exact List.count_eq_zero.mp (by omega)

/-- Whatever the pattern SplitDIDURL matches up to the end of the text holds no '#', or one
'#' that is not its last character. -/
theorem wellFormed_of_run (t m : Thread) (hm : m ∈ SplitDIDURL.tree.run t) :
    wellFormed t.rest = true := by
  simp only [SplitDIDURL] at hm
  rw [run_cat, List.mem_flatMap] at hm
  obtain ⟨a, ha, hm⟩ := hm
  rw [run_cat, List.mem_flatMap] at hm
  obtain ⟨b, hb, hm⟩ := hm
  rw [run_cat, List.mem_flatMap] at hm
  obtain ⟨c, hc, hm⟩ := hm
  rw [run_cat, List.mem_flatMap] at hm
  obtain ⟨e, he, hm⟩ := hm
  obtain ⟨_, hend⟩ := mem_run_eot e m hm
  obtain ⟨u1, h1, s1⟩ :=
    consumes_opt (S := fun u => '#' ∉ u) (by simp)
      (consumes_group 1 (consumes_star_noneOf _ (by simp))) t a ha
  obtain ⟨u2, h2, s2⟩ := consumes_group 2 (consumes_star_noneOf _ (by simp)) a b hb
  obtain ⟨u3, h3, s3⟩ :=
    consumes_opt (S := fun u => '#' ∉ u) (by simp)
      (consumes_group 3
        (consumes_cat (consumes_lit '?') (consumes_group 4 (consumes_star_noneOf _ (by simp)))
          (by
            rintro u v rfl hv h
            rcases List.mem_append.mp h with h | h
            · simp at h
            · exact hv h))) b c hc
  obtain ⟨v, h4, s4⟩ :=
    consumes_opt (S := fun v => v = [] ∨ ∃ f, v = '#' :: f ∧ f ≠ [] ∧ '#' ∉ f) (Or.inl rfl)
      (consumes_group 5
        (consumes_cat (consumes_lit '#')
          (consumes_group 6
            (consumes_cat (consumes_plus_cls _) consumes_eot
              (S := fun f => f ≠ [] ∧ '#' ∉ f)
              (by
                rintro u v ⟨hne, hall⟩ rfl
                refine ⟨by simpa using hne, ?_⟩
                intro h
                rw [List.append_nil] at h
                exact ne_hash_of_noneOf _ (by simp) _ (hall _ h) rfl)))
          (by
            rintro u v rfl ⟨hne, hall⟩
            exact Or.inr ⟨v, rfl, hne, hall⟩))) c e he
  have hrest : t.rest = (u1 ++ u2 ++ u3) ++ v := by
    rw [h1, h2, h3, h4, hend]
    simp
  rw [hrest]
  apply wellFormed_of_parts _ _ _ s4
  intro h
  rcases List.mem_append.mp h with h | h
  · rcases List.mem_append.mp h with h | h
    · exact s1 h
    · exact s2 h
  · exact s3 h

theorem run_SplitDIDURL_nil (pos : Nat) (w : List Char) (hw : wellFormed w = false) :
    (Re.group 0 SplitDIDURL.tree).run { pos := pos, rest := w, caps := [] } = [] := by
  apply run_group_nil
  cases h : SplitDIDURL.tree.run { pos := pos, rest := w, caps := [] } with
  | nil => rfl
  | cons m ms =>
    have hm : m ∈ SplitDIDURL.tree.run { pos := pos, rest := w, caps := [] } := by
      rw [h]
      exact List.mem_cons_self _ _
    have := wellFormed_of_run _ m hm
    simp only [hw] at this
    cases this

end Utils

/-! ## The first match of SplitDIDURL on a well-formed text -/

namespace Utils

open Regexp

theorem dropWhile_head_false (allowed : Char → Bool) :
    ∀ (l : List Char) (c : Char) (r : List Char), l.dropWhile allowed = c :: r →
      allowed c = false := by
  intro l
  induction l with
  | nil => intro c r h; cases h
  | cons x xs ih =>
    intro c r h
    rw [List.dropWhile_cons] at h
    by_cases hx : allowed x = true
    · rw [if_pos hx] at h
      exact ih c r h
    · rw [if_neg hx] at h
      simp only [List.cons.injEq] at h
      rw [← h.1]
      simpa using hx

theorem dropWhile_append_of_all (allowed : Char → Bool) (u v : List Char)
    (hu : ∀ c ∈ u, allowed c = true) : (u ++ v).dropWhile allowed = v.dropWhile allowed := by
  induction u with
  | nil => rfl
  | cons x xs ih =>
    rw [List.cons_append, List.dropWhile_cons, if_pos (hu x (List.mem_cons_self _ _))]
    exact ih (fun c hc => hu c (List.mem_cons_of_mem _ hc))

theorem head_tail_nil (pos : Nat) (caps : List (Nat × List Char)) :
    ((Re.cat
        (.opt (.group 5 (.cat (.lit '#') (.group 6 (.cat (.plus (.cls (noneOf ['#']))) .eot)))))
        .eot).run { pos := pos, rest := [], caps := caps }).head? =
      some { pos := pos, rest := [], caps := caps } := by
  apply head_cat _ _ _ { pos := pos, rest := [], caps := caps }
  · apply head_opt_none
    apply run_group_nil
    apply run_cat_nil
    exact run_lit_nil _ _ _
  · rw [run_eot]
    rfl

theorem head_tail_fragment (pos : Nat) (caps : List (Nat × List Char)) (f : List Char)
    (hne : f ≠ []) (hf : '#' ∉ f) :
    ((Re.cat
        (.opt (.group 5 (.cat (.lit '#') (.group 6 (.cat (.plus (.cls (noneOf ['#']))) .eot)))))
        .eot).run { pos := pos, rest := '#' :: f, caps := caps }).head? =
      some { pos := pos + 1 + f.length, rest := [],
             caps := (5, '#' :: f) :: (6, f) :: caps } := by
  cases f with
  | nil => exact absurd rfl hne
  | cons x xs =>
    have hall := noneOf_hash_of_not_mem (x :: xs) hf
    have hx : noneOf ['#'] x = true := hall x (List.mem_cons_self _ _)
    have hxs : ∀ c ∈ xs, noneOf ['#'] c = true := fun c hc => hall c (List.mem_cons_of_mem _ hc)
    have htake : xs.takeWhile (noneOf ['#']) = xs := List.takeWhile_eq_self_iff.mpr hxs
    have hdrop : xs.dropWhile (noneOf ['#']) = [] := List.dropWhile_eq_nil_iff.mpr hxs
    have hplus := head_plus_cls (noneOf ['#']) x xs (pos + 1) caps hx
    rw [htake, hdrop] at hplus
    have h6 := head_group 6 _ _ _
      (head_cat _ .eot _ _ { pos := pos + 1 + 1 + xs.length, rest := [], caps := caps } hplus
        (by rw [run_eot]; rfl))
    have hlit : ((Re.lit '#').run { pos := pos, rest := '#' :: x :: xs, caps := caps }).head? =
        some { pos := pos + 1, rest := x :: xs, caps := caps } := by
      rw [run_lit_cons, if_pos rfl]
      rfl
    have h5 := head_opt_some _ _ _ (head_group 5 _ _ _ (head_cat _ _ _ _ _ hlit h6))
    refine head_cat _ .eot _ _ _ h5 ?_
    rw [run_eot]
    simp only [List.length_cons, List.length_nil, Nat.sub_zero, List.take_succ_cons,
      List.take_length, if_true, List.head?_cons, Option.some.injEq, Thread.mk.injEq,
      and_true, true_and]
    omega

theorem queryAfter_nil : queryAfter [] = [] := rfl

theorem queryAfter_hash (f : List Char) : queryAfter ('#' :: f) = [] := rfl

theorem queryAfter_question (r : List Char) :
    queryAfter ('?' :: r) = r.takeWhile (noneOf ['#']) := rfl

/-- The first thread of the query and fragment part of SplitDIDURL, on the text that
follows the path. -/
theorem head_query_fragment (pos : Nat) (caps : List (Nat × List Char)) (r2 : List Char)
    (hstart : ∀ c r, r2 = c :: r → c = '?' ∨ c = '#')
    (hfrag : ∀ u f, '#' ∉ u → r2 = u ++ '#' :: f → f ≠ [] ∧ '#' ∉ f)
    (h4 : List.lookup 4 caps = none) (h6 : List.lookup 6 caps = none) :
    ∃ m, ((Re.cat (.opt (.group 3 (.cat (.lit '?') (.group 4 (.star (.cls (noneOf ['#'])))))))
          (.cat
            (.opt (.group 5
              (.cat (.lit '#') (.group 6 (.cat (.plus (.cls (noneOf ['#']))) .eot)))))
            .eot)).run { pos := pos, rest := r2, caps := caps }).head? = some m ∧
      m.rest = [] ∧ List.lookup 1 m.caps = List.lookup 1 caps ∧
      List.lookup 2 m.caps = List.lookup 2 caps ∧
      (List.lookup 4 m.caps).getD [] = queryAfter r2 ∧
      (List.lookup 6 m.caps).getD [] = (r2.dropWhile (noneOf ['#'])).drop 1 := by
  cases r2 with
  | nil =>
    refine ⟨_, head_cat _ _ _ { pos := pos, rest := [], caps := caps } _ ?_
      (head_tail_nil pos caps), rfl, rfl, rfl, ?_, ?_⟩
    · apply head_opt_none
      apply run_group_nil
      apply run_cat_nil
      exact run_lit_nil _ _ _
    · simp [h4, queryAfter_nil]
    · simp [h6]
  | cons c r =>
    rcases hstart c r rfl with rfl | rfl
    · have hlit :
          ((Re.lit '?').run { pos := pos, rest := '?' :: r, caps := caps }).head? =
            some { pos := pos + 1, rest := r, caps := caps } := by
        rw [run_lit_cons, if_pos rfl]
        rfl
      have h3 := head_opt_some _ _ _ (head_group 3 _ _ _ (head_cat _ _ _ _ _ hlit
        (head_group_star_cls 4 (noneOf ['#']) r (pos + 1) caps)))
      cases hdw : r.dropWhile (noneOf ['#']) with
      | nil =>
        rw [hdw] at h3
        refine ⟨_, head_cat _ _ _ _ _ h3 (head_tail_nil _ _), rfl, ?_, ?_, ?_, ?_⟩
        · simp [List.lookup]
        · simp [List.lookup]
        · simp [List.lookup, queryAfter_question]
        · simp [List.lookup, h6, List.dropWhile_cons, noneOf, hdw]
      | cons c2 f =>
        have hc2 : c2 = '#' := by
          have := dropWhile_head_false _ r c2 f hdw
          simpa [noneOf] using this
        subst hc2
        rw [hdw] at h3
        have hparts : '?' :: r = ('?' :: r.takeWhile (noneOf ['#'])) ++ '#' :: f := by
          rw [List.cons_append, ← hdw, List.takeWhile_append_dropWhile]
        have hno : '#' ∉ '?' :: r.takeWhile (noneOf ['#']) := by
          intro h
          rcases List.mem_cons.mp h with h | h
          · cases h
          · have := List.mem_takeWhile_imp h
            simp [noneOf] at this
        obtain ⟨hne, hf⟩ := hfrag _ f hno hparts
        refine ⟨_, head_cat _ _ _ _ _ h3 (head_tail_fragment _ _ f hne hf), rfl, ?_, ?_, ?_, ?_⟩
        · simp [List.lookup]
        · simp [List.lookup]
        · simp [List.lookup, queryAfter_question]
        · simp [List.lookup, List.dropWhile_cons, noneOf, hdw]
    · obtain ⟨hne, hf⟩ := hfrag [] r (by simp) rfl
      refine ⟨_, head_cat _ _ _ { pos := pos, rest := '#' :: r, caps := caps } _ ?_
        (head_tail_fragment pos caps r hne hf), rfl, ?_, ?_, ?_, ?_⟩
      · apply head_opt_none
        apply run_group_nil
        apply run_cat_nil
        rw [run_lit_cons, if_neg (by decide)]
      · simp [List.lookup]
      · simp [List.lookup]
      · simp [List.lookup, h4, queryAfter_hash]
      · simp [List.lookup, List.dropWhile_cons, noneOf]

end Utils

namespace Utils

open Regexp

theorem not_hash_mem_takeWhile (excluded : List Char) (hmem : '#' ∈ excluded) (l : List Char) :
    '#' ∉ l.takeWhile (noneOf excluded) := by
  intro h
  exact ne_hash_of_noneOf excluded hmem _ (List.mem_takeWhile_imp h) rfl

/-- On a well-formed text the first thread of SplitDIDURL takes the text to its end, and
its groups 1, 2, 4 and 6 are the split that the grammar describes. -/
theorem head_SplitDIDURL (pos : Nat) (w : List Char) (hw : wellFormed w = true) :
    ∃ m, ((Re.group 0 SplitDIDURL.tree).run { pos := pos, rest := w, caps := [] }).head? =
        some m ∧
      (List.lookup 0 m.caps).getD [] = w ∧
      (String.mk ((List.lookup 1 m.caps).getD []), String.mk ((List.lookup 2 m.caps).getD []),
        String.mk ((List.lookup 4 m.caps).getD []),
        String.mk ((List.lookup 6 m.caps).getD [])) = grammarSplit w := by
  have h1 := head_opt_some _ _ _ (head_group_star_cls 1 (noneOf ['/', '?', '#']) w pos [])
  have h2 := head_group_star_cls 2 (noneOf ['?', '#'])
    (w.dropWhile (noneOf ['/', '?', '#']))
    (pos + (w.takeWhile (noneOf ['/', '?', '#'])).length)
    [(1, w.takeWhile (noneOf ['/', '?', '#']))]
  have hd := not_hash_mem_takeWhile ['/', '?', '#'] (by simp) w
  have hp := not_hash_mem_takeWhile ['?', '#'] (by simp) (w.dropWhile (noneOf ['/', '?', '#']))
  have hparts : w = (w.takeWhile (noneOf ['/', '?', '#']) ++
      (w.dropWhile (noneOf ['/', '?', '#'])).takeWhile (noneOf ['?', '#'])) ++
      (w.dropWhile (noneOf ['/', '?', '#'])).dropWhile (noneOf ['?', '#']) := by
    rw [List.append_assoc, List.takeWhile_append_dropWhile, List.takeWhile_append_dropWhile]
  have hno : '#' ∉ w.takeWhile (noneOf ['/', '?', '#']) ++
      (w.dropWhile (noneOf ['/', '?', '#'])).takeWhile (noneOf ['?', '#']) := by
    intro h
    rcases List.mem_append.mp h with h | h
    · exact hd h
    · exact hp h
  have hstart : ∀ c r,
      (w.dropWhile (noneOf ['/', '?', '#'])).dropWhile (noneOf ['?', '#']) = c :: r →
        c = '?' ∨ c = '#' := by
    intro c r h
    have := dropWhile_head_false _ _ c r h
    simp only [noneOf, List.contains, List.elem_eq_mem, List.mem_cons, List.mem_singleton,
      List.not_mem_nil, or_false, Bool.not_eq_false', decide_eq_true_eq] at this
    exact this
  have hfrag : ∀ u f, '#' ∉ u →
      (w.dropWhile (noneOf ['/', '?', '#'])).dropWhile (noneOf ['?', '#']) = u ++ '#' :: f →
        f ≠ [] ∧ '#' ∉ f := by
    intro u f hu h
    apply wellFormed_split (w.takeWhile (noneOf ['/', '?', '#']) ++
      (w.dropWhile (noneOf ['/', '?', '#'])).takeWhile (noneOf ['?', '#']) ++ u) f
    · intro hmem
      rcases List.mem_append.mp hmem with hmem | hmem
      · exact hno hmem
      · exact hu hmem
    · rw [List.append_assoc _ u, ← h, ← hparts]
      exact hw
  obtain ⟨m, hm, hrest, l1, l2, l4, l6⟩ := head_query_fragment
    (pos + (w.takeWhile (noneOf ['/', '?', '#'])).length +
      ((w.dropWhile (noneOf ['/', '?', '#'])).takeWhile (noneOf ['?', '#'])).length)
    [(2, (w.dropWhile (noneOf ['/', '?', '#'])).takeWhile (noneOf ['?', '#'])),
      (1, w.takeWhile (noneOf ['/', '?', '#']))]
    ((w.dropWhile (noneOf ['/', '?', '#'])).dropWhile (noneOf ['?', '#'])) hstart hfrag rfl rfl
  have hdw : w.dropWhile (noneOf ['#']) =
      ((w.dropWhile (noneOf ['/', '?', '#'])).dropWhile (noneOf ['?', '#'])).dropWhile
        (noneOf ['#']) := by
    conv_lhs => rw [hparts]
    exact dropWhile_append_of_all _ _ _ (noneOf_hash_of_not_mem _ hno)
  refine ⟨_, head_group 0 _ _ _ (head_cat _ _ _ _ _ h1 (head_cat _ _ _ _ _ h2 hm)), ?_, ?_⟩
  · simp [List.lookup, hrest]
  · simp only [grammarSplit, hdw, ← l6, ← l4]
    simp [List.lookup, l1, l2]

/-- The search for SplitDIDURL returns the split of the longest suffix that is
well-formed. -/
theorem search_SplitDIDURL (text : List Char) (i : Nat) (hi : i ≤ text.length)
    (hwf : wellFormed (text.drop i) = true)
    (hbefore : ∀ j, j < i → wellFormed (text.drop j) = false) :
    ∃ m, search (.group 0 SplitDIDURL.tree) 0 text = some m ∧
      (List.lookup 0 m.caps).getD [] = text.drop i ∧
      (String.mk ((List.lookup 1 m.caps).getD []), String.mk ((List.lookup 2 m.caps).getD []),
        String.mk ((List.lookup 4 m.caps).getD []),
        String.mk ((List.lookup 6 m.caps).getD [])) = grammarSplit (text.drop i) := by
  obtain ⟨m, hm, h0, hsplit⟩ := head_SplitDIDURL (0 + i) (text.drop i) hwf
  exact ⟨m, search_leftmost _ text i 0 m hi
    (fun j hj => run_SplitDIDURL_nil (0 + j) _ (hbefore j hj)) hm, h0, hsplit⟩

theorem exists_leftmost_wellFormed (text : List Char) :
    ∃ i, i ≤ text.length ∧ wellFormed (text.drop i) = true ∧
      ∀ j, j < i → wellFormed (text.drop j) = false := by
  have hex : ∃ i, i ≤ text.length ∧ wellFormed (text.drop i) = true :=
    ⟨text.length, Nat.le_refl _, by simp [wellFormed]⟩
  refine ⟨Nat.find hex, (Nat.find_spec hex).1, (Nat.find_spec hex).2, fun j hj => ?_⟩
  have hmin := Nat.find_min hex hj
  have hle : j ≤ text.length := Nat.le_trans (Nat.le_of_lt hj) (Nat.find_spec hex).1
  cases hwf : wellFormed (text.drop j) with
  | false => rfl
  | true => exact absurd ⟨hle, hwf⟩ hmin

theorem TrySplitDIDUrl_of_search (didUrl : String) (m : Thread)
    (hm : search (.group 0 SplitDIDURL.tree) 0 didUrl.toList = some m) :
    TrySplitDIDUrl didUrl =
      some (String.mk ((List.lookup 1 m.caps).getD []), String.mk ((List.lookup 2 m.caps).getD []),
        String.mk ((List.lookup 4 m.caps).getD []),
        String.mk ((List.lookup 6 m.caps).getD [])) := by
  rw [TrySplitDIDUrl_eq, hm]
  rfl

theorem TrySplitDIDUrl_wellFormed (didUrl : String) (h : wellFormed didUrl.toList = true) :
    TrySplitDIDUrl didUrl = some (grammarSplit didUrl.toList) := by
  obtain ⟨m, hm, _, hsplit⟩ := search_SplitDIDURL didUrl.toList 0 (Nat.zero_le _) h
    (fun j hj => absurd hj (Nat.not_lt_zero j))
  rw [TrySplitDIDUrl_of_search didUrl m hm, hsplit]
  rfl

end Utils

/-! ## Claims on TrySplitDIDUrl and ValidateDIDUrl -/

namespace Utils

open Regexp

/-- C23 does not hold.  On `a#b#c` the longest prefix without '/', '?' and '#' is `a` and
the text after the first '#' is `b#c`, the split that the comment on lines 8-16 describes
group by group, while TrySplitDIDUrl returns the identifier `b` and the fragment `c`; on
`a#` it returns four empty parts.  SplitDIDURL on line 17 ends in '$' and has no '^',
unlike the three segment patterns on lines 18-20, so the match starts where a suffix with
at most one '#' starts and the text before it is dropped. -/
theorem split_skips_to_suffix :
    grammarSplit "a#b#c".toList = ("a", "", "", "b#c") ∧
    TrySplitDIDUrl "a#b#c" = some ("b", "", "", "c") ∧
    TrySplitDIDUrl "a#" = some ("", "", "", "") := by
  refine ⟨by decide, by rfl, by rfl⟩

/-- What TrySplitDIDUrl computes on every input, with SplitDIDURL as line 17 writes it:
the grammar applied to the longest suffix of the input that holds no '#', or exactly one
'#' that is not its last character.  The split starts at the first character exactly when
the input itself has that form; a prefix before that suffix is dropped. -/
theorem split_grammar_on_suffix (s : String) :
    ∃ i, i ≤ s.length ∧ wellFormed (s.toList.drop i) = true ∧
      (∀ j, j < i → wellFormed (s.toList.drop j) = false) ∧
      TrySplitDIDUrl s = some (grammarSplit (s.toList.drop i)) := by
  obtain ⟨i, hi, hwf, hbefore⟩ := exists_leftmost_wellFormed s.toList
  obtain ⟨m, hm, _, hsplit⟩ := search_SplitDIDURL s.toList i hi hwf hbefore
  refine ⟨i, hi, hwf, hbefore, ?_⟩
  rw [TrySplitDIDUrl_of_search s m hm, hsplit]

theorem takeWhile_takeWhile_dropWhile (P Q : Char → Bool) (hPQ : ∀ c, P c = true → Q c = true) :
    ∀ w : List Char,
      w.takeWhile P ++ (w.dropWhile P).takeWhile Q = w.takeWhile Q ∧
      (w.dropWhile P).dropWhile Q = w.dropWhile Q := by
  intro w
  induction w with
  | nil => exact ⟨rfl, rfl⟩
  | cons c w ih =>
    by_cases hc : P c = true
    · have hq := hPQ c hc
      simp only [List.takeWhile_cons, List.dropWhile_cons, hc, hq, if_true, List.cons_append,
        ih.1, ih.2, and_self]
    · simp only [List.takeWhile_cons, List.dropWhile_cons, hc, if_false, List.nil_append,
        Bool.false_eq_true, and_self]

/-- C24: on a string that holds no '#', or exactly one '#' that is not its last character,
the match of SplitDIDURL is the whole string; the identifier followed by the path is the
prefix before the first '?' or '#', the identifier being the longest prefix without '/',
'?' and '#'; the query is the text after a '?' that ends the path up to the '#' or the
end; the fragment is the text after the '#'; and the example of the comment splits as the
comment says. -/
theorem split_well_formed (s : String) (h : wellFormed s.toList = true) :
    (∃ did path query fragment g3 g5,
      SplitDIDURL.FindStringSubmatch s = some [s, did, path, g3, query, g5, fragment] ∧
      TrySplitDIDUrl s = some (did, path, query, fragment) ∧
      did.toList = s.toList.takeWhile (noneOf ['/', '?', '#']) ∧
      did.toList ++ path.toList = s.toList.takeWhile (noneOf ['?', '#']) ∧
      query.toList = queryAfter (s.toList.dropWhile (noneOf ['?', '#'])) ∧
      fragment.toList = (s.toList.dropWhile (noneOf ['#'])).drop 1) ∧
    TrySplitDIDUrl
        "did:cheqd:testnet:fafdsffq11213343/path-to-s/ome-external-resource?query#key1???" =
      some ("did:cheqd:testnet:fafdsffq11213343", "/path-to-s/ome-external-resource", "query",
        "key1???") := by
  constructor
  · obtain ⟨m, hm, h0, hsplit⟩ := search_SplitDIDURL s.toList 0 (Nat.zero_le _) h
      (fun j hj => absurd hj (Nat.not_lt_zero j))
    have hsub : SplitDIDURL.FindStringSubmatch s =
        some [String.mk ((List.lookup 0 m.caps).getD []),
          String.mk ((List.lookup 1 m.caps).getD []),
          String.mk ((List.lookup 2 m.caps).getD []),
          String.mk ((List.lookup 3 m.caps).getD []),
          String.mk ((List.lookup 4 m.caps).getD []),
          String.mk ((List.lookup 5 m.caps).getD []),
          String.mk ((List.lookup 6 m.caps).getD [])] := by
      unfold Regexp.FindStringSubmatch
      rw [hm]
      rfl
    have hpq := takeWhile_takeWhile_dropWhile (noneOf ['/', '?', '#']) (noneOf ['?', '#'])
      (by intro c hc; simp [noneOf] at hc ⊢; tauto) s.toList
    rw [List.drop_zero] at h0 hsplit
    simp only [grammarSplit, Prod.mk.injEq] at hsplit
    obtain ⟨e1, e2, e4, e6⟩ := hsplit
    refine ⟨String.mk ((List.lookup 1 m.caps).getD []),
      String.mk ((List.lookup 2 m.caps).getD []), String.mk ((List.lookup 4 m.caps).getD []),
      String.mk ((List.lookup 6 m.caps).getD []), String.mk ((List.lookup 3 m.caps).getD []),
      String.mk ((List.lookup 5 m.caps).getD []), hsub.trans ?_,
      TrySplitDIDUrl_of_search s m hm, ?_, ?_, ?_, ?_⟩
    · rw [h0]
      rfl
    · rw [e1]
      rfl
    · rw [e1, e2]
      exact hpq.1
    · rw [e4, hpq.2]
      rfl
    · rw [e6]
      rfl
  · rfl

theorem split_well_formed_witness :
    wellFormed "a/b?c#d".toList = true ∧
    ∃ did path query fragment g3 g5,
      SplitDIDURL.FindStringSubmatch "a/b?c#d" =
        some ["a/b?c#d", did, path, g3, query, g5, fragment] ∧
      TrySplitDIDUrl "a/b?c#d" = some (did, path, query, fragment) ∧
      did.toList = "a/b?c#d".toList.takeWhile (noneOf ['/', '?', '#']) ∧
      did.toList ++ path.toList = "a/b?c#d".toList.takeWhile (noneOf ['?', '#']) ∧
      query.toList = queryAfter ("a/b?c#d".toList.dropWhile (noneOf ['?', '#'])) ∧
      fragment.toList = ("a/b?c#d".toList.dropWhile (noneOf ['#'])).drop 1 :=
  ⟨by decide, (split_well_formed "a/b?c#d" (by decide)).1⟩

theorem ValidateDIDUrl_of_empty_segments
    (ValidateDID : String → String → List String → Option String)
    (didUrl did method : String) (allowedNamespaces : List String)
    (h : TrySplitDIDUrl didUrl = some (did, "", "", "")) :
    ValidateDIDUrl ValidateDID didUrl method allowedNamespaces =
      some (ValidateDID did method allowedNamespaces) := by
  have hp : ValidatePath "" = none := by decide
  have hq : ValidateQuery "" = none := by decide
  have hf : ValidateFragment "" = none := by decide
  unfold ValidateDIDUrl
  rw [h]
  cases hv : ValidateDID did method allowedNamespaces with
  | some err => simp [hv]
  | none => simp [hv, hp, hq, hf]

theorem TrySplitDIDUrl_bare (didUrl : String)
    (h : didUrl.toList.all (noneOf ['/', '?', '#']) = true) :
    TrySplitDIDUrl didUrl = some (didUrl, "", "", "") := by
  have hall : ∀ c ∈ didUrl.toList, noneOf ['/', '?', '#'] c = true := by
    simpa [List.all_eq_true] using h
  have hno : '#' ∉ didUrl.toList := fun hm =>
    ne_hash_of_noneOf ['/', '?', '#'] (by simp) _ (hall _ hm) rfl
  have hwf : wellFormed didUrl.toList = true := by
    have := wellFormed_of_parts didUrl.toList [] hno (Or.inl rfl)
    simpa using this
  have htake : didUrl.toList.takeWhile (noneOf ['/', '?', '#']) = didUrl.toList :=
    List.takeWhile_eq_self_iff.mpr hall
  have hdrop : didUrl.toList.dropWhile (noneOf ['/', '?', '#']) = [] :=
    List.dropWhile_eq_nil_iff.mpr hall
  have hdrop3 : didUrl.toList.dropWhile (noneOf ['#']) = [] :=
    List.dropWhile_eq_nil_iff.mpr (noneOf_hash_of_not_mem _ hno)
  rw [TrySplitDIDUrl_wellFormed didUrl hwf]
  simp only [grammarSplit, htake, hdrop, hdrop3, List.takeWhile_nil, List.dropWhile_nil,
    queryAfter_nil, List.drop_nil]
  rfl

/-- C26: ValidatePath, ValidateQuery and ValidateFragment return no error on the empty
string; a string without '/', '?' and '#' splits into itself and three empty segments, and
ValidateDIDUrl then returns what ValidateDID returns on it; in general, whenever the split
has an empty path, query and fragment, ValidateDIDUrl returns what ValidateDID returns on
the identifier. -/
theorem empty_segments_valid (ValidateDID : String → String → List String → Option String)
    (didUrl method : String) (allowedNamespaces : List String)
    (h : didUrl.toList.all (noneOf ['/', '?', '#']) = true) :
    ValidatePath "" = none ∧ ValidateQuery "" = none ∧ ValidateFragment "" = none ∧
    TrySplitDIDUrl didUrl = some (didUrl, "", "", "") ∧
    ValidateDIDUrl ValidateDID didUrl method allowedNamespaces =
      some (ValidateDID didUrl method allowedNamespaces) ∧
    IsValidDIDUrl ValidateDID didUrl method allowedNamespaces =
      some (ValidateDID didUrl method allowedNamespaces).isNone ∧
    (∀ other did, TrySplitDIDUrl other = some (did, "", "", "") →
      ValidateDIDUrl ValidateDID other method allowedNamespaces =
        some (ValidateDID did method allowedNamespaces)) := by
  have hv := ValidateDIDUrl_of_empty_segments ValidateDID didUrl didUrl method
    allowedNamespaces (TrySplitDIDUrl_bare didUrl h)
  refine ⟨by decide, by decide, by decide, TrySplitDIDUrl_bare didUrl h, hv, ?_, ?_⟩
  · unfold IsValidDIDUrl
    rw [hv]
    rfl
  · intro other did hsplit
    exact ValidateDIDUrl_of_empty_segments ValidateDID other did method allowedNamespaces hsplit

theorem empty_segments_valid_witness :
    "did:cheqd:test:alice".toList.all (noneOf ['/', '?', '#']) = true ∧
    TrySplitDIDUrl "did:cheqd:test:alice" = some ("did:cheqd:test:alice", "", "", "") ∧
    ValidateDIDUrl (fun did _ _ => if did = "did:cheqd:test:alice" then none else some "unknown")
      "did:cheqd:test:alice" "cheqd" ["test"] = some none ∧
    ValidateDIDUrl (fun _ _ _ => some "refused") "did:cheqd:test:alice" "cheqd" ["test"] =
      some (some "refused") :=
  ⟨by decide,
    (empty_segments_valid (fun _ _ _ => some "refused") "did:cheqd:test:alice" "cheqd" ["test"]
      (by decide)).2.2.2.1,
    (empty_segments_valid
      (fun did _ _ => if did = "did:cheqd:test:alice" then none else some "unknown")
      "did:cheqd:test:alice" "cheqd" ["test"] (by decide)).2.2.2.2.1,
    (empty_segments_valid (fun _ _ _ => some "refused") "did:cheqd:test:alice" "cheqd" ["test"]
      (by decide)).2.2.2.2.1⟩

end Utils

/-! ## The signer list as the seed followed by what the diff appends -/

/-- A run of AppendSignerIfNeed over the controllers `cs` appends the entries of a
subsequence of `cs`: the controllers that are new at the time of their call. -/
theorem foldl_AppendSignerIfNeed_eq (msg : MsgUpdateDid) (cs : List String) :
    ∀ base : List Signer, ∃ added : List String,
      cs.foldl (fun acc c => AppendSignerIfNeed acc c msg) base =
        base ++ added.map (fun c => signerEntry c msg) ∧
      added.Sublist cs ∧ added.Nodup ∧ ∀ c ∈ added, c ∉ principals base := by
  induction cs with
  | nil =>
    intro base
    exact ⟨[], by simp, List.Sublist.refl _, List.nodup_nil, fun c hc => by cases hc⟩
  | cons c rest ih =>
    intro base
    simp only [List.foldl_cons]
    rcases AppendSignerIfNeed_entry base c msg with ⟨_, he⟩ | ⟨hnot, he⟩
    · rw [he]
      obtain ⟨added, h1, h2, h3, h4⟩ := ih base
      exact ⟨added, h1, List.Sublist.cons c h2, h3, h4⟩
    · rw [he]
      obtain ⟨added, h1, h2, h3, h4⟩ := ih (base ++ [signerEntry c msg])
      have hc : c ∉ added := by
        intro hmem
        apply h4 c hmem
        rw [principals_append]
        exact List.mem_append.mpr (Or.inr (by simp [principals, signerEntry_principal]))
      refine ⟨c :: added, ?_, List.Sublist.cons₂ c h2, List.nodup_cons.mpr ⟨hc, h3⟩, ?_⟩
      · rw [h1]
        simp
      · intro x hx
        rcases List.mem_cons.mp hx with rfl | hx
        · exact hnot
        · intro hbase
          apply h4 x hx
          rw [principals_append]
          exact List.mem_append.mpr (Or.inl hbase)

theorem foldl_verificationMethodStep_eq_foldl (newDIDDoc : MsgUpdateDid)
    (vms : List VerificationMethod) :
    ∀ base : List Signer,
      vms.foldl (verificationMethodStep newDIDDoc) base =
        (vms.flatMap (demandedControllers newDIDDoc)).foldl
          (fun acc c => AppendSignerIfNeed acc c newDIDDoc) base := by
  induction vms with
  | nil => intro base; rfl
  | cons vm rest ih =>
    intro base
    simp only [List.foldl_cons, List.flatMap_cons, List.foldl_append]
    rw [ih, verificationMethodStep_eq_foldl]

/-- C31: the required-signer list is the seed, followed by a bare entry for every removed
controller in the order of the old controller list, followed by the entries of the
controllers that the verification-method loop demands, a subsequence of the demands in the
order of the old verification methods: each demanded controller that is new at the time of
its call, once.  The seed is the prefix of the list, entry by entry. -/
theorem seed_stays_first (seed : List Signer) (oldDIDDoc : Did) (newDIDDoc : MsgUpdateDid) :
    ∃ added : List String,
      requiredSigners seed oldDIDDoc newDIDDoc =
        seed ++
          (Complement (expandController oldDIDDoc.Controller oldDIDDoc.Id)
            (expandController newDIDDoc.Controller newDIDDoc.Id)).map bareSigner ++
          added.map (fun c => signerEntry c newDIDDoc) ∧
      (Complement (expandController oldDIDDoc.Controller oldDIDDoc.Id)
        (expandController newDIDDoc.Controller newDIDDoc.Id)).Sublist
        (expandController oldDIDDoc.Controller oldDIDDoc.Id) ∧
      added.Sublist (oldDIDDoc.VerificationMethod.flatMap (demandedControllers newDIDDoc)) ∧
      added.Nodup ∧
      (∀ c ∈ added, c ∉ principals seed ∧
        c ∉ Complement (expandController oldDIDDoc.Controller oldDIDDoc.Id)
          (expandController newDIDDoc.Controller newDIDDoc.Id)) ∧
      (requiredSigners seed oldDIDDoc newDIDDoc).take seed.length = seed := by
  obtain ⟨added, h1, h2, h3, h4⟩ := foldl_AppendSignerIfNeed_eq newDIDDoc
    (oldDIDDoc.VerificationMethod.flatMap (demandedControllers newDIDDoc))
    (seed ++ (Complement (expandController oldDIDDoc.Controller oldDIDDoc.Id)
      (expandController newDIDDoc.Controller newDIDDoc.Id)).map bareSigner)
  have heq : requiredSigners seed oldDIDDoc newDIDDoc =
      seed ++
        (Complement (expandController oldDIDDoc.Controller oldDIDDoc.Id)
          (expandController newDIDDoc.Controller newDIDDoc.Id)).map bareSigner ++
        added.map (fun c => signerEntry c newDIDDoc) := by
    simp only [requiredSigners, appendRemovedControllers_eq,
      foldl_verificationMethodStep_eq_foldl]
    exact h1
  refine ⟨added, heq, List.filter_sublist _, h2, h3, ?_, ?_⟩
  · intro c hc
    have := h4 c hc
    rw [principals_append, principals_map_bareSigner, List.mem_append, not_or] at this
    exact this
  · rw [heq, List.append_assoc, List.take_left']
    rfl

/-- The case of C31 for the hand-over of Alice's document to Bob with a new key: the seed
entry of Bob stays first, the removed controller Alice follows as a bare entry, and the
loop adds nothing, Alice being present already. -/
theorem seed_stays_first_witness :
    requiredSigners handOverToBob.GetSigners aliceDoc handOverToBob =
      handOverToBob.GetSigners ++ [bareSigner "did:cheqd:test:alice"] ∧
    (requiredSigners handOverToBob.GetSigners aliceDoc handOverToBob).take
      handOverToBob.GetSigners.length = handOverToBob.GetSigners :=
  ⟨by decide, (seed_stays_first handOverToBob.GetSigners aliceDoc handOverToBob).choose_spec.2.2.2.2.2⟩

/-! ## ValidateDIDUrl as the composition of the four checks -/

namespace Utils

open Regexp

theorem TrySplitDIDUrl_total (didUrl : String) :
    ∃ did path query fragment, TrySplitDIDUrl didUrl = some (did, path, query, fragment) := by
  obtain ⟨i, hi, hwf, hbefore⟩ := exists_leftmost_wellFormed didUrl.toList
  obtain ⟨m, hm, _, _⟩ := search_SplitDIDURL didUrl.toList i hi hwf hbefore
  exact ⟨_, _, _, _, TrySplitDIDUrl_of_search didUrl m hm⟩

/-- C32: ValidateDIDUrl returns the first error, in the order identifier, path, query,
fragment, of ValidateDID on the split identifier and of ValidatePath, ValidateQuery and
ValidateFragment on the split path, query and fragment; it returns no error exactly when
the four checks return none; and IsValidDIDUrl is true exactly when ValidateDIDUrl returns
no error. -/
theorem validate_is_first_failing_check
    (ValidateDID : String → String → List String → Option String)
    (didUrl method : String) (allowedNamespaces : List String) :
    ∃ did path query fragment,
      TrySplitDIDUrl didUrl = some (did, path, query, fragment) ∧
      ValidateDIDUrl ValidateDID didUrl method allowedNamespaces =
        some ((ValidateDID did method allowedNamespaces).orElse fun _ =>
          (ValidatePath path).orElse fun _ =>
            (ValidateQuery query).orElse fun _ => ValidateFragment fragment) ∧
      (ValidateDIDUrl ValidateDID didUrl method allowedNamespaces = some none ↔
        ValidateDID did method allowedNamespaces = none ∧ ValidatePath path = none ∧
          ValidateQuery query = none ∧ ValidateFragment fragment = none) ∧
      (∀ err, ValidateDID did method allowedNamespaces = some err →
        ValidateDIDUrl ValidateDID didUrl method allowedNamespaces = some (some err)) ∧
      (∀ err, ValidateDID did method allowedNamespaces = none → ValidatePath path = some err →
        ValidateDIDUrl ValidateDID didUrl method allowedNamespaces = some (some err)) ∧
      (∀ err, ValidateDID did method allowedNamespaces = none → ValidatePath path = none →
        ValidateQuery query = some err →
        ValidateDIDUrl ValidateDID didUrl method allowedNamespaces = some (some err)) ∧
      (∀ err, ValidateDID did method allowedNamespaces = none → ValidatePath path = none →
        ValidateQuery query = none → ValidateFragment fragment = some err →
        ValidateDIDUrl ValidateDID didUrl method allowedNamespaces = some (some err)) ∧
      (IsValidDIDUrl ValidateDID didUrl method allowedNamespaces = some true ↔
        ValidateDIDUrl ValidateDID didUrl method allowedNamespaces = some none) ∧
      (IsValidDIDUrl ValidateDID didUrl method allowedNamespaces = some false ↔
        ∃ err, ValidateDIDUrl ValidateDID didUrl method allowedNamespaces =
          some (some err)) := by
  obtain ⟨did, path, query, fragment, hsplit⟩ := TrySplitDIDUrl_total didUrl
  refine ⟨did, path, query, fragment, hsplit, ?_, ?_, ?_, ?_, ?_, ?_, ?_, ?_⟩
  · cases hv : ValidateDID did method allowedNamespaces <;> cases hp : ValidatePath path <;>
      cases hq : ValidateQuery query <;> cases hf : ValidateFragment fragment <;>
      simp [ValidateDIDUrl, hsplit, hv, hp, hq, hf, Option.orElse]
  · cases hv : ValidateDID did method allowedNamespaces <;> cases hp : ValidatePath path <;>
      cases hq : ValidateQuery query <;> cases hf : ValidateFragment fragment <;>
      simp [ValidateDIDUrl, hsplit, hv, hp, hq, hf]
  · intro err h
    unfold ValidateDIDUrl
    rw [hsplit]
    simp [h]
  · intro err h1 h2
    unfold ValidateDIDUrl
    rw [hsplit]
    simp [h1, h2]
  · intro err h1 h2 h3
    unfold ValidateDIDUrl
    rw [hsplit]
    simp [h1, h2, h3]
  · intro err h1 h2 h3 h4
    unfold ValidateDIDUrl
    rw [hsplit]
    simp [h1, h2, h3, h4]
  · unfold IsValidDIDUrl
    cases ValidateDIDUrl ValidateDID didUrl method allowedNamespaces with
    | none => simp
    | some r => cases r <;> simp
  · unfold IsValidDIDUrl
    cases ValidateDIDUrl ValidateDID didUrl method allowedNamespaces with
    | none => simp
    | some r => cases r <;> simp

end Utils
/-! ## The three segment validators compared -/

namespace Utils

open Regexp

theorem Segments_mono {P Q : Char → Bool} (h : ∀ c, P c = true → Q c = true) {w : List Char}
    (hw : Segments P w) : Segments Q w := by
  induction hw with
  | nil => exact Segments.nil
  | char c rest hc _ ih => exact Segments.char c rest (h c hc) ih
  | octet high low rest hhigh hlow _ ih => exact Segments.octet high low rest hhigh hlow ih

theorem Segments_pathChar_of_queryChar {w : List Char} (hw : Segments queryChar w)
    (hq : '?' ∉ w) : Segments pathChar w := by
  induction hw with
  | nil => exact Segments.nil
  | char c rest hc _ ih =>
    have hne : c ≠ '?' := fun h => hq (by rw [h]; exact List.mem_cons_self _ _)
    have hrest : '?' ∉ rest := fun h => hq (List.mem_cons_of_mem _ h)
    rcases (queryChar_iff c).mp hc with hp | hp
    · exact Segments.char c rest hp (ih hrest)
    · exact absurd hp hne
  | octet high low rest hhigh hlow _ ih =>
    exact Segments.octet high low rest hhigh hlow
      (ih (fun h => hq (List.mem_cons_of_mem _ (List.mem_cons_of_mem _
        (List.mem_cons_of_mem _ h)))))

theorem Segments_pathChar_no_question {w : List Char} (hw : Segments pathChar w) :
    '?' ∉ w := by
  induction hw with
  | nil => simp
  | char c rest hc _ ih =>
    intro h
    rcases List.mem_cons.mp h with h | h
    · rw [← h] at hc
      exact absurd hc (by decide)
    · exact ih h
  | octet high low rest hhigh hlow _ ih =>
    intro h
    rcases List.mem_cons.mp h with h | h
    · cases h
    · rcases List.mem_cons.mp h with h | h
      · rw [← h] at hhigh
        exact absurd hhigh (by decide)
      · rcases List.mem_cons.mp h with h | h
        · rw [← h] at hlow
          exact absurd hlow (by decide)
        · exact ih h

/-- C34: ValidateQuery and ValidateFragment succeed on the same strings; a string that
ValidatePath accepts is accepted by ValidateQuery; and among the strings that ValidateQuery
accepts, ValidatePath rejects exactly those that contain '?'. -/
theorem segment_validators_related (s : String) :
    (ValidateQuery s = none ↔ ValidateFragment s = none) ∧
    (ValidatePath s = none → ValidateQuery s = none) ∧
    ((ValidateQuery s = none ∧ ValidatePath s ≠ none) ↔
      (ValidateQuery s = none ∧ '?' ∈ s.toList)) ∧
    (ValidateQuery "a?b" = none ∧ ValidateFragment "a?b" = none ∧
      ValidatePath "a?b" ≠ none) := by
  refine ⟨?_, ?_, ?_, by decide, by decide, by decide⟩
  · rw [ValidateQuery_eq_none, ValidateFragment_eq_none]
  · rw [ValidatePath_eq_none, ValidateQuery_eq_none]
    exact Segments_mono (fun c hc => (queryChar_iff c).mpr (Or.inl hc))
  · simp only [ne_eq, ValidatePath_eq_none, ValidateQuery_eq_none]
    constructor
    · rintro ⟨hq, hp⟩
      refine ⟨hq, ?_⟩
      by_contra hno
      exact hp (Segments_pathChar_of_queryChar hq hno)
    · rintro ⟨hq, hmem⟩
      exact ⟨hq, fun hp => Segments_pathChar_no_question hp hmem⟩

end Utils
/-! ## What ValidateDIDUrl validates -/

namespace Utils

open Regexp

/-- The four parts of the grammar's split, with the '?' and the '#' that precede the query
and the fragment, concatenate to the text. -/
theorem grammarSplit_covers (w : List Char) :
    ∃ qpart fpart : List Char,
      (grammarSplit w).1.toList ++ (grammarSplit w).2.1.toList ++ qpart ++ fpart = w ∧
      ((qpart = [] ∧ (grammarSplit w).2.2.1 = "") ∨
        qpart = '?' :: (grammarSplit w).2.2.1.toList) ∧
      ((fpart = [] ∧ (grammarSplit w).2.2.2 = "") ∨
        fpart = '#' :: (grammarSplit w).2.2.2.toList) := by
  have hd := not_hash_mem_takeWhile ['/', '?', '#'] (by simp) w
  have hp := not_hash_mem_takeWhile ['?', '#'] (by simp) (w.dropWhile (noneOf ['/', '?', '#']))
  have hparts : w = (w.takeWhile (noneOf ['/', '?', '#']) ++
      (w.dropWhile (noneOf ['/', '?', '#'])).takeWhile (noneOf ['?', '#'])) ++
      (w.dropWhile (noneOf ['/', '?', '#'])).dropWhile (noneOf ['?', '#']) := by
    rw [List.append_assoc, List.takeWhile_append_dropWhile, List.takeWhile_append_dropWhile]
  have hno : '#' ∉ w.takeWhile (noneOf ['/', '?', '#']) ++
      (w.dropWhile (noneOf ['/', '?', '#'])).takeWhile (noneOf ['?', '#']) := by
    intro h
    rcases List.mem_append.mp h with h | h
    · exact hd h
    · exact hp h
  have hdw : w.dropWhile (noneOf ['#']) =
      ((w.dropWhile (noneOf ['/', '?', '#'])).dropWhile (noneOf ['?', '#'])).dropWhile
        (noneOf ['#']) := by
    conv_lhs => rw [hparts]
    exact dropWhile_append_of_all _ _ _ (noneOf_hash_of_not_mem _ hno)
  simp only [grammarSplit, hdw]
  generalize hr2 : (w.dropWhile (noneOf ['/', '?', '#'])).dropWhile (noneOf ['?', '#']) = r2
    at hparts ⊢
  show ∃ qpart fpart : List Char,
    w.takeWhile (noneOf ['/', '?', '#']) ++
        (w.dropWhile (noneOf ['/', '?', '#'])).takeWhile (noneOf ['?', '#']) ++ qpart ++
        fpart = w ∧
      ((qpart = [] ∧ String.mk (queryAfter r2) = "") ∨ qpart = '?' :: queryAfter r2) ∧
      ((fpart = [] ∧ String.mk ((r2.dropWhile (noneOf ['#'])).drop 1) = "") ∨
        fpart = '#' :: (r2.dropWhile (noneOf ['#'])).drop 1)
  cases r2 with
  | nil =>
    refine ⟨[], [], ?_, Or.inl ⟨rfl, rfl⟩, Or.inl ⟨rfl, rfl⟩⟩
    conv_rhs => rw [hparts]
    simp
  | cons c r =>
    have hc : c = '?' ∨ c = '#' := by
      have := dropWhile_head_false _ _ c r hr2
      simp only [noneOf, List.contains, List.elem_eq_mem, List.mem_cons, List.mem_singleton,
        List.not_mem_nil, or_false, Bool.not_eq_false', decide_eq_true_eq] at this
      exact this
    rcases hc with rfl | rfl
    · have hq : ('?' :: r).dropWhile (noneOf ['#']) = r.dropWhile (noneOf ['#']) := by
        simp [List.dropWhile_cons, noneOf]
      rw [hq, queryAfter_question]
      cases hr3 : r.dropWhile (noneOf ['#']) with
      | nil =>
        refine ⟨'?' :: r.takeWhile (noneOf ['#']), [], ?_, Or.inr rfl, Or.inl ⟨rfl, rfl⟩⟩
        have hr : r.takeWhile (noneOf ['#']) = r := by
          have := List.takeWhile_append_dropWhile (noneOf ['#']) r
          rw [hr3, List.append_nil] at this
          exact this
        conv_rhs => rw [hparts]
        rw [hr]
        simp
      | cons c2 f =>
        have hc2 : c2 = '#' := by
          have := dropWhile_head_false _ r c2 f hr3
          simpa [noneOf] using this
        subst hc2
        refine ⟨'?' :: r.takeWhile (noneOf ['#']), '#' :: f, ?_, Or.inr rfl, Or.inr rfl⟩
        have hr : r.takeWhile (noneOf ['#']) ++ '#' :: f = r := by
          rw [← hr3]
          exact List.takeWhile_append_dropWhile _ _
        conv_rhs => rw [hparts, ← hr]
        simp
    · refine ⟨[], '#' :: r, ?_, Or.inl ⟨rfl, rfl⟩, Or.inr ?_⟩
      · conv_rhs => rw [hparts]
        simp
      · simp [List.dropWhile_cons, noneOf]

/-- C33 does not hold: the parts that ValidateDIDUrl validates cover the longest suffix of
the input that holds no '#', or one '#' that is not its last character, and they cover the
input only when the input has that form.  With a ValidateDID that accepts Alice's id alone,
`junk#did:cheqd:test:alice#key-1` is accepted although it holds two '#' and its part
`junk#` was never validated. -/
theorem validated_parts_cover_suffix (s : String) :
    (∃ i did path query fragment qpart fpart,
      i ≤ s.length ∧ (i = 0 ↔ wellFormed s.toList = true) ∧
      TrySplitDIDUrl s = some (did, path, query, fragment) ∧
      did.toList ++ path.toList ++ qpart ++ fpart = s.toList.drop i ∧
      ((qpart = [] ∧ query = "") ∨ qpart = '?' :: query.toList) ∧
      ((fpart = [] ∧ fragment = "") ∨ fpart = '#' :: fragment.toList)) ∧
    ValidateDIDUrl (fun did _ _ => if did = "did:cheqd:test:alice" then none else some "unknown")
      "junk#did:cheqd:test:alice#key-1" "cheqd" ["test"] = some none ∧
    TrySplitDIDUrl "junk#did:cheqd:test:alice#key-1" =
      some ("did:cheqd:test:alice", "", "", "key-1") ∧
    "junk#did:cheqd:test:alice#key-1".toList.count '#' = 2 := by
  refine ⟨?_, by rfl, by rfl, by decide⟩
  obtain ⟨i, hi, hwf, hbefore⟩ := exists_leftmost_wellFormed s.toList
  obtain ⟨m, hm, _, hsplit⟩ := search_SplitDIDURL s.toList i hi hwf hbefore
  obtain ⟨qpart, fpart, hcover, hq, hf⟩ := grammarSplit_covers (s.toList.drop i)
  refine ⟨i, _, _, _, _, qpart, fpart, hi, ?_,
    (TrySplitDIDUrl_of_search s m hm).trans (congrArg some hsplit), hcover, hq, hf⟩
  constructor
  · rintro rfl
    simpa using hwf
  · intro h
    by_contra hne
    have := hbefore 0 (Nat.pos_of_ne_zero hne)
    rw [List.drop_zero, h] at this
    cases this

end Utils

/-! ## A nil and an empty publicKeyJwk -/

/-- C35 does not hold: Alice's stored key has a nil publicKeyJwk and the update restates it
with an empty publicKeyJwk, every other field being the same; reflect.DeepEqual tells the
two apart and the loop adds the key's controller Bob as a signer, while the update that
leaves the field nil requires the seed alone. -/
theorem empty_jwk_adds_signer :
    DeepEqual (ed25519Method "did:cheqd:test:alice#key-1" "did:cheqd:test:bob" "zA1")
      { ed25519Method "did:cheqd:test:alice#key-1" "did:cheqd:test:bob" "zA1" with
        PublicKeyJwk := some [] } = false ∧
    requiredSigners bobKeyEmptyJwk.GetSigners bobKeyNilJwk bobKeyEmptyJwk =
      bobKeyEmptyJwk.GetSigners ++ [bareSigner "did:cheqd:test:bob"] ∧
    requiredSigners bobKeyRestated.GetSigners bobKeyNilJwk bobKeyRestated =
      bobKeyRestated.GetSigners := by
  refine ⟨by decide, by decide, by decide⟩

/-- C35, amended: when an old verification method and its new version have the same
controller and one has a nil publicKeyJwk and the other an empty one, reflect.DeepEqual
reports them different, whether or not they agree in id, type and publicKeyMultibase, and
the iteration for the method is the call of AppendSignerIfNeed for the controller: the
controller is a principal of the list afterwards, and its entry is appended when it was
not a principal before.  Two methods are treated as equal only when they are the same in
every field, the nil-ness of publicKeyJwk included. -/
theorem nil_and_empty_jwk_differ (oldVM newVM : VerificationMethod)
    (newDIDDoc : MsgUpdateDid) (signers : List Signer)
    (hfind : FindVerificationMethod newDIDDoc.VerificationMethod oldVM.Id = some newVM)
    (hcontroller : newVM.Controller = oldVM.Controller)
    (hjwk : (oldVM.PublicKeyJwk = none ∧ newVM.PublicKeyJwk = some []) ∨
      (oldVM.PublicKeyJwk = some [] ∧ newVM.PublicKeyJwk = none)) :
    DeepEqual oldVM newVM = false ∧
    verificationMethodStep newDIDDoc signers oldVM =
      AppendSignerIfNeed signers newVM.Controller newDIDDoc ∧
    newVM.Controller ∈ principals (verificationMethodStep newDIDDoc signers oldVM) ∧
    (newVM.Controller ∉ principals signers →
      verificationMethodStep newDIDDoc signers oldVM =
        signers ++ [signerEntry newVM.Controller newDIDDoc]) ∧
    (∀ a b : VerificationMethod, DeepEqual a b = true ↔ a = b) := by
  have hne : DeepEqual oldVM newVM = false := by
    cases hd : DeepEqual oldVM newVM with
    | false => rfl
    | true =>
      have := (DeepEqual_iff oldVM newVM).mp hd
      rw [this] at hjwk
      rcases hjwk with ⟨h1, h2⟩ | ⟨h1, h2⟩ <;> rw [h1] at h2 <;> cases h2
  have hstep : verificationMethodStep newDIDDoc signers oldVM =
      AppendSignerIfNeed signers newVM.Controller newDIDDoc := by
    unfold verificationMethodStep
    rw [hfind]
    simp [hne, hcontroller]
  refine ⟨hne, hstep, ?_, ?_, DeepEqual_iff⟩
  · rw [hstep]
    exact mem_principals_AppendSignerIfNeed signers newVM.Controller newDIDDoc
  · intro hnot
    rw [hstep]
    rcases AppendSignerIfNeed_entry signers newVM.Controller newDIDDoc with ⟨hin, _⟩ | ⟨_, he⟩
    · exact absurd hin hnot
    · exact he

theorem nil_and_empty_jwk_differ_witness :
    DeepEqual (ed25519Method "did:cheqd:test:alice#key-1" "did:cheqd:test:bob" "zA1")
      { ed25519Method "did:cheqd:test:alice#key-1" "did:cheqd:test:bob" "zA1" with
        PublicKeyJwk := some [] } = false ∧
    verificationMethodStep bobKeyEmptyJwk bobKeyEmptyJwk.GetSigners
        (ed25519Method "did:cheqd:test:alice#key-1" "did:cheqd:test:bob" "zA1") =
      bobKeyEmptyJwk.GetSigners ++ [signerEntry "did:cheqd:test:bob" bobKeyEmptyJwk] :=
  ⟨(nil_and_empty_jwk_differ
      (ed25519Method "did:cheqd:test:alice#key-1" "did:cheqd:test:bob" "zA1")
      { ed25519Method "did:cheqd:test:alice#key-1" "did:cheqd:test:bob" "zA1" with
        PublicKeyJwk := some [] }
      bobKeyEmptyJwk bobKeyEmptyJwk.GetSigners (by decide) rfl
      (Or.inl ⟨rfl, rfl⟩)).1,
    (nil_and_empty_jwk_differ
      (ed25519Method "did:cheqd:test:alice#key-1" "did:cheqd:test:bob" "zA1")
      { ed25519Method "did:cheqd:test:alice#key-1" "did:cheqd:test:bob" "zA1" with
        PublicKeyJwk := some [] }
      bobKeyEmptyJwk bobKeyEmptyJwk.GetSigners (by decide) rfl
      (Or.inl ⟨rfl, rfl⟩)).2.2.2.1 (by decide)⟩

/-! ## The legacy count is always readable -/

namespace Legacy

theorem GetDidCount_SetDidCount (k : Keeper) (store : KVStore) (n : Nat) (h : n < 2 ^ 64) :
    GetDidCount k (SetDidCount k store n) = some n := by
  simp only [GetDidCount, SetDidCount, KVStore.Set, KVStore.Get, lookup_cons_self]
  exact ParseUint_FormatUint n h

/-- Every call keeps the count readable. -/
theorem Op.apply_keeps_count (k : Keeper) (store : KVStore) (op : Op) (count : Nat)
    (h : GetDidCount k store = some count) :
    ∃ after next, op.apply k store = some after ∧ GetDidCount k after = some next ∧
      after.Get k.countKey = some (FormatUint next) := by
  cases op with
  | setDidCount n =>
    refine ⟨_, n % 2 ^ 64, rfl,
      GetDidCount_SetDidCount k store _ (Nat.mod_lt _ (by norm_num)), ?_⟩
    simp only [SetDidCount, KVStore.Set, KVStore.Get, lookup_cons_self]
  | appendDid creator verkey aliasName =>
    have happ : Op.apply k store (.appendDid creator verkey aliasName) =
        some (SetDidCount k (store.Set (k.didKey count)
          (k.Marshal { Creator := creator, Id := count, Verkey := verkey,
                       Alias := aliasName })) ((count + 1) % 2 ^ 64)) := by
      simp only [Op.apply, AppendDid, h, Option.map_some']
    refine ⟨_, (count + 1) % 2 ^ 64, happ,
      GetDidCount_SetDidCount k _ _ (Nat.mod_lt _ (by norm_num)), ?_⟩
    simp only [SetDidCount, KVStore.Set, KVStore.Get, lookup_cons_self]

theorem runOps_keeps_count (k : Keeper) (ops : List Op) :
    ∀ (store : KVStore) (count : Nat), GetDidCount k store = some count →
      (store.Get k.countKey = none ∨ store.Get k.countKey = some (FormatUint count)) →
      ∃ after next, runOps k ops store = some after ∧ GetDidCount k after = some next ∧
        (after.Get k.countKey = none ∨ after.Get k.countKey = some (FormatUint next)) := by
  induction ops with
  | nil =>
    intro store count h hkey
    exact ⟨store, count, rfl, h, hkey⟩
  | cons op rest ih =>
    intro store count h _
    obtain ⟨after, next, hop, hnext, hstored⟩ := Op.apply_keeps_count k store op count h
    obtain ⟨final, last, hrun, hlast, hfinal⟩ := ih after next hnext (Or.inr hstored)
    refine ⟨final, last, ?_, hlast, hfinal⟩
    simp only [runOps, hop]
    exact hrun

/-- C36: GetDidCount returns 0 on a store without a count; after SetDidCount(n) with a
64-bit n it returns n; and every sequence of calls of SetDidCount and AppendDid from the
empty store runs without a panic and ends in a store whose count is either not stored or
the decimal text of a 64-bit number, which GetDidCount reads back. -/
theorem count_always_parses (k : Keeper) (ops : List Op) :
    GetDidCount k [] = some 0 ∧
    (∀ (store : KVStore) (n : Nat), n < 2 ^ 64 →
      GetDidCount k (SetDidCount k store n) = some n) ∧
    (∃ after count, runOps k ops [] = some after ∧ GetDidCount k after = some count ∧
      count < 2 ^ 64 ∧
      (after.Get k.countKey = none ∨ after.Get k.countKey = some (FormatUint count)) ∧
      ∃ id next, AppendDid k after "" "" "" = some (id, next)) := by
  refine ⟨rfl, fun store n h => GetDidCount_SetDidCount k store n h, ?_⟩
  obtain ⟨after, count, hrun, hcount, hstored⟩ :=
    runOps_keeps_count k ops [] 0 rfl (Or.inl rfl)
  refine ⟨after, count, hrun, hcount, GetDidCount_lt k after count hcount, hstored, ?_⟩
  exact ⟨count, SetDidCount k (after.Set (k.didKey count)
    (k.Marshal { Creator := "", Id := count, Verkey := "", Alias := "" }))
    ((count + 1) % 2 ^ 64), by simp only [AppendDid, hcount]⟩

/-- The case of C36 for two appends, a SetDidCount to the largest 64-bit number and a
further append: the count wraps to 0 and stays readable. -/
theorem count_always_parses_witness :
    (runOps someKeeper
      [.appendDid "a" "k" "x", .appendDid "b" "k" "y", .setDidCount (2 ^ 64 - 1),
        .appendDid "c" "k" "z"] []).bind (GetDidCount someKeeper) = some 0 ∧
    GetDidCount someKeeper [] = some 0 :=
  ⟨by decide, (count_always_parses someKeeper []).1⟩

end Legacy

/-! ## ValidateBase58 and ValidateMultibaseEncoding -/

namespace Utils

/-- C37: ValidateBase58(data) is ValidateMultibaseEncoding of 'z' followed by data with the
expected encoding Base58BTC.  For a Decode that names the encoding by the first character
of the text, as the package documents, a successful decoding of 'z' followed by data has
the encoding Base58BTC, so ValidateBase58 returns exactly the error of Decode and never
the text "invalid actualEncoding"; and ValidateMultibaseEncoding succeeds exactly when the
text decodes and its encoding is the expected one. -/
theorem base58_never_mismatches (mb : Multibase) (data : String)
    (hdecode : ∀ text encoding bytes, mb.Decode text = .ok (encoding, bytes) →
      text.toList.head? = some encoding) :
    ValidateBase58 mb data =
      ValidateMultibaseEncoding mb (String.singleton Base58BTC ++ data) Base58BTC ∧
    (∀ encoding bytes, mb.Decode (String.singleton Base58BTC ++ data) = .ok (encoding, bytes) →
      encoding = Base58BTC) ∧
    ValidateBase58 mb data = ValidateMultibase mb (String.singleton Base58BTC ++ data) ∧
    (ValidateBase58 mb data ≠ none ↔
      ∃ err, mb.Decode (String.singleton Base58BTC ++ data) = .error err) ∧
    (∀ err, ValidateBase58 mb data = some err →
      mb.Decode (String.singleton Base58BTC ++ data) = .error err) ∧
    (∀ text expected, ValidateMultibaseEncoding mb text expected = none ↔
      ∃ bytes, mb.Decode text = .ok (expected, bytes)) := by
  have henc : ∀ encoding bytes,
      mb.Decode (String.singleton Base58BTC ++ data) = .ok (encoding, bytes) →
        encoding = Base58BTC := by
    intro encoding bytes h
    have := hdecode _ encoding bytes h
    have hhead : (String.singleton Base58BTC ++ data).toList.head? = some Base58BTC := rfl
    rw [hhead] at this
    exact (Option.some.inj this).symm
  have hsame : ValidateBase58 mb data =
      ValidateMultibase mb (String.singleton Base58BTC ++ data) := by
    unfold ValidateBase58 ValidateMultibaseEncoding ValidateMultibase
    cases h : mb.Decode (String.singleton Base58BTC ++ data) with
    | error err => rfl
    | ok r =>
      obtain ⟨encoding, bytes⟩ := r
      have := henc encoding bytes h
      simp [this]
  refine ⟨rfl, henc, hsame, ?_, ?_, ?_⟩
  · rw [hsame]
    unfold ValidateMultibase
    cases mb.Decode (String.singleton Base58BTC ++ data) with
    | error err => simp
    | ok r => simp
  · intro err herr
    rw [hsame] at herr
    unfold ValidateMultibase at herr
    cases h : mb.Decode (String.singleton Base58BTC ++ data) with
    | error e =>
      rw [h] at herr
      simp only [Option.some.injEq] at herr
      rw [herr]
    | ok r =>
      rw [h] at herr
      cases herr
  · intro text expected
    unfold ValidateMultibaseEncoding
    cases h : mb.Decode text with
    | error err => simp
    | ok r =>
      obtain ⟨encoding, bytes⟩ := r
      by_cases he : encoding = expected
      · simp [he]
      · simp [he]

theorem base58_never_mismatches_witness :
    ValidateBase58 someMultibase "3mJr7AoU" = none ∧
    ValidateBase58 someMultibase "3mJr0AoU" = some "invalid base58 digit" ∧
    ValidateMultibaseEncoding someMultibase "f68656c6c6f" Base58BTC =
      some "invalid actualEncoding. expected: base58btc actual: base16" := by
  have hdecode : ∀ text encoding bytes, someMultibase.Decode text = .ok (encoding, bytes) →
      text.toList.head? = some encoding := by
    intro text encoding bytes h
    simp only [someMultibase] at h
    split at h
    · cases h
    · split_ifs at h
      cases h
      rename_i x rest heq hc
      simp only [heq, List.head?_cons]
    · split_ifs at h
      cases h
      rename_i x rest heq hc
      simp only [heq, List.head?_cons]
    · cases h
  have h := base58_never_mismatches someMultibase "3mJr0AoU" hdecode
  exact ⟨by decide, h.2.2.1.trans (by decide), by decide⟩

end Utils

/-! ## Varints: sovDid, encodeVarintDid and the base-128 loop -/

namespace Pb

theorem lenBits_le_iff : ∀ (fuel x : Nat), x < 2 ^ fuel → ∀ n, (lenBits fuel x ≤ n ↔ x < 2 ^ n) := by
  intro fuel
  induction fuel with
  | zero =>
    intro x hx n
    have h0 : x = 0 := by simpa using hx
    subst h0
    simp [lenBits]
  | succ fuel ih =>
    intro x hx n
    rw [lenBits]
    by_cases h0 : x = 0
    · subst h0
      simp
    · rw [if_neg h0]
      have hhalf : x / 2 < 2 ^ fuel := by
        rw [Nat.div_lt_iff_lt_mul (by norm_num)]
        rw [pow_succ] at hx
        exact hx
      cases n with
      | zero =>
        simp only [Nat.le_zero_eq, Nat.add_one_ne_zero, pow_zero, Nat.lt_one_iff, false_iff]
        exact h0
      | succ n =>
        rw [Nat.add_le_add_iff_right, ih (x / 2) hhalf n,
          Nat.div_lt_iff_lt_mul (by norm_num), pow_succ]

theorem or_one_eq (x : Nat) : x ||| 1 = if x % 2 = 0 then x + 1 else x := by
  have hx : x = 2 ^ 1 * (x / 2) + x % 2 := by
    rw [pow_one]
    exact (Nat.div_add_mod x 2).symm
  have h1 : (1 : Nat) < 2 ^ 1 := by norm_num
  split_ifs with h
  · rw [h, Nat.add_zero] at hx
    calc x ||| 1 = 2 ^ 1 * (x / 2) ||| 1 := by rw [← hx]
      _ = 2 ^ 1 * (x / 2) + 1 := (Nat.mul_add_lt_is_or h1 _).symm
      _ = x + 1 := by rw [← hx]
  · have hm : x % 2 = 1 := by omega
    rw [hm] at hx
    calc x ||| 1 = (2 ^ 1 * (x / 2) + 1) ||| 1 := by rw [← hx]
      _ = (2 ^ 1 * (x / 2) ||| 1) ||| 1 := by rw [Nat.mul_add_lt_is_or h1]
      _ = 2 ^ 1 * (x / 2) ||| (1 ||| 1) := Nat.lor_assoc _ _ _
      _ = 2 ^ 1 * (x / 2) ||| 1 := by rw [Nat.or_self]
      _ = 2 ^ 1 * (x / 2) + 1 := (Nat.mul_add_lt_is_or h1 _).symm
      _ = x := hx.symm

theorem or_one_lt_iff (x k : Nat) (hk : 1 ≤ k) : x ||| 1 < 2 ^ k ↔ x < 2 ^ k := by
  rw [or_one_eq]
  split_ifs with h
  · constructor
    · intro hlt
      omega
    · intro hlt
      obtain ⟨j, rfl⟩ : ∃ j, k = j + 1 := ⟨k - 1, by omega⟩
      rw [pow_succ] at hlt ⊢
      omega
  · rfl

/-- The number `sovDid v` is the least positive `n` with `v < 2^(7n)`. -/
theorem sovDid_spec (v : Nat) (hv : v < 2 ^ 64) :
    1 ≤ sovDid v ∧ sovDid v ≤ 10 ∧ v < 2 ^ (7 * sovDid v) ∧
      ∀ n, 1 ≤ n → v < 2 ^ (7 * n) → sovDid v ≤ n := by
  have hor : v ||| 1 < 2 ^ 64 := Nat.or_lt_two_pow hv (by norm_num)
  have hlen : ∀ n, (Len64 (v ||| 1) ≤ n ↔ v ||| 1 < 2 ^ n) := by
    intro n
    unfold Len64
    rw [Nat.mod_eq_of_lt hor]
    exact lenBits_le_iff 64 _ hor n
  have hpos : 1 ≤ Len64 (v ||| 1) := by
    by_contra hlt
    have h0 : Len64 (v ||| 1) ≤ 0 := by omega
    rw [hlen 0, or_one_eq] at h0
    split_ifs at h0 <;> omega
  have hle : Len64 (v ||| 1) ≤ 64 := (hlen 64).mpr hor
  refine ⟨?_, ?_, ?_, ?_⟩
  · unfold sovDid
    omega
  · unfold sovDid
    omega
  · rw [← or_one_lt_iff v _ (by unfold sovDid; omega), ← hlen]
    unfold sovDid
    omega
  · intro n hn hlt
    rw [← or_one_lt_iff v _ (by omega), ← hlen] at hlt
    unfold sovDid
    omega

theorem two_pow_seven_succ (k : Nat) : 2 ^ (7 * (k + 1)) = 2 ^ (7 * k) * 128 := by
  rw [Nat.mul_succ, pow_add]
  norm_num

theorem uvarint_length : ∀ (fuel v n : Nat), 1 ≤ n → n ≤ fuel + 1 → v < 2 ^ (7 * n) →
    (∀ m, 1 ≤ m → v < 2 ^ (7 * m) → n ≤ m) → (uvarint fuel v).length = n := by
  intro fuel
  induction fuel with
  | zero =>
    intro v n h1 h2 _ _
    simp only [uvarint, List.length_singleton]
    omega
  | succ fuel ih =>
    intro v n h1 h2 hlt hmin
    rw [uvarint]
    by_cases hv : v ≥ 128
    · rw [if_pos hv, List.length_cons]
      have hn : 2 ≤ n := by
        by_contra hc
        have h1n : n = 1 := by omega
        rw [h1n] at hlt
        norm_num at hlt
        omega
      obtain ⟨j, rfl⟩ : ∃ j, n = j + 1 := ⟨n - 1, by omega⟩
      rw [ih (v / 128) j (by omega) (by omega) ?_ ?_]
      · rw [two_pow_seven_succ] at hlt
        exact (Nat.div_lt_iff_lt_mul (by norm_num)).mpr hlt
      · intro m hm hlt2
        have := hmin (m + 1) (by omega)
          (by rw [two_pow_seven_succ]; exact (Nat.div_lt_iff_lt_mul (by norm_num)).mp hlt2)
        omega
    · rw [if_neg hv, List.length_singleton]
      have := hmin 1 (Nat.le_refl 1) (by norm_num; omega)
      omega

theorem uvarint_length_eq_sovDid (v : Nat) (hv : v < 2 ^ 64) :
    (uvarint 9 v).length = sovDid v := by
  obtain ⟨h1, h2, h3, h4⟩ := sovDid_spec v hv
  exact uvarint_length 9 v (sovDid v) h1 (by omega) h3 h4

theorem uvarint_lt_256 : ∀ (fuel v : Nat), v < 2 ^ (7 * (fuel + 1)) →
    ∀ b ∈ uvarint fuel v, b < 256 := by
  intro fuel
  induction fuel with
  | zero =>
    intro v hv b hb
    simp only [uvarint, List.mem_singleton] at hb
    norm_num at hv
    omega
  | succ fuel ih =>
    intro v hv b hb
    rw [uvarint] at hb
    split_ifs at hb with h
    · rcases List.mem_cons.mp hb with rfl | hb
      · omega
      · apply ih (v / 128) _ b hb
        rw [two_pow_seven_succ] at hv
        exact (Nat.div_lt_iff_lt_mul (by norm_num)).mpr hv
    · simp only [List.mem_singleton] at hb
      omega

end Pb

namespace Pb

theorem set_at_length (pre : List Nat) (j x : Nat) (rest : List Nat) :
    (pre ++ j :: rest).set pre.length x = pre ++ x :: rest := by
  induction pre with
  | nil => rfl
  | cons p pre ih => simp [ih]

theorem getElem?_at_length (pre : List Nat) (b : Nat) (rest : List Nat) :
    (pre ++ b :: rest)[pre.length]? = some b := by
  induction pre with
  | nil => simp
  | cons p pre ih => simpa using ih

theorem and_127 (v : Nat) : v &&& 0x7f = v % 128 :=
  Nat.and_pow_two_sub_one_eq_mod v 7

theorem or_128 (x : Nat) (hx : x < 128) : x ||| 0x80 = x + 128 := by
  have h := Nat.mul_add_lt_is_or (i := 7) (b := x) (by norm_num; exact hx) 1
  rw [Nat.lor_comm]
  norm_num at h ⊢
  omega

theorem continuation_byte (v : Nat) : (v &&& 0x7f ||| 0x80) % 256 = v % 128 + 128 := by
  rw [and_127, or_128 _ (Nat.mod_lt _ (by norm_num))]
  omega

/-- One step of the base-128 loop adds the group of seven bits at `shift`. -/
theorem or_group (wire b shift : Nat) (hwire : wire < 2 ^ shift)
    (hsum : wire + b % 128 * 2 ^ shift < 2 ^ 64) :
    wire ||| ((b &&& 0x7F) <<< shift) % 2 ^ 64 = wire + b % 128 * 2 ^ shift := by
  rw [and_127, Nat.shiftLeft_eq, Nat.mod_eq_of_lt (by omega), Nat.lor_comm,
    Nat.mul_comm (b % 128), ← Nat.mul_add_lt_is_or hwire, Nat.add_comm]

/-- The loop of encodeVarintDid writes the bytes of the varint over as many bytes of the
buffer and leaves the bytes before and after them as they were. -/
theorem encodeVarintLoop_spec : ∀ (k v : Nat) (pre junk suffix : List Nat),
    v < 2 ^ (7 * (k + 1)) → junk.length = (uvarint k v).length →
      encodeVarintLoop (k + 1) (pre ++ junk ++ suffix) pre.length v =
        some (pre ++ uvarint k v ++ suffix) := by
  have hlast : ∀ (k v : Nat) (pre junk suffix : List Nat), v < 128 → junk.length = 1 →
      encodeVarintLoop (k + 1) (pre ++ junk ++ suffix) pre.length v =
        some (pre ++ [v] ++ suffix) := by
    intro k v pre junk suffix hv hlen
    obtain ⟨j, rfl⟩ := List.length_eq_one.mp hlen
    rw [encodeVarintLoop]
    have h128 : ¬ v ≥ 1 <<< 7 := by
      norm_num [Nat.shiftLeft_eq]
      exact hv
    rw [if_neg h128, if_pos (by simp)]
    rw [List.append_assoc, List.singleton_append, set_at_length, Nat.mod_eq_of_lt (by omega)]
    simp
  intro k
  induction k with
  | zero =>
    intro v pre junk suffix hv hlen
    exact hlast 0 v pre junk suffix (by norm_num at hv; exact hv) (by simpa [uvarint] using hlen)
  | succ k ih =>
    intro v pre junk suffix hv hlen
    by_cases h : v ≥ 128
    · rw [uvarint, if_pos h] at hlen ⊢
      cases junk with
      | nil => simp at hlen
      | cons j junk =>
        rw [encodeVarintLoop]
        have h128 : v ≥ 1 <<< 7 := by
          norm_num [Nat.shiftLeft_eq]
          exact h
        rw [if_pos h128, if_pos (by simp)]
        rw [List.append_assoc, List.cons_append, set_at_length, continuation_byte,
          Nat.shiftRight_eq_div_pow]
        have hrec := ih (v / 128) (pre ++ [v % 128 + 128]) junk suffix
          (by
            rw [two_pow_seven_succ] at hv
            exact (Nat.div_lt_iff_lt_mul (by norm_num)).mpr hv)
          (by simpa using hlen)
        simp only [List.length_append, List.length_singleton, List.append_assoc,
          List.singleton_append, List.cons_append, List.nil_append] at hrec
        norm_num
        rw [hrec]
    · have hv128 : v < 128 := by omega
      rw [uvarint, if_neg h] at hlen ⊢
      exact hlast (k + 1) v pre junk suffix hv128 (by simpa using hlen)

/-- The base-128 loop reads the bytes of a varint back to its value. -/
theorem decodeVarint_uvarint : ∀ (k v : Nat) (pre rest : List Nat) (shift wire fuel : Nat),
    v < 2 ^ (7 * (k + 1)) → k + 1 ≤ fuel → shift < 64 → wire < 2 ^ shift →
      wire + v * 2 ^ shift < 2 ^ 64 →
      decodeVarint (pre ++ uvarint k v ++ rest) fuel shift pre.length wire =
        some (.ok (wire + v * 2 ^ shift, pre.length + (uvarint k v).length)) := by
  have hlast : ∀ (v : Nat) (pre rest : List Nat) (shift wire fuel : Nat), v < 128 →
      1 ≤ fuel → shift < 64 → wire < 2 ^ shift → wire + v * 2 ^ shift < 2 ^ 64 →
      decodeVarint (pre ++ [v] ++ rest) fuel shift pre.length wire =
        some (.ok (wire + v * 2 ^ shift, pre.length + 1)) := by
    intro v pre rest shift wire fuel hv hfuel hshift hwire hsum
    obtain ⟨f, rfl⟩ : ∃ f, fuel = f + 1 := ⟨fuel - 1, by omega⟩
    rw [decodeVarint, if_neg (by omega), if_neg (by simp)]
    rw [List.append_assoc, List.singleton_append, getElem?_at_length]
    have hmod : v % 128 = v := Nat.mod_eq_of_lt hv
    simp only
    rw [or_group wire v shift hwire (by rw [hmod]; exact hsum), hmod, if_pos (by omega)]
  intro k
  induction k with
  | zero =>
    intro v pre rest shift wire fuel hv hfuel hshift hwire hsum
    simp only [uvarint, List.length_singleton]
    exact hlast v pre rest shift wire fuel (by norm_num at hv; exact hv) hfuel hshift hwire hsum
  | succ k ih =>
    intro v pre rest shift wire fuel hv hfuel hshift hwire hsum
    by_cases h : v ≥ 128
    · rw [uvarint, if_pos h]
      obtain ⟨f, rfl⟩ : ∃ f, fuel = f + 1 := ⟨fuel - 1, by omega⟩
      have hsplit : v % 128 * 2 ^ shift + v / 128 * 2 ^ (shift + 7) = v * 2 ^ shift := by
        have hv2 := Nat.div_add_mod v 128
        rw [pow_add]
        conv_rhs => rw [← hv2]
        ring
      have hge : 2 ^ (shift + 7) ≤ v / 128 * 2 ^ (shift + 7) :=
        Nat.le_mul_of_pos_left _ (Nat.div_pos h (by norm_num))
      have hshift7 : shift + 7 < 64 := by
        have hlt : 2 ^ (shift + 7) < 2 ^ 64 := by omega
        exact (Nat.pow_lt_pow_iff_right (by norm_num)).mp hlt
      have hgroup : wire + (v % 128 + 128) % 128 * 2 ^ shift = wire + v % 128 * 2 ^ shift := by
        congr 2
        omega
      have hwire2 : wire + v % 128 * 2 ^ shift < 2 ^ (shift + 7) := by
        have hm : v % 128 ≤ 127 := by omega
        have : v % 128 * 2 ^ shift ≤ 127 * 2 ^ shift := Nat.mul_le_mul_right _ hm
        rw [pow_add]
        omega
      rw [decodeVarint, if_neg (by omega), if_neg (by simp)]
      rw [List.append_assoc, List.cons_append, getElem?_at_length]
      simp only
      rw [or_group wire (v % 128 + 128) shift hwire (by rw [hgroup]; omega), hgroup,
        if_neg (by omega)]
      have hrec := ih (v / 128) (pre ++ [v % 128 + 128]) rest (shift + 7)
        (wire + v % 128 * 2 ^ shift) f
        (by
          rw [two_pow_seven_succ] at hv
          exact (Nat.div_lt_iff_lt_mul (by norm_num)).mpr hv)
        (by omega) hshift7 hwire2 (by omega)
      simp only [List.length_append, List.length_singleton, List.append_assoc,
        List.singleton_append, List.cons_append, List.nil_append] at hrec
      rw [hrec, List.length_cons]
      congr 3
      · omega
      · omega
    · have hv128 : v < 128 := by omega
      rw [uvarint, if_neg h]
      exact hlast v pre rest shift wire fuel hv128 (by omega) hshift hwire hsum

end Pb

/-! ## Unmarshal and skipDid return on every input -/

namespace Pb

/-- The base-128 loop returns, and a value it returns ends after at least one byte and
inside the input. -/
theorem decodeVarint_total (dAtA : List Nat) :
    ∀ (fuel shift iNdEx wire : Nat), 1 ≤ fuel → 64 ≤ shift + 7 * (fuel - 1) →
      ∃ r, decodeVarint dAtA fuel shift iNdEx wire = some r ∧
        ∀ w j, r = .ok (w, j) → iNdEx < j ∧ j ≤ dAtA.length := by
  intro fuel
  induction fuel with
  | zero => intro shift iNdEx wire h; omega
  | succ fuel ih =>
    intro shift iNdEx wire _ hbound
    rw [decodeVarint]
    by_cases hshift : shift ≥ 64
    · rw [if_pos hshift]
      exact ⟨_, rfl, fun w j h => by cases h⟩
    · rw [if_neg hshift]
      by_cases hend : iNdEx ≥ dAtA.length
      · rw [if_pos hend]
        exact ⟨_, rfl, fun w j h => by cases h⟩
      · rw [if_neg hend]
        have hlt : iNdEx < dAtA.length := by omega
        rw [List.getElem?_eq_getElem hlt]
        simp only
        by_cases hb : dAtA[iNdEx] < 0x80
        · rw [if_pos hb]
          refine ⟨_, rfl, fun w j h => ?_⟩
          simp only [Except.ok.injEq, Prod.mk.injEq] at h
          omega
        · rw [if_neg hb]
          obtain ⟨r, hr, hprop⟩ := ih (shift + 7) (iNdEx + 1)
            (wire ||| ((dAtA[iNdEx] &&& 0x7F) <<< shift) % 2 ^ 64) (by omega) (by omega)
          refine ⟨r, hr, fun w j h => ?_⟩
          have := hprop w j h
          omega

theorem decodeVarint_cases (dAtA : List Nat) (iNdEx : Nat) :
    (∃ e, decodeVarint dAtA 11 0 iNdEx 0 = some (.error e)) ∨
    (∃ w j, decodeVarint dAtA 11 0 iNdEx 0 = some (.ok (w, j)) ∧ iNdEx < j ∧
      j ≤ dAtA.length) := by
  obtain ⟨r, hr, hprop⟩ := decodeVarint_total dAtA 11 0 iNdEx 0 (by norm_num) (by norm_num)
  cases r with
  | error e => exact Or.inl ⟨e, hr⟩
  | ok p =>
    obtain ⟨w, j⟩ := p
    exact Or.inr ⟨w, j, hr, hprop w j rfl⟩

theorem readString_cases (dAtA : List Nat) (iNdEx : Nat) :
    (∃ e, readString dAtA iNdEx = some (.error e)) ∨
    (∃ bytes j, readString dAtA iNdEx = some (.ok (bytes, j)) ∧ iNdEx < j ∧
      j ≤ dAtA.length) := by
  unfold readString
  rcases decodeVarint_cases dAtA iNdEx with ⟨e, he⟩ | ⟨w, j, hw, hlt, hle⟩
  · rw [he]
    exact Or.inl ⟨e, rfl⟩
  · rw [hw]
    simp only
    by_cases h1 : w ≥ 2 ^ 63
    · rw [if_pos h1]
      exact Or.inl ⟨_, rfl⟩
    · rw [if_neg h1]
      by_cases h2 : j + w ≥ 2 ^ 63
      · rw [if_pos h2]
        exact Or.inl ⟨_, rfl⟩
      · rw [if_neg h2]
        by_cases h3 : j + w > dAtA.length
        · rw [if_pos h3]
          exact Or.inl ⟨_, rfl⟩
        · rw [if_neg h3]
          have hs : slice dAtA j (j + w) = some ((dAtA.drop j).take (j + w - j)) := by
            unfold slice
            rw [if_pos ⟨by omega, by omega⟩]
          rw [hs]
          exact Or.inr ⟨_, _, rfl, by omega, by omega⟩

theorem skipField_cases (dAtA : List Nat) (wireType iNdEx depth : Nat) :
    (∃ e, skipField dAtA wireType iNdEx depth = some (.error e)) ∨
    (∃ j d, skipField dAtA wireType iNdEx depth = some (.ok (j, d)) ∧ iNdEx ≤ j) := by
  unfold skipField
  split_ifs with h0 h1 h2 h3 h4 h5 h6
  · rcases decodeVarint_cases dAtA iNdEx with ⟨e, he⟩ | ⟨w, j, hw, hlt, _⟩
    · rw [he]
      exact Or.inl ⟨e, rfl⟩
    · rw [hw]
      exact Or.inr ⟨j, depth, rfl, by omega⟩
  · exact Or.inr ⟨_, _, rfl, by omega⟩
  · rcases decodeVarint_cases dAtA iNdEx with ⟨e, he⟩ | ⟨w, j, hw, hlt, _⟩
    · rw [he]
      exact Or.inl ⟨e, rfl⟩
    · rw [hw]
      simp only
      by_cases hl : w ≥ 2 ^ 63
      · rw [if_pos hl]
        exact Or.inl ⟨_, rfl⟩
      · rw [if_neg hl]
        exact Or.inr ⟨_, _, rfl, by omega⟩
  · exact Or.inr ⟨_, _, rfl, Nat.le_refl _⟩
  · exact Or.inl ⟨_, rfl⟩
  · exact Or.inr ⟨_, _, rfl, Nat.le_refl _⟩
  · exact Or.inr ⟨_, _, rfl, by omega⟩
  · exact Or.inl ⟨_, rfl⟩

/-- The loop of skipDid returns, and a length it returns is past the start index. -/
theorem skipLoop_total (dAtA : List Nat) :
    ∀ (fuel iNdEx depth : Nat), 1 ≤ fuel → dAtA.length < fuel + iNdEx →
      ∃ r, skipLoop dAtA fuel iNdEx depth = some r ∧ ∀ n, r = .ok n → iNdEx < n := by
  intro fuel
  induction fuel with
  | zero => intro iNdEx depth h; omega
  | succ fuel ih =>
    intro iNdEx depth _ hbound
    rw [skipLoop]
    by_cases hlt : iNdEx < dAtA.length
    · rw [if_pos hlt]
      rcases decodeVarint_cases dAtA iNdEx with ⟨e, he⟩ | ⟨w, j, hw, hij, _⟩
      · rw [he]
        exact ⟨_, rfl, fun n h => by cases h⟩
      · rw [hw]
        simp only
        rcases skipField_cases dAtA (w &&& 0x7) j depth with ⟨e, he⟩ | ⟨j2, d, hs, hj⟩
        · rw [he]
          exact ⟨_, rfl, fun n h => by cases h⟩
        · rw [hs]
          simp only
          by_cases hneg : j2 ≥ 2 ^ 63
          · rw [if_pos hneg]
            exact ⟨_, rfl, fun n h => by cases h⟩
          · rw [if_neg hneg]
            by_cases hd : d = 0
            · rw [if_pos hd]
              refine ⟨_, rfl, fun n h => ?_⟩
              simp only [Except.ok.injEq] at h
              omega
            · rw [if_neg hd]
              obtain ⟨r, hr, hprop⟩ := ih j2 d (by omega) (by omega)
              refine ⟨r, hr, fun n h => ?_⟩
              have := hprop n h
              omega
    · rw [if_neg hlt]
      exact ⟨_, rfl, fun n h => by cases h⟩

theorem skipDid_cases (dAtA : List Nat) :
    (∃ e, skipDid dAtA = some (.error e)) ∨ (∃ n, skipDid dAtA = some (.ok n) ∧ 0 < n) := by
  obtain ⟨r, hr, hprop⟩ := skipLoop_total dAtA (dAtA.length + 1) 0 0 (by omega) (by omega)
  cases r with
  | error e => exact Or.inl ⟨e, hr⟩
  | ok n => exact Or.inr ⟨n, hr, hprop n rfl⟩

/-- The loop of Unmarshal returns from every index inside the input when the fuel exceeds
the number of bytes left. -/
theorem unmarshalLoop_total (dAtA : List Nat) :
    ∀ (fuel : Nat) (m : Service) (iNdEx : Nat), iNdEx ≤ dAtA.length →
      dAtA.length < fuel + iNdEx → ∃ r, unmarshalLoop dAtA fuel m iNdEx = some r := by
  intro fuel
  induction fuel with
  | zero => intro m iNdEx h1 h2; omega
  | succ fuel ih =>
    intro m iNdEx hle hbound
    rw [unmarshalLoop]
    by_cases hlt : iNdEx < dAtA.length
    · rw [if_pos hlt]
      simp only
      rcases decodeVarint_cases dAtA iNdEx with ⟨e, he⟩ | ⟨w, j, hw, hij, hjl⟩
      · rw [he]
        exact ⟨_, rfl⟩
      · rw [hw]
        simp only
        have hread : ∀ (set : List Nat → Service),
            ∃ r, (match readString dAtA j with
              | none => none
              | some (.error e) => some (.error e)
              | some (.ok (bytes, iNdEx)) => unmarshalLoop dAtA fuel (set bytes) iNdEx) =
              some r := by
          intro set
          rcases readString_cases dAtA j with ⟨e, he⟩ | ⟨bytes, j2, hb, hj2, hj2l⟩
          · rw [he]
            exact ⟨_, rfl⟩
          · rw [hb]
            exact ih (set bytes) j2 hj2l (by omega)
        split_ifs
        · exact ⟨_, rfl⟩
        · exact ⟨_, rfl⟩
        · exact ⟨_, rfl⟩
        · exact hread (fun bytes => { m with Id := bytes })
        · exact ⟨_, rfl⟩
        · exact hread (fun bytes => { m with Typ := bytes })
        · exact ⟨_, rfl⟩
        · exact hread (fun bytes => { m with ServiceEndpoint := bytes })
        · have hs : slice dAtA iNdEx dAtA.length =
              some ((dAtA.drop iNdEx).take (dAtA.length - iNdEx)) := by
            unfold slice
            rw [if_pos ⟨hle, Nat.le_refl _⟩]
          rw [hs]
          simp only
          rcases skipDid_cases ((dAtA.drop iNdEx).take (dAtA.length - iNdEx)) with
            ⟨e, he⟩ | ⟨n, hn, hpos⟩
          · rw [he]
            exact ⟨_, rfl⟩
          · rw [hn]
            simp only
            split_ifs with h1 h2
            · exact ⟨_, rfl⟩
            · exact ⟨_, rfl⟩
            · exact ih m (iNdEx + n) (by omega) (by omega)
    · rw [if_neg hlt]
      split_ifs
      · exact ⟨_, rfl⟩
      · exact ⟨_, rfl⟩

end Pb

/-! ## Marshal writes the fields in order -/

namespace Pb

theorem encodeVarintDid_parts (pre junk suffix : List Nat) (v : Nat) (hv : v < 2 ^ 64)
    (hlen : junk.length = sovDid v) :
    encodeVarintDid (pre ++ junk ++ suffix) (pre.length + junk.length) v =
      some (pre ++ uvarint 9 v ++ suffix, pre.length) := by
  unfold encodeVarintDid
  rw [if_neg (by omega)]
  simp only
  have hoff : pre.length + junk.length - sovDid v = pre.length := by omega
  rw [hoff, encodeVarintLoop_spec 9 v pre junk suffix (by norm_num; omega)
    (by rw [uvarint_length_eq_sovDid v hv]; exact hlen)]
  rfl

theorem copyAt_parts (pre junk suffix src : List Nat) (hlen : junk.length = src.length) :
    copyAt (pre ++ junk ++ suffix) pre.length src = pre ++ src ++ suffix := by
  unfold copyAt
  have h1 : (pre ++ junk ++ suffix).take pre.length = pre := by
    rw [List.append_assoc]
    exact List.take_left' rfl
  have h2 : src.take ((pre ++ junk ++ suffix).length - pre.length) = src := by
    apply List.take_of_length_le
    simp only [List.length_append]
    omega
  have h3 : (pre ++ junk ++ suffix).drop (pre.length + src.length) = suffix := by
    apply List.drop_left'
    simp only [List.length_append]
    omega
  rw [h1, h2, h3]

/-- One block of MarshalToSizedBuffer writes the wire form of the field over the bytes in
front of `i` and moves `i` to its start. -/
theorem marshalField_spec (pre junk suffix field : List Nat) (fieldNum tag : Nat)
    (htag : tag = fieldNum * 8 + 2) (hfield : field.length < 2 ^ 64)
    (hlen : junk.length = (optionalField fieldNum field).length) :
    marshalField (pre ++ junk ++ suffix) (pre.length + junk.length) field tag =
      some (pre ++ optionalField fieldNum field ++ suffix, pre.length) := by
  subst htag
  by_cases hpos : field.length > 0
  · have hopt : optionalField fieldNum field = fieldBytes fieldNum field := by
      unfold optionalField
      rw [if_pos hpos]
    rw [hopt] at hlen ⊢
    unfold marshalField
    rw [if_pos hpos]
    have hsov := uvarint_length_eq_sovDid field.length hfield
    simp only [fieldBytes, List.length_cons, List.length_append, hsov] at hlen
    rw [if_neg (by omega)]
    simp only
    cases junk with
    | nil => simp at hlen
    | cons j0 tail =>
      simp only [List.length_cons] at hlen
      have htail : tail = tail.take (sovDid field.length) ++ tail.drop (sovDid field.length) :=
        (List.take_append_drop _ _).symm
      have hj1 : (tail.take (sovDid field.length)).length = sovDid field.length := by
        rw [List.length_take]
        omega
      have hj2 : (tail.drop (sovDid field.length)).length = field.length := by
        rw [List.length_drop]
        omega
      generalize tail.take (sovDid field.length) = j1 at htail hj1
      generalize tail.drop (sovDid field.length) = j2 at htail hj2
      subst htail
      have hi : pre.length + (j0 :: (j1 ++ j2)).length - field.length =
          (pre ++ j0 :: j1).length := by
        simp only [List.length_cons, List.length_append]
        omega
      have hbuf : pre ++ j0 :: (j1 ++ j2) ++ suffix = (pre ++ j0 :: j1) ++ j2 ++ suffix := by
        simp
      rw [hi, hbuf, copyAt_parts (pre ++ j0 :: j1) j2 suffix field hj2]
      have hbuf2 : pre ++ j0 :: j1 ++ field ++ suffix =
          (pre ++ [j0]) ++ j1 ++ (field ++ suffix) := by
        simp
      have hoff : (pre ++ j0 :: j1).length = (pre ++ [j0]).length + j1.length := by
        simp only [List.length_cons, List.length_append, List.length_nil]
        omega
      rw [hbuf2, hoff, encodeVarintDid_parts (pre ++ [j0]) j1 (field ++ suffix) field.length
        hfield hj1]
      simp only [List.length_append, List.length_singleton]
      rw [if_neg (by omega), if_pos (by omega)]
      have hset : (pre ++ [j0] ++ uvarint 9 field.length ++ (field ++ suffix)).set
          (pre.length + 1 - 1) (fieldNum * 8 + 2) =
          pre ++ fieldBytes fieldNum field ++ suffix := by
        have : pre ++ [j0] ++ uvarint 9 field.length ++ (field ++ suffix) =
            pre ++ j0 :: (uvarint 9 field.length ++ (field ++ suffix)) := by
          simp
        rw [this, Nat.add_sub_cancel, set_at_length]
        simp [fieldBytes]
      rw [hset, Nat.add_sub_cancel]
  · have hopt : optionalField fieldNum field = [] := by
      unfold optionalField
      rw [if_neg hpos]
    rw [hopt] at hlen ⊢
    have hnil : junk = [] := List.length_eq_zero.mp hlen
    subst hnil
    unfold marshalField
    rw [if_neg hpos]
    simp

theorem optionalField_length (fieldNum : Nat) (field : List Nat) (hfield : field.length < 2 ^ 64) :
    (optionalField fieldNum field).length =
      if field.length > 0 then 1 + field.length + sovDid field.length else 0 := by
  unfold optionalField
  split_ifs
  · simp only [fieldBytes, List.length_cons, List.length_append,
      uvarint_length_eq_sovDid field.length hfield]
    omega
  · rfl

theorem Size_eq (m : Service) (h1 : m.Id.length < 2 ^ 64) (h2 : m.Typ.length < 2 ^ 64)
    (h3 : m.ServiceEndpoint.length < 2 ^ 64) :
    m.Size = (optionalField 1 m.Id).length + (optionalField 2 m.Typ).length +
      (optionalField 3 m.ServiceEndpoint).length := by
  rw [optionalField_length 1 _ h1, optionalField_length 2 _ h2, optionalField_length 3 _ h3]
  unfold Service.Size
  simp only
  split_ifs <;> omega

/-- Marshal returns the wire forms of the three fields, in the order of their numbers,
the empty ones left out. -/
theorem Marshal_eq (m : Service) (h1 : m.Id.length < 2 ^ 64) (h2 : m.Typ.length < 2 ^ 64)
    (h3 : m.ServiceEndpoint.length < 2 ^ 64) :
    m.Marshal = some (optionalField 1 m.Id ++ optionalField 2 m.Typ ++
      optionalField 3 m.ServiceEndpoint) := by
  unfold Service.Marshal Service.MarshalToSizedBuffer
  simp only
  rw [Size_eq m h1 h2 h3]
  generalize ha : (optionalField 1 m.Id).length = a
  generalize hb : (optionalField 2 m.Typ).length = b
  generalize hc : (optionalField 3 m.ServiceEndpoint).length = c
  have htake : (List.replicate (a + b + c) 0).take (a + b + c) = List.replicate (a + b + c) 0 :=
    List.take_of_length_le (by rw [List.length_replicate])
  rw [htake]
  have s1 : marshalField (List.replicate (a + b + c) 0) (List.replicate (a + b + c) 0).length
      m.ServiceEndpoint 0x1a =
      some (List.replicate (a + b) 0 ++ optionalField 3 m.ServiceEndpoint, a + b) := by
    have h := marshalField_spec (List.replicate (a + b) 0) (List.replicate c 0) []
      m.ServiceEndpoint 3 0x1a rfl h3 (by rw [List.length_replicate, hc])
    simp only [List.append_nil, List.length_replicate, ← List.replicate_add] at h
    rw [List.length_replicate]
    exact h
  rw [s1]
  simp only
  have s2 : marshalField (List.replicate (a + b) 0 ++ optionalField 3 m.ServiceEndpoint)
      (a + b) m.Typ 0x12 =
      some (List.replicate a 0 ++ optionalField 2 m.Typ ++ optionalField 3 m.ServiceEndpoint,
        a) := by
    have h := marshalField_spec (List.replicate a 0) (List.replicate b 0)
      (optionalField 3 m.ServiceEndpoint) m.Typ 2 0x12 rfl h2
      (by rw [List.length_replicate, hb])
    simp only [List.length_replicate, ← List.replicate_add] at h
    exact h
  rw [s2]
  simp only
  have s3 : marshalField
      (List.replicate a 0 ++ optionalField 2 m.Typ ++ optionalField 3 m.ServiceEndpoint) a
      m.Id 0xa =
      some (optionalField 1 m.Id ++ optionalField 2 m.Typ ++ optionalField 3 m.ServiceEndpoint,
        0) := by
    have h := marshalField_spec [] (List.replicate a 0)
      (optionalField 2 m.Typ ++ optionalField 3 m.ServiceEndpoint) m.Id 1 0xa rfl h1
      (by rw [List.length_replicate, ha])
    simp only [List.length_replicate, List.nil_append, List.length_nil, Nat.zero_add,
      ← List.append_assoc] at h
    exact h
  rw [s3]
  simp only [Nat.sub_zero, List.take_length]

end Pb

/-! ## Unmarshal reads back what Marshal writes -/

namespace Pb

theorem readString_field (pre field rest : List Nat)
    (hlen : (pre ++ uvarint 9 field.length ++ field ++ rest).length < 2 ^ 63) :
    readString (pre ++ uvarint 9 field.length ++ field ++ rest) pre.length =
      some (.ok (field, pre.length + (uvarint 9 field.length).length + field.length)) := by
  have hl := hlen
  simp only [List.length_append] at hl
  have hdec := decodeVarint_uvarint 9 field.length pre (field ++ rest) 0 0 11
    (by norm_num; omega) (by norm_num) (by norm_num) (by norm_num) (by norm_num; omega)
  simp only [Nat.zero_add, pow_zero, Nat.mul_one, ← List.append_assoc] at hdec
  unfold readString
  rw [hdec]
  simp only
  rw [if_neg (by omega), if_neg (by omega),
    if_neg (by simp only [List.length_append]; omega)]
  have hs : slice (pre ++ uvarint 9 field.length ++ field ++ rest)
      (pre.length + (uvarint 9 field.length).length)
      (pre.length + (uvarint 9 field.length).length + field.length) = some field := by
    unfold slice
    rw [if_pos ⟨by omega, by simp only [List.length_append]; omega⟩]
    have hd : (pre ++ uvarint 9 field.length ++ field ++ rest).drop
        (pre.length + (uvarint 9 field.length).length) = field ++ rest := by
      rw [List.append_assoc (pre ++ uvarint 9 field.length)]
      exact List.drop_left' (by simp only [List.length_append])
    rw [hd, Nat.add_sub_cancel_left]
    exact congrArg some (List.take_left' rfl)
  rw [hs]

/-- One iteration of the loop of Unmarshal on the wire form of a string field with the
number 1, 2 or 3 makes the assignment of the field and moves to the end of the field. -/
theorem unmarshalLoop_field (pre field rest : List Nat) (fieldNum fuel : Nat) (m : Service)
    (hnum : fieldNum = 1 ∨ fieldNum = 2 ∨ fieldNum = 3)
    (hlen : (pre ++ fieldBytes fieldNum field ++ rest).length < 2 ^ 63) :
    unmarshalLoop (pre ++ fieldBytes fieldNum field ++ rest) (fuel + 1) m pre.length =
      unmarshalLoop (pre ++ fieldBytes fieldNum field ++ rest) fuel
        (m.setField fieldNum field) (pre.length + (fieldBytes fieldNum field).length) := by
  have hbuf : pre ++ fieldBytes fieldNum field ++ rest =
      (pre ++ [fieldNum * 8 + 2]) ++ uvarint 9 field.length ++ field ++ rest := by
    simp [fieldBytes]
  have htag : decodeVarint (pre ++ fieldBytes fieldNum field ++ rest) 11 0 pre.length 0 =
      some (.ok (fieldNum * 8 + 2, pre.length + 1)) := by
    have h := decodeVarint_uvarint 0 (fieldNum * 8 + 2) pre
      (uvarint 9 field.length ++ field ++ rest) 0 0 11
      (by rcases hnum with rfl | rfl | rfl <;> norm_num) (by norm_num) (by norm_num)
      (by norm_num) (by rcases hnum with rfl | rfl | rfl <;> norm_num)
    have e0 : uvarint 0 (fieldNum * 8 + 2) = [fieldNum * 8 + 2] := rfl
    rw [e0] at h
    simp only [Nat.zero_add, pow_zero, Nat.mul_one, List.length_singleton] at h
    rw [hbuf]
    simpa only [List.append_assoc] using h
  have hread : readString (pre ++ fieldBytes fieldNum field ++ rest) (pre.length + 1) =
      some (.ok (field, pre.length + (fieldBytes fieldNum field).length)) := by
    have h := readString_field (pre ++ [fieldNum * 8 + 2]) field rest (by rw [← hbuf]; exact hlen)
    rw [← hbuf] at h
    simp only [List.length_append, List.length_singleton] at h
    rw [h]
    simp only [fieldBytes, List.length_cons, List.length_append]
    congr 3
    omega
  have hlt : pre.length < (pre ++ fieldBytes fieldNum field ++ rest).length := by
    simp only [fieldBytes, List.length_append, List.length_cons]
    omega
  rw [unmarshalLoop, if_pos hlt]
  simp only
  rw [htag]
  simp only
  rw [hread]
  rcases hnum with rfl | rfl | rfl
  · have hf : toInt32 1 = 1 := by decide
    have hw : 10 &&& 7 = 2 := by decide
    simp [hf, hw, Service.setField]
  · have hf : toInt32 2 = 2 := by decide
    have hw : 18 &&& 7 = 2 := by decide
    simp [hf, hw, Service.setField]
  · have hf : toInt32 3 = 3 := by decide
    have hw : 26 &&& 7 = 2 := by decide
    simp [hf, hw, Service.setField]

theorem length_le_encodeFields (fs : List (Nat × List Nat)) :
    fs.length ≤ (encodeFields fs).length := by
  induction fs with
  | nil => simp [encodeFields]
  | cons p rest ih =>
    obtain ⟨n, f⟩ := p
    simp only [encodeFields, fieldBytes, List.length_cons, List.length_append]
    omega

/-- The loop of Unmarshal on the wire form of a sequence of string fields makes the
assignments of the fields in order. -/
theorem unmarshalLoop_fields : ∀ (fs : List (Nat × List Nat)) (pre : List Nat) (m : Service)
    (fuel : Nat), (∀ p ∈ fs, p.1 = 1 ∨ p.1 = 2 ∨ p.1 = 3) →
      (pre ++ encodeFields fs).length < 2 ^ 63 → fs.length < fuel →
      unmarshalLoop (pre ++ encodeFields fs) fuel m pre.length =
        some (.ok (fs.foldl (fun m p => m.setField p.1 p.2) m)) := by
  intro fs
  induction fs with
  | nil =>
    intro pre m fuel _ _ hfuel
    obtain ⟨f, rfl⟩ : ∃ f, fuel = f + 1 := ⟨fuel - 1, by simp at hfuel; omega⟩
    rw [unmarshalLoop]
    simp [encodeFields]
  | cons p rest ih =>
    intro pre m fuel hnum hlen hfuel
    obtain ⟨n, field⟩ := p
    obtain ⟨f, rfl⟩ : ∃ f, fuel = f + 1 := ⟨fuel - 1, by simp at hfuel; omega⟩
    have hbuf : pre ++ encodeFields ((n, field) :: rest) =
        pre ++ fieldBytes n field ++ encodeFields rest := by
      simp [encodeFields]
    rw [hbuf] at hlen ⊢
    rw [unmarshalLoop_field pre field (encodeFields rest) n f m
      (hnum (n, field) (List.mem_cons_self _ _)) hlen]
    have hrec := ih (pre ++ fieldBytes n field) (m.setField n field) f
      (fun q hq => hnum q (List.mem_cons_of_mem _ hq)) hlen
      (by simpa using hfuel)
    simp only [List.length_append] at hrec
    rw [hrec]
    rfl

theorem encodeFields_fields (m : Service) :
    encodeFields m.fields =
      optionalField 1 m.Id ++ optionalField 2 m.Typ ++ optionalField 3 m.ServiceEndpoint := by
  obtain ⟨a, b, c⟩ := m
  cases a <;> cases b <;> cases c <;>
    simp [Service.fields, optionalField, encodeFields]

theorem foldl_setField_fields (m : Service) :
    m.fields.foldl (fun m p => m.setField p.1 p.2)
      { Id := [], Typ := [], ServiceEndpoint := [] } = m := by
  obtain ⟨a, b, c⟩ := m
  cases a <;> cases b <;> cases c <;> simp [Service.fields, Service.setField]

theorem fields_numbers (m : Service) : ∀ p ∈ m.fields, p.1 = 1 ∨ p.1 = 2 ∨ p.1 = 3 := by
  intro p hp
  unfold Service.fields at hp
  have hmem := List.mem_of_mem_filter hp
  simp only [List.mem_cons, List.mem_singleton, List.not_mem_nil, or_false] at hmem
  rcases hmem with rfl | rfl | rfl
  · exact Or.inl rfl
  · exact Or.inr (Or.inl rfl)
  · exact Or.inr (Or.inr rfl)

theorem length_le_Size (m : Service) :
    m.Id.length ≤ m.Size ∧ m.Typ.length ≤ m.Size ∧ m.ServiceEndpoint.length ≤ m.Size := by
  unfold Service.Size
  simp only
  split_ifs <;> omega

/-- C38: for every Service whose size fits an `int`, as the size of every Go value does,
Marshal returns an output of exactly Size() bytes, and Unmarshal of that output into an
empty Service returns no error and leaves the receiver equal to the Service. -/
theorem service_round_trip (s : Service) (hsize : s.Size < 2 ^ 63) :
    ∃ out, s.Marshal = some out ∧ out.length = s.Size ∧
      Service.Unmarshal { Id := [], Typ := [], ServiceEndpoint := [] } out = some (.ok s) := by
  obtain ⟨l1, l2, l3⟩ := length_le_Size s
  have h1 : s.Id.length < 2 ^ 64 := by omega
  have h2 : s.Typ.length < 2 ^ 64 := by omega
  have h3 : s.ServiceEndpoint.length < 2 ^ 64 := by omega
  have hout : (encodeFields s.fields).length = s.Size := by
    rw [encodeFields_fields, Size_eq s h1 h2 h3]
    simp only [List.length_append]
  refine ⟨encodeFields s.fields, ?_, hout, ?_⟩
  · rw [Marshal_eq s h1 h2 h3, encodeFields_fields]
  · unfold Service.Unmarshal
    have h := unmarshalLoop_fields s.fields [] { Id := [], Typ := [], ServiceEndpoint := [] }
      ((encodeFields s.fields).length + 1) (fields_numbers s)
      (by rw [List.nil_append, hout]; exact hsize)
      (Nat.lt_succ_of_le (length_le_encodeFields s.fields))
    rw [List.nil_append, List.length_nil] at h
    rw [h, foldl_setField_fields]

theorem service_round_trip_witness :
    someService.Size < 2 ^ 63 ∧
    ∃ out, someService.Marshal = some out ∧ out.length = someService.Size ∧
      Service.Unmarshal { Id := [], Typ := [], ServiceEndpoint := [] } out =
        some (.ok someService) :=
  ⟨by decide, service_round_trip someService (by decide)⟩

/-- C39: on every byte sequence, and for every receiver, Unmarshal of Service returns nil
or an error, without an index out of range and within one iteration more than there are
bytes; so does skipDid.  A truncated varint, a length that runs past the end and an
unfinished group end in ErrUnexpectedEOF, and an unknown field is skipped. -/
theorem unmarshal_is_total (m : Service) (dAtA : List Nat) :
    (∃ r, Service.Unmarshal m dAtA = some r) ∧
    (∃ r, skipDid dAtA = some r) ∧
    (∀ n, skipDid dAtA = some (.ok n) → 0 < n) ∧
    Service.Unmarshal m [0x0a, 0x80] = some (.error .ErrUnexpectedEOF) ∧
    Service.Unmarshal m [0x0a, 0x05, 0x61] = some (.error .ErrUnexpectedEOF) ∧
    Service.Unmarshal m [0x23, 0x20, 0x01] = some (.error .ErrUnexpectedEOF) ∧
    Service.Unmarshal m [0x20, 0x01] = some (.ok m) := by
  refine ⟨?_, ?_, ?_, by rfl, by rfl, by rfl, by rfl⟩
  · exact unmarshalLoop_total dAtA (dAtA.length + 1) m 0 (Nat.zero_le _) (by omega)
  · rcases skipDid_cases dAtA with ⟨e, he⟩ | ⟨n, hn, _⟩
    · exact ⟨_, he⟩
    · exact ⟨_, hn⟩
  · intro n hn
    rcases skipDid_cases dAtA with ⟨e, he⟩ | ⟨n2, hn2, hpos⟩
    · rw [he] at hn
      cases hn
    · rw [hn2] at hn
      simp only [Option.some.injEq, Except.ok.injEq] at hn
      omega

/-- C40: for a 64-bit v, sovDid(v) lies between 1 and 10 and is the least positive n
with v < 2^(7n); for an offset of the buffer that is at least sovDid(v),
encodeVarintDid writes sovDid(v) bytes that end just before the offset, returns the index
of the first of them and leaves the bytes before and after them unchanged; and the
base-128 loop of Unmarshal reads v back from the returned index and stops at the
offset. -/
theorem varint_round_trip (dAtA : List Nat) (offset v : Nat) (hv : v < 2 ^ 64)
    (hoffset : sovDid v ≤ offset) (hbuffer : offset ≤ dAtA.length) :
    1 ≤ sovDid v ∧ sovDid v ≤ 10 ∧ v < 2 ^ (7 * sovDid v) ∧
    (∀ n, 1 ≤ n → v < 2 ^ (7 * n) → sovDid v ≤ n) ∧
    ∃ after bytes,
      encodeVarintDid dAtA offset v = some (after, offset - sovDid v) ∧
      bytes.length = sovDid v ∧ bytes.all (fun b => decide (b < 256)) = true ∧
      after = dAtA.take (offset - sovDid v) ++ bytes ++ dAtA.drop offset ∧
      after.length = dAtA.length ∧
      decodeVarint after 11 0 (offset - sovDid v) 0 = some (.ok (v, offset)) := by
  obtain ⟨s1, s2, s3, s4⟩ := sovDid_spec v hv
  refine ⟨s1, s2, s3, s4, ?_⟩
  have hlenuv := uvarint_length_eq_sovDid v hv
  have hpre : (dAtA.take (offset - sovDid v)).length = offset - sovDid v := by
    rw [List.length_take]
    omega
  have hjunk : ((dAtA.drop (offset - sovDid v)).take (sovDid v)).length = sovDid v := by
    rw [List.length_take, List.length_drop]
    omega
  have hparts : dAtA = dAtA.take (offset - sovDid v) ++
      (dAtA.drop (offset - sovDid v)).take (sovDid v) ++ dAtA.drop offset := by
    have hd : (dAtA.drop (offset - sovDid v)).drop (sovDid v) = dAtA.drop offset := by
      rw [List.drop_drop]
      congr 1
      omega
    rw [List.append_assoc, ← hd, List.take_append_drop, List.take_append_drop]
  have henc := encodeVarintDid_parts (dAtA.take (offset - sovDid v))
    ((dAtA.drop (offset - sovDid v)).take (sovDid v)) (dAtA.drop offset) v hv hjunk
  rw [← hparts, hpre, hjunk, Nat.sub_add_cancel hoffset] at henc
  have hdec := decodeVarint_uvarint 9 v (dAtA.take (offset - sovDid v)) (dAtA.drop offset)
    0 0 11 (by norm_num; omega) (by norm_num) (by norm_num) (by norm_num) (by norm_num; omega)
  simp only [Nat.zero_add, pow_zero, Nat.mul_one, hpre, hlenuv,
    Nat.sub_add_cancel hoffset] at hdec
  refine ⟨_, uvarint 9 v, henc, hlenuv, ?_, rfl, ?_, hdec⟩
  · rw [List.all_eq_true]
    intro b hb
    exact decide_eq_true (uvarint_lt_256 9 v (by norm_num; omega) b hb)
  · simp only [List.length_append, hpre, hlenuv, List.length_drop]
    omega

theorem varint_round_trip_witness :
    sovDid 300 = 2 ∧
    ∃ after bytes,
      encodeVarintDid [0, 0, 0, 0, 0] 4 300 = some (after, 4 - sovDid 300) ∧
      bytes.length = sovDid 300 ∧ bytes.all (fun b => decide (b < 256)) = true ∧
      after = [0, 0, 0, 0, 0].take (4 - sovDid 300) ++ bytes ++ [0, 0, 0, 0, 0].drop 4 ∧
      after.length = [0, 0, 0, 0, 0].length ∧
      decodeVarint after 11 0 (4 - sovDid 300) 0 = some (.ok (300, 4)) :=
  ⟨by decide,
    (varint_round_trip [0, 0, 0, 0, 0] 4 300 (by norm_num) (by decide) (by decide)).2.2.2.2⟩

end Pb

end Cheqd
